import Mathlib

/-!
VietQR codec (`internal/vietqr`): a shallow embedding and its properties.

Go strings are immutable byte sequences, so a string is a `List Byte`.
Integers of type `int` / `int64` are `Int`; `uint16` values are `Nat`
reduced modulo `2 ^ 16` wherever the Go operation can overflow.
-/

set_option maxRecDepth 100000

namespace VietQR

/-! ## Go values -/

/-- A Go `byte`. -/
abbrev Byte := Fin 256

/-- A Go `string`: a sequence of bytes, not necessarily valid UTF-8. -/
abbrev GoString := List Byte

/-- A Go `rune` (a Unicode code point). -/
abbrev Rune := Nat

/-- Conversion `byte(n)`: the low 8 bits of `n`. -/
def byteOf (n : Nat) : Byte := ⟨n % 256, Nat.mod_lt n (by decide)⟩

/-- The constant `utf8.RuneError`, U+FFFD. -/
def RuneError : Rune := 0xFFFD

/-- The constant `utf8.RuneSelf`: runes below it are one byte. -/
def RuneSelf : Nat := 0x80

/-- The UTF-8 encoding of a rune, as `utf8.AppendRune`, `strings.Builder.WriteRune`
and the conversion `string([]rune)` produce it: surrogates and values above
U+10FFFF are written as U+FFFD. -/
def encodeRune (r : Rune) : GoString :=
  if r ≤ 0x7F then [byteOf r]
  else if r ≤ 0x7FF then [byteOf (0xC0 ||| (r >>> 6)), byteOf (0x80 ||| (r &&& 0x3F))]
  else if 0x10FFFF < r ∨ (0xD800 ≤ r ∧ r ≤ 0xDFFF) then [0xEF, 0xBF, 0xBD]
  else if r ≤ 0xFFFF then
    [byteOf (0xE0 ||| (r >>> 12)), byteOf (0x80 ||| ((r >>> 6) &&& 0x3F)),
     byteOf (0x80 ||| (r &&& 0x3F))]
  else
    [byteOf (0xF0 ||| (r >>> 18)), byteOf (0x80 ||| ((r >>> 12) &&& 0x3F)),
     byteOf (0x80 ||| ((r >>> 6) &&& 0x3F)), byteOf (0x80 ||| (r &&& 0x3F))]

/-- The bytes of a string literal of the source (its UTF-8 encoding). -/
def str (s : String) : GoString := s.toList.flatMap (fun c => encodeRune c.toNat)

/-- The accepted range of the second byte of a multi-byte sequence that starts
with `b0`, and the sequence's size (`first` and `acceptRanges` of `unicode/utf8`);
`none` for a byte that cannot start a multi-byte sequence. -/
def utf8Lead (b0 : Nat) : Option (Nat × Nat × Nat) :=
  if 0xC2 ≤ b0 ∧ b0 ≤ 0xDF then some (2, 0x80, 0xBF)
  else if b0 = 0xE0 then some (3, 0xA0, 0xBF)
  else if 0xE1 ≤ b0 ∧ b0 ≤ 0xEC then some (3, 0x80, 0xBF)
  else if b0 = 0xED then some (3, 0x80, 0x9F)
  else if 0xEE ≤ b0 ∧ b0 ≤ 0xEF then some (3, 0x80, 0xBF)
  else if b0 = 0xF0 then some (4, 0x90, 0xBF)
  else if 0xF1 ≤ b0 ∧ b0 ≤ 0xF3 then some (4, 0x80, 0xBF)
  else if b0 = 0xF4 then some (4, 0x80, 0x8F)
  else none

/-- The function `utf8.DecodeRuneInString` on a non-empty string `b0 :: rest`: the
first rune and its width in bytes. An invalid or truncated encoding gives
`(RuneError, 1)`. The same decoding drives `for _, r := range s` and `[]rune(s)`. -/
def decodeRune (b0 : Byte) (rest : GoString) : Rune × Nat :=
  if b0.val < RuneSelf then (b0.val, 1)
  else
    match utf8Lead b0.val with
    | none => (RuneError, 1)
    | some (sz, lo, hi) =>
      match rest with
      | [] => (RuneError, 1)
      | b1 :: rest1 =>
        if b1.val < lo ∨ hi < b1.val then (RuneError, 1)
        else if sz ≤ 2 then (((b0.val &&& 0x1F) <<< 6) ||| (b1.val &&& 0x3F), 2)
        else
          match rest1 with
          | [] => (RuneError, 1)
          | b2 :: rest2 =>
            if b2.val < 0x80 ∨ 0xBF < b2.val then (RuneError, 1)
            else if sz ≤ 3 then
              (((b0.val &&& 0x0F) <<< 12) ||| ((b1.val &&& 0x3F) <<< 6) ||| (b2.val &&& 0x3F), 3)
            else
              match rest2 with
              | [] => (RuneError, 1)
              | b3 :: _ =>
                if b3.val < 0x80 ∨ 0xBF < b3.val then (RuneError, 1)
                else
                  (((b0.val &&& 0x07) <<< 18) ||| ((b1.val &&& 0x3F) <<< 12) |||
                    ((b2.val &&& 0x3F) <<< 6) ||| (b3.val &&& 0x3F), 4)

/-- The runes of a string in order, with at most `fuel` decoding steps. -/
def runesAux : Nat → GoString → List Rune
  | 0, _ => []
  | _, [] => []
  | fuel + 1, b0 :: rest =>
    let d := decodeRune b0 rest
    d.1 :: runesAux fuel (rest.drop (d.2 - 1))

/-- The conversion `[]rune(s)`, which is also the sequence of runes that
`for _, r := range s` visits. Every step consumes at least one byte, so
`s.length` steps reach the end of the string. -/
def runes (s : GoString) : List Rune := runesAux s.length s

/-- The conversion `string(rs)` of a rune slice. -/
def stringOfRunes (rs : List Rune) : GoString := rs.flatMap encodeRune

/-! ## crc.go -/

def crcPoly : Nat := 0x1021
def crcInit : Nat := 0xFFFF
def crcXorOut : Nat := 0x0000

/-- One pass of the inner loop of `CalculateCRC16` on the `uint16` register. -/
def crcShift (crc : Nat) : Nat :=
  if crc &&& 0x8000 ≠ 0 then ((crc <<< 1) % 2 ^ 16) ^^^ crcPoly
  else (crc <<< 1) % 2 ^ 16

/-- The body of the outer loop of `CalculateCRC16` for the byte `b`:
`crc ^= uint16(b) << 8` followed by the eight passes `i = 0 .. 7`. -/
def crcByte (crc : Nat) (b : Byte) : Nat :=
  let crc := crc ^^^ ((b.val <<< 8) % 2 ^ 16)
  crcShift (crcShift (crcShift (crcShift (crcShift (crcShift (crcShift (crcShift crc)))))))

/-- The function `CalculateCRC16`. -/
def CalculateCRC16 (data : GoString) : Nat :=
  (data.foldl crcByte crcInit) ^^^ crcXorOut

/-- The string constant `hexDigits` of `sprintf`. -/
def hexDigits : GoString := str "0123456789ABCDEF"

/-- The function `sprintf` of crc.go; the format argument is ignored by the source. -/
def sprintf (v : Nat) : GoString :=
  [hexDigits.getD ((v >>> 12) &&& 0xF) 0, hexDigits.getD ((v >>> 8) &&& 0xF) 0,
   hexDigits.getD ((v >>> 4) &&& 0xF) 0, hexDigits.getD (v &&& 0xF) 0]

/-- The function `CRC16String`. -/
def CRC16String (data : GoString) : GoString :=
  sprintf (CalculateCRC16 data)

/-- The function `CRC16StringWithTag`. -/
def CRC16StringWithTag (data : GoString) : GoString :=
  let dataWithCRCTag := data ++ str "6304"
  sprintf (CalculateCRC16 dataWithCRCTag)

/-! ## strconv -/

/-- The byte of an ASCII character literal. -/
def chr (c : Char) : Byte := byteOf c.toNat

/-- Decimal digits of `n`, most significant first, with at most `fuel` digits. -/
def formatNatAux : Nat → Nat → GoString
  | 0, _ => []
  | fuel + 1, n =>
    if n < 10 then [byteOf (48 + n)]
    else formatNatAux fuel (n / 10) ++ [byteOf (48 + n % 10)]

/-- Decimal representation of a natural number; a number has at most `n + 1` digits. -/
def formatNat (n : Nat) : GoString := formatNatAux (n + 1) n

/-- The function `strconv.FormatInt(i, 10)`. -/
def FormatInt (i : Int) : GoString :=
  if i < 0 then chr '-' :: formatNat (-i).toNat else formatNat i.toNat

/-- The function `strconv.Itoa`, which is `FormatInt(int64(i), 10)`. -/
def Itoa (i : Int) : GoString := FormatInt i

/-- The digit loop shared by `strconv.ParseUint` (base 10) and the fast path of
`strconv.Atoi`: the value read so far is `acc`; a byte that is not a decimal
digit is a syntax error (`none`). -/
def parseDigits : GoString → Nat → Option Nat
  | [], acc => some acc
  | c :: cs, acc =>
    if 48 ≤ c.val ∧ c.val ≤ 57 then parseDigits cs (acc * 10 + (c.val - 48)) else none

/-- The call `strconv.ParseInt(s, 10, 64)`: `none` stands for a non-nil error
(syntax or range), `some n` for the value with a nil error. A leading `+` or `-`
is the sign (`neg` in the source is `c = '-'`), the rest goes through the digit
loop of `ParseUint`, and the magnitude is checked against the `int64` range. -/
def ParseInt (s : GoString) : Option Int :=
  match s with
  | [] => none
  | c :: cs =>
    let body := if c = chr '+' ∨ c = chr '-' then cs else c :: cs
    if body = [] then none
    else
      match parseDigits body 0 with
      | none => none
      | some un =>
        if c ≠ chr '-' ∧ 2 ^ 63 ≤ un then none
        else if c = chr '-' ∧ 2 ^ 63 < un then none
        else some (if c = chr '-' then -(un : Int) else (un : Int))

/-- The function `strconv.Atoi` on a 64-bit platform: the fast path for strings of
1 to 18 bytes, `ParseInt(s, 10, 0)` otherwise; `none` stands for a non-nil error. -/
def Atoi (s : GoString) : Option Int :=
  if 0 < s.length ∧ s.length < 19 then
    match s with
    | [] => none
    | c :: cs =>
      let body := if c = chr '-' ∨ c = chr '+' then cs else c :: cs
      if (c = chr '-' ∨ c = chr '+') ∧ body.length < 1 then none
      else
        match parseDigits body 0 with
        | none => none
        | some n => some (if c = chr '-' then -(n : Int) else (n : Int))
  else ParseInt s

/-! ## strings.EqualFold -/

/-- The function `unicode.SimpleFold` on the folding orbits that contain an ASCII
rune: the letters, with `K k U+212A` and `S s U+017F` being orbits of three.
Runes without case are fixed. Orbits made only of non-ASCII runes are not
tabulated here; `EqualFold` is only ever called by this package with the
result of `sprintf` as its first argument, whose runes are all ASCII. -/
def SimpleFold (r : Rune) : Rune :=
  if r = 0x4B then 0x6B
  else if r = 0x6B then 0x212A
  else if r = 0x212A then 0x4B
  else if r = 0x53 then 0x73
  else if r = 0x73 then 0x17F
  else if r = 0x17F then 0x53
  else if 0x41 ≤ r ∧ r ≤ 0x5A then r + 0x20
  else if 0x61 ≤ r ∧ r ≤ 0x7A then r - 0x20
  else r

/-- The loop `for r != sr && r < tr { r = unicode.SimpleFold(r) }` of `EqualFold`;
an orbit has at most four runes, so three steps always reach the exit. -/
def foldLoop : Nat → Rune → Rune → Rune → Rune
  | 0, _, _, r => r
  | fuel + 1, sr, tr, r =>
    if r ≠ sr ∧ r < tr then foldLoop fuel sr tr (SimpleFold r) else r

/-- One comparison of the `hasUnicode` loop of `EqualFold`: `true` for `continue`,
`false` for `return false`. -/
def equalFoldRune (sr tr : Rune) : Bool :=
  if tr = sr then true
  else
    let lo := if tr < sr then tr else sr
    let hi := if tr < sr then sr else tr
    if hi < RuneSelf then
      decide (0x41 ≤ lo ∧ lo ≤ 0x5A ∧ hi = lo + 0x61 - 0x41)
    else
      decide (foldLoop 3 lo hi (SimpleFold lo) = hi)

/-- The `hasUnicode` part of `EqualFold`: the runes of the rest of `s` against
the rest of `t`, which is decoded rune by rune. -/
def equalFoldRunes : List Rune → GoString → Bool
  | [], t => t.length == 0
  | _ :: _, [] => false
  | sr :: srs, t0 :: t1 =>
    let d := if t0.val < RuneSelf then (t0.val, 1) else decodeRune t0 t1
    if equalFoldRune sr d.1 then equalFoldRunes srs (t1.drop (d.2 - 1)) else false

/-- The function `strings.EqualFold`: the ASCII fast path, which hands over to the
rune loop at the first position where either string has a byte of `0x80` or more. -/
def EqualFold : GoString → GoString → Bool
  | s0 :: s1, t0 :: t1 =>
    if RuneSelf ≤ s0.val ||| t0.val then equalFoldRunes (runes (s0 :: s1)) (t0 :: t1)
    else if t0 = s0 then EqualFold s1 t1
    else
      let lo := if t0.val < s0.val then t0.val else s0.val
      let hi := if t0.val < s0.val then s0.val else t0.val
      if 0x41 ≤ lo ∧ lo ≤ 0x5A ∧ hi = lo + 0x61 - 0x41 then EqualFold s1 t1 else false
  | s, t => s.length == t.length

/-! ## encoder.go -/

def TagPayloadFormat : GoString := str "00"
def TagInitiationMethod : GoString := str "01"
def TagMerchantAccount : GoString := str "38"
def TagMerchantCategory : GoString := str "52"
def TagCurrency : GoString := str "53"
def TagAmount : GoString := str "54"
def TagTipIndicator : GoString := str "55"
def TagCountry : GoString := str "58"
def TagMerchantName : GoString := str "59"
def TagMerchantCity : GoString := str "60"
def TagPostalCode : GoString := str "61"
def TagAdditionalData : GoString := str "62"
def TagCRC : GoString := str "63"

def SubTagGUID : GoString := str "00"
def SubTagBankBin : GoString := str "01"
def SubTagAccountNumber : GoString := str "02"
def SubTagTransferMethod : GoString := str "03"

def SubTagPurpose : GoString := str "08"

def PayloadFormatEMV : GoString := str "01"
def InitiationStatic : GoString := str "11"
def InitiationDynamic : GoString := str "12"
def CurrencyVND : GoString := str "704"
def CountryVN : GoString := str "VN"
def NAPAS_GUID : GoString := str "A000000727"
def TransferToAccount : GoString := str "QRIBFTTA"
def TransferToCard : GoString := str "QRIBFTTC"

/-- The struct `TransferInfo`; `Amount` is an `int64`. -/
structure TransferInfo where
  BankBin : GoString
  AccountNumber : GoString
  Amount : Int
  Message : GoString
  MerchantName : GoString
  MerchantCity : GoString
  IsDynamic : Bool
  Editable : Bool
deriving DecidableEq, Repr

/-- The zero value of `TransferInfo`, as a composite literal without fields gives it. -/
def TransferInfo.zero : TransferInfo :=
  ⟨[], [], 0, [], [], [], false, false⟩

/-- The function `formatLength`. -/
def formatLength (length : Int) : GoString :=
  if length < 10 then str "0" ++ Itoa length else Itoa length

/-- The function `appendTLVTo`; the builder is the string written so far. -/
def appendTLVTo (sb : GoString) (tag value : GoString) : GoString :=
  sb ++ tag ++ formatLength value.length ++ value

/-- The function `truncateString`. -/
def truncateString (s : GoString) (maxLen : Nat) : GoString :=
  let rs := runes s
  if rs.length ≤ maxLen then s else stringOfRunes (rs.take maxLen)

/-- The map `vietnameseToASCII`, in the order of the source. -/
def vietnameseToASCII : List (Char × Char) := [
  -- Lowercase
  ('á', 'a'), ('à', 'a'), ('ả', 'a'), ('ã', 'a'), ('ạ', 'a'),
  ('ă', 'a'), ('ắ', 'a'), ('ằ', 'a'), ('ẳ', 'a'), ('ẵ', 'a'), ('ặ', 'a'),
  ('â', 'a'), ('ấ', 'a'), ('ầ', 'a'), ('ẩ', 'a'), ('ẫ', 'a'), ('ậ', 'a'),
  ('é', 'e'), ('è', 'e'), ('ẻ', 'e'), ('ẽ', 'e'), ('ẹ', 'e'),
  ('ê', 'e'), ('ế', 'e'), ('ề', 'e'), ('ể', 'e'), ('ễ', 'e'), ('ệ', 'e'),
  ('í', 'i'), ('ì', 'i'), ('ỉ', 'i'), ('ĩ', 'i'), ('ị', 'i'),
  ('ó', 'o'), ('ò', 'o'), ('ỏ', 'o'), ('õ', 'o'), ('ọ', 'o'),
  ('ô', 'o'), ('ố', 'o'), ('ồ', 'o'), ('ổ', 'o'), ('ỗ', 'o'), ('ộ', 'o'),
  ('ơ', 'o'), ('ớ', 'o'), ('ờ', 'o'), ('ở', 'o'), ('ỡ', 'o'), ('ợ', 'o'),
  ('ú', 'u'), ('ù', 'u'), ('ủ', 'u'), ('ũ', 'u'), ('ụ', 'u'),
  ('ư', 'u'), ('ứ', 'u'), ('ừ', 'u'), ('ử', 'u'), ('ữ', 'u'), ('ự', 'u'),
  ('ý', 'y'), ('ỳ', 'y'), ('ỷ', 'y'), ('ỹ', 'y'), ('ỵ', 'y'),
  ('đ', 'd'),
  -- Uppercase
  ('Á', 'A'), ('À', 'A'), ('Ả', 'A'), ('Ã', 'A'), ('Ạ', 'A'),
  ('Ă', 'A'), ('Ắ', 'A'), ('Ằ', 'A'), ('Ẳ', 'A'), ('Ẵ', 'A'), ('Ặ', 'A'),
  ('Â', 'A'), ('Ấ', 'A'), ('Ầ', 'A'), ('Ẩ', 'A'), ('Ẫ', 'A'), ('Ậ', 'A'),
  ('É', 'E'), ('È', 'E'), ('Ẻ', 'E'), ('Ẽ', 'E'), ('Ẹ', 'E'),
  ('Ê', 'E'), ('Ế', 'E'), ('Ề', 'E'), ('Ể', 'E'), ('Ễ', 'E'), ('Ệ', 'E'),
  ('Í', 'I'), ('Ì', 'I'), ('Ỉ', 'I'), ('Ĩ', 'I'), ('Ị', 'I'),
  ('Ó', 'O'), ('Ò', 'O'), ('Ỏ', 'O'), ('Õ', 'O'), ('Ọ', 'O'),
  ('Ô', 'O'), ('Ố', 'O'), ('Ồ', 'O'), ('Ổ', 'O'), ('Ỗ', 'O'), ('Ộ', 'O'),
  ('Ơ', 'O'), ('Ớ', 'O'), ('Ờ', 'O'), ('Ở', 'O'), ('Ỡ', 'O'), ('Ợ', 'O'),
  ('Ú', 'U'), ('Ù', 'U'), ('Ủ', 'U'), ('Ũ', 'U'), ('Ụ', 'U'),
  ('Ư', 'U'), ('Ứ', 'U'), ('Ừ', 'U'), ('Ử', 'U'), ('Ữ', 'U'), ('Ự', 'U'),
  ('Ý', 'Y'), ('Ỳ', 'Y'), ('Ỷ', 'Y'), ('Ỹ', 'Y'), ('Ỵ', 'Y'),
  ('Đ', 'D')
]

/-- The map lookup `vietnameseToASCII[r]`, with its `ok` flag as `Option`. -/
def vietnameseLookup (r : Rune) : Option Rune :=
  (vietnameseToASCII.find? (fun p => p.1.toNat = r)).map (fun p => p.2.toNat)

/-- The function `removeVietnameseDiacritics`. -/
def removeVietnameseDiacritics (s : GoString) : GoString :=
  (runes s).flatMap (fun r =>
    match vietnameseLookup r with
    | some mapped => encodeRune mapped
    | none => if r < 128 then encodeRune r else encodeRune (chr ' ').val)

/-- The struct `Encoder`: its `strings.Builder`, as the string written so far. -/
structure Encoder where
  builder : GoString
deriving DecidableEq, Repr

/-- The function `NewEncoder`. -/
def NewEncoder : Encoder := ⟨[]⟩

/-- The method `Encoder.appendTLV`. -/
def Encoder.appendTLV (e : Encoder) (tag value : GoString) : Encoder :=
  ⟨appendTLVTo e.builder tag value⟩

/-- The method `Encoder.buildBeneficiaryOrg`. -/
def buildBeneficiaryOrg (bankBin accountNumber : GoString) : GoString :=
  let sb : GoString := []
  let sb := appendTLVTo sb (str "00") bankBin
  let sb := appendTLVTo sb (str "01") accountNumber
  sb

/-- The method `Encoder.buildMerchantAccount`. -/
def buildMerchantAccount (bankBin accountNumber : GoString) : GoString :=
  let sb : GoString := []
  let sb := appendTLVTo sb SubTagGUID NAPAS_GUID
  let beneficiary := buildBeneficiaryOrg bankBin accountNumber
  let sb := appendTLVTo sb (str "01") beneficiary
  let sb := appendTLVTo sb (str "02") TransferToAccount
  sb

/-- The method `Encoder.buildAdditionalData`. -/
def buildAdditionalData (message : GoString) : GoString :=
  let sb : GoString := []
  let msg := truncateString (removeVietnameseDiacritics message) 50
  let sb := appendTLVTo sb SubTagPurpose msg
  sb

/-- The method `Encoder.Encode`: the builder is reset first, so the result does
not depend on what the encoder wrote before. -/
def Encoder.Encode (_e : Encoder) (info : TransferInfo) : GoString :=
  let e : Encoder := ⟨[]⟩
  let e := e.appendTLV TagPayloadFormat PayloadFormatEMV
  let e :=
    if info.Editable then e.appendTLV TagInitiationMethod InitiationStatic
    else if info.IsDynamic ∨ info.Amount > 0 then
      e.appendTLV TagInitiationMethod InitiationDynamic
    else e.appendTLV TagInitiationMethod InitiationStatic
  let merchantAccount := buildMerchantAccount info.BankBin info.AccountNumber
  let e := e.appendTLV TagMerchantAccount merchantAccount
  let e := e.appendTLV TagCurrency CurrencyVND
  let e := if info.Amount > 0 then e.appendTLV TagAmount (FormatInt info.Amount) else e
  let e := e.appendTLV TagCountry CountryVN
  let e :=
    if info.MerchantName ≠ [] then
      e.appendTLV TagMerchantName
        (truncateString (removeVietnameseDiacritics info.MerchantName) 25)
    else e
  let city := info.MerchantCity
  let city := if city = [] then str "Ha Noi" else city
  let city := truncateString (removeVietnameseDiacritics city) 15
  let e := e.appendTLV TagMerchantCity city
  let e :=
    if info.Message ≠ [] then e.appendTLV TagAdditionalData (buildAdditionalData info.Message)
    else e
  let qrWithoutCRC := e.builder
  let crc := CRC16StringWithTag qrWithoutCRC
  e.builder ++ TagCRC ++ str "04" ++ crc

/-- The package-level function `Encode`. -/
def Encode (info : TransferInfo) : GoString := NewEncoder.Encode info

/-! ## decoder.go -/

/-- The error values of the package. -/
inductive GoError where
  | ErrInvalidQRString
  | ErrInvalidCRC
  | ErrInvalidLength
  | ErrMissingField
  | ErrUnsupportedFormat
deriving DecidableEq, Repr

/-- How a call ends: it returns a value and a nil error (`ok`), it returns a
non-nil error (`err`), or it stops with the run-time panic "slice bounds out of
range" (`panic`). `unfinished` is a loop of the model that was given too few
iterations; the scans below are given enough. -/
inductive Outcome (α : Type) where
  | ok (a : α)
  | err (e : GoError)
  | panic
  | unfinished
deriving DecidableEq, Repr

/-- Sequencing of calls: the first outcome that is not `ok` ends the computation. -/
def Outcome.bind {α β : Type} (x : Outcome α) (f : α → Outcome β) : Outcome β :=
  match x with
  | .ok a => f a
  | .err e => .err e
  | .panic => .panic
  | .unfinished => .unfinished

/-- The slice expression `s[lo:hi]` on a string: `none` is the run-time panic for
indices that are not `0 ≤ lo ≤ hi ≤ len(s)`. -/
def slice (s : GoString) (lo hi : Int) : Option GoString :=
  if 0 ≤ lo ∧ lo ≤ hi ∧ hi ≤ (s.length : Int) then
    some ((s.drop lo.toNat).take (hi - lo).toNat)
  else none

/-- The struct `DecodedInfo`; `Amount` is an `int64`. -/
structure DecodedInfo where
  PayloadFormat : GoString
  InitiationMethod : GoString
  BankBin : GoString
  AccountNumber : GoString
  Amount : Int
  Currency : GoString
  Country : GoString
  MerchantName : GoString
  MerchantCity : GoString
  Message : GoString
  CRC : GoString
  IsValid : Bool
deriving DecidableEq, Repr

/-- The zero value `&DecodedInfo{}`. -/
def DecodedInfo.zero : DecodedInfo :=
  ⟨[], [], [], [], 0, [], [], [], [], [], [], false⟩

/-- The struct `Decoder`. -/
structure Decoder where
  data : GoString
  pos : Int
  length : Int
deriving DecidableEq, Repr

/-- The function `NewDecoder`. -/
def NewDecoder (qrString : GoString) : Decoder :=
  { data := qrString, pos := 0, length := qrString.length }

/-- The method `Decoder.readTLV`: on success the tag, the value and the decoder
with its cursor advanced. After an error the callers leave their loop and never
read the decoder again, so the cursor is not returned then. -/
def Decoder.readTLV (d : Decoder) : Outcome (GoString × GoString × Decoder) :=
  if d.pos + 4 > d.length then .err .ErrInvalidQRString
  else
    match slice d.data d.pos (d.pos + 2) with
    | none => .panic
    | some tag =>
      let d := { d with pos := d.pos + 2 }
      match slice d.data d.pos (d.pos + 2) with
      | none => .panic
      | some lengthStr =>
        let d := { d with pos := d.pos + 2 }
        match Atoi lengthStr with
        | none => .err .ErrInvalidLength
        | some length =>
          if d.pos + length > d.length then .err .ErrInvalidLength
          else
            match slice d.data d.pos (d.pos + length) with
            | none => .panic
            | some value => .ok (tag, value, { d with pos := d.pos + length })

/-- The `switch` of `parseBeneficiaryOrg`. -/
def beneficiaryField (tag value : GoString) (info : DecodedInfo) : DecodedInfo :=
  if tag = str "00" then { info with BankBin := value }
  else if tag = str "01" then { info with AccountNumber := value }
  else info

/-- The loop of `parseBeneficiaryOrg`, run for at most `fuel` iterations. -/
def parseBeneficiaryOrgLoop : Nat → Decoder → DecodedInfo → Outcome DecodedInfo
  | 0, _, _ => .unfinished
  | fuel + 1, decoder, info =>
    if decoder.pos < decoder.length then
      match decoder.readTLV with
      | .ok (tag, value, decoder) =>
        parseBeneficiaryOrgLoop fuel decoder (beneficiaryField tag value info)
      | .err _ => .ok info
      | .panic => .panic
      | .unfinished => .unfinished
    else .ok info

/-- The method `parseBeneficiaryOrg`. Every unit read moves the cursor by four
bytes or more, so the loop runs at most `len(data) / 4 + 1` times. -/
def parseBeneficiaryOrg (data : GoString) (info : DecodedInfo) : Outcome DecodedInfo :=
  let decoder := NewDecoder data
  let decoder := { decoder with length := data.length }
  parseBeneficiaryOrgLoop (data.length / 4 + 1) decoder info

/-- The loop of `parseMerchantAccount`, run for at most `fuel` iterations. -/
def parseMerchantAccountLoop : Nat → Decoder → DecodedInfo → Outcome DecodedInfo
  | 0, _, _ => .unfinished
  | fuel + 1, decoder, info =>
    if decoder.pos < decoder.length then
      match decoder.readTLV with
      | .ok (tag, value, decoder) =>
        (if tag = str "01" then parseBeneficiaryOrg value info else .ok info).bind
          (parseMerchantAccountLoop fuel decoder)
      | .err _ => .ok info
      | .panic => .panic
      | .unfinished => .unfinished
    else .ok info

/-- The method `parseMerchantAccount`. -/
def parseMerchantAccount (data : GoString) (info : DecodedInfo) : Outcome DecodedInfo :=
  let decoder := NewDecoder data
  let decoder := { decoder with length := data.length }
  parseMerchantAccountLoop (data.length / 4 + 1) decoder info

/-- The loop of `parseAdditionalData`, run for at most `fuel` iterations. -/
def parseAdditionalDataLoop : Nat → Decoder → DecodedInfo → Outcome DecodedInfo
  | 0, _, _ => .unfinished
  | fuel + 1, decoder, info =>
    if decoder.pos < decoder.length then
      match decoder.readTLV with
      | .ok (tag, value, decoder) =>
        parseAdditionalDataLoop fuel decoder
          (if tag = SubTagPurpose then { info with Message := value } else info)
      | .err _ => .ok info
      | .panic => .panic
      | .unfinished => .unfinished
    else .ok info

/-- The method `parseAdditionalData`. -/
def parseAdditionalData (data : GoString) (info : DecodedInfo) : Outcome DecodedInfo :=
  let decoder := NewDecoder data
  let decoder := { decoder with length := data.length }
  parseAdditionalDataLoop (data.length / 4 + 1) decoder info

/-- The `switch` of `Decoder.Decode` on the tag of a unit just read. -/
def decodeField (tag value : GoString) (info : DecodedInfo) : Outcome DecodedInfo :=
  if tag = TagPayloadFormat then .ok { info with PayloadFormat := value }
  else if tag = TagInitiationMethod then .ok { info with InitiationMethod := value }
  else if tag = TagMerchantAccount then parseMerchantAccount value info
  else if tag = TagCurrency then .ok { info with Currency := value }
  else if tag = TagAmount then
    match ParseInt value with
    | some amt => .ok { info with Amount := amt }
    | none => .ok info
  else if tag = TagCountry then .ok { info with Country := value }
  else if tag = TagMerchantName then .ok { info with MerchantName := value }
  else if tag = TagMerchantCity then .ok { info with MerchantCity := value }
  else if tag = TagAdditionalData then parseAdditionalData value info
  else if tag = TagCRC then .ok { info with CRC := value }
  else .ok info

/-- The loop `for d.pos < d.length` of `Decoder.Decode`, run for at most `fuel`
iterations. -/
def decodeLoop : Nat → Decoder → DecodedInfo → Outcome DecodedInfo
  | 0, _, _ => .unfinished
  | fuel + 1, d, info =>
    if d.pos < d.length then
      match d.readTLV with
      | .ok (tag, value, d) => (decodeField tag value info).bind (decodeLoop fuel d)
      | .err _ => .ok info
      | .panic => .panic
      | .unfinished => .unfinished
    else .ok info

/-- The checksum block at the start of `Decoder.Decode` ("Validate CRC first"). -/
def decodeCRC (d : Decoder) (info : DecodedInfo) : Outcome DecodedInfo :=
  if d.length ≥ 8 then
    let crcPos := d.length - 4
    match slice d.data (crcPos - 4) crcPos with
    | none => .panic
    | some header =>
      if header = str "6304" then
        match slice d.data 0 crcPos, slice d.data crcPos d.data.length with
        | some covered, some actualCRC =>
          let expectedCRC := CRC16String covered
          .ok { info with CRC := actualCRC, IsValid := EqualFold expectedCRC actualCRC }
        | _, _ => .panic
      else .ok info
  else .ok info

/-- The method `Decoder.Decode`. -/
def Decoder.Decode (d : Decoder) : Outcome DecodedInfo :=
  if d.length < 8 then .err .ErrInvalidQRString
  else
    let info := DecodedInfo.zero
    (decodeCRC d info).bind (decodeLoop (d.data.length / 4 + 1) d)

/-- The package-level function `Decode`. -/
def Decode (qrString : GoString) : Outcome DecodedInfo := (NewDecoder qrString).Decode

/-- The function `ValidateCRC`. The `||` of the header test evaluates its slice
only when `crcPos < 4` is false. -/
def ValidateCRC (qrString : GoString) : Outcome Bool :=
  if qrString.length < 8 then .ok false
  else
    let crcPos : Int := (qrString.length : Int) - 4
    if crcPos < 4 then .ok false
    else
      match slice qrString (crcPos - 4) crcPos with
      | none => .panic
      | some header =>
        if header ≠ str "6304" then .ok false
        else
          match slice qrString 0 crcPos with
          | none => .panic
          | some dataForCRC =>
            let expectedCRC := CalculateCRC16 dataForCRC
            match slice qrString crcPos qrString.length with
            | none => .panic
            | some actualCRC => .ok (EqualFold (sprintf expectedCRC) actualCRC)

/-! ## Auxiliary definitions for the statements -/

/-- One TLV unit as `appendTLVTo` writes it to an empty builder. -/
def tlv (tag value : GoString) : GoString := appendTLVTo [] tag value

/-- The initiation-method code that `Encode` selects. -/
def initiationCode (r : TransferInfo) : GoString :=
  if r.Editable then InitiationStatic
  else if r.IsDynamic ∨ r.Amount > 0 then InitiationDynamic
  else InitiationStatic

/-- The city value that `Encode` writes in the unit with tag 60. -/
def cityValue (r : TransferInfo) : GoString :=
  truncateString (removeVietnameseDiacritics
    (if r.MerchantCity = [] then str "Ha Noi" else r.MerchantCity)) 15

/-- Everything `Encode` writes before the checksum unit. -/
def payload (r : TransferInfo) : GoString :=
  tlv TagPayloadFormat PayloadFormatEMV ++
  tlv TagInitiationMethod (initiationCode r) ++
  tlv TagMerchantAccount (buildMerchantAccount r.BankBin r.AccountNumber) ++
  tlv TagCurrency CurrencyVND ++
  (if r.Amount > 0 then tlv TagAmount (FormatInt r.Amount) else []) ++
  tlv TagCountry CountryVN ++
  (if r.MerchantName ≠ [] then
    tlv TagMerchantName (truncateString (removeVietnameseDiacritics r.MerchantName) 25)
   else []) ++
  tlv TagMerchantCity (cityValue r) ++
  (if r.Message ≠ [] then tlv TagAdditionalData (buildAdditionalData r.Message) else [])

/-- The common shape of the four scanning loops of decoder.go: read units while
the cursor is before the end, hand each to `field`, leave at the first read
error. -/
def scanLoop (field : GoString → GoString → DecodedInfo → Outcome DecodedInfo) :
    Nat → Decoder → DecodedInfo → Outcome DecodedInfo
  | 0, _, _ => .unfinished
  | fuel + 1, d, info =>
    if d.pos < d.length then
      match d.readTLV with
      | .ok (tag, value, d) => (field tag value info).bind (scanLoop field fuel d)
      | .err _ => .ok info
      | .panic => .panic
      | .unfinished => .unfinished
    else .ok info

/-- The fields of a list of units applied in order, as a scan over their
serialization applies them. -/
def runFields (field : GoString → GoString → DecodedInfo → Outcome DecodedInfo) :
    List (GoString × GoString) → DecodedInfo → Outcome DecodedInfo
  | [], info => .ok info
  | (tag, value) :: us, info => (field tag value info).bind (runFields field us)

/-- The serialization of a list of units. -/
def serialize (us : List (GoString × GoString)) : GoString :=
  us.flatMap (fun u => tlv u.1 u.2)

/-- The `switch` of `parseMerchantAccount`. -/
def merchantAccountField (tag value : GoString) (info : DecodedInfo) : Outcome DecodedInfo :=
  if tag = str "01" then parseBeneficiaryOrg value info else .ok info

/-- The `switch` of `parseAdditionalData`. -/
def additionalDataField (tag value : GoString) (info : DecodedInfo) : DecodedInfo :=
  if tag = SubTagPurpose then { info with Message := value } else info

/-- The checksum test without slices: at least 8 bytes, the header `6304` right
before the last four bytes, and those four bytes equal under `EqualFold` to the
checksum string of everything before them. -/
def validCRC (s : GoString) : Bool :=
  decide (8 ≤ s.length) && decide ((s.drop (s.length - 8)).take 4 = str "6304") &&
    EqualFold (CRC16String (s.take (s.length - 4))) (s.drop (s.length - 4))

/-- An uppercase hexadecimal digit, `0`-`9` or `A`-`F`. -/
def isUpperHex (b : Byte) : Prop :=
  (48 ≤ b.val ∧ b.val ≤ 57) ∨ (65 ≤ b.val ∧ b.val ≤ 70)

instance (b : Byte) : Decidable (isUpperHex b) := by unfold isUpperHex; infer_instance

/-- ASCII upper-casing of one byte; bytes other than `a`-`z` are kept. -/
def asciiUpper (b : Byte) : Byte :=
  if 97 ≤ b.val ∧ b.val ≤ 122 then byteOf (b.val - 32) else b

/-- One shift of CRC-16/CCITT-FALSE in the words of the specification: shift the
register left by one bit modulo `2 ^ 16` and XOR in `0x1021` when the top bit was
set before the shift. -/
def ccittShift (reg : Nat) : Nat :=
  if reg / 2 ^ 15 % 2 = 1 then (reg * 2 % 2 ^ 16) ^^^ 0x1021 else reg * 2 % 2 ^ 16

/-- CRC-16/CCITT-FALSE in the words of the specification: the register starts
at `0xFFFF`; each byte in order is XORed into the high byte of the register,
which is then shifted 8 times; there is no final XOR. -/
def ccittFalse (data : GoString) : Nat :=
  data.foldl (fun reg b => Nat.iterate ccittShift 8 (reg ^^^ (b.val * 2 ^ 8))) 0xFFFF

/-- The message as a polynomial over GF(2), encoded as a number: bit `i` is the
coefficient of `x ^ i`, and the first bit of the first byte is the leading
coefficient. -/
def messagePoly (data : GoString) : Nat :=
  data.foldl (fun m b => m * 256 + b.val) 0

/-- The product in GF(2)[x] of the polynomial with coefficients `q` (lowest
degree first) and the polynomial encoded by `g`; the sum of GF(2)[x] is `^^^`
and the product by `x ^ k` is `<<< k`. -/
def polyMul : List Bool → Nat → Nat
  | [], _ => 0
  | c :: q, g => (if c then g else 0) ^^^ 2 * polyMul q g

/-- The generator polynomial `x ^ 16 + x ^ 12 + x ^ 5 + 1`. -/
def ccittGenerator : Nat := 2 ^ 16 + 2 ^ 12 + 2 ^ 5 + 1

/-- The register `c` stands for the polynomial `v`: it has 16 bits and differs
from `v` by a multiple of the generator. -/
def Represents (c v : Nat) : Prop :=
  c < 2 ^ 16 ∧ ∃ q : List Bool, v = polyMul q ccittGenerator ^^^ c

/-- A unit that `appendTLVTo` writes faithfully: a 2-byte tag and a value of at
most 99 bytes. -/
def WellFormed (u : GoString × GoString) : Prop := u.1.length = 2 ∧ u.2.length ≤ 99

/-- A string of ASCII bytes only. -/
def isASCII (s : GoString) : Prop := ∀ b ∈ s, b.val < 128

instance (s : GoString) : Decidable (isASCII s) := by unfold isASCII; infer_instance

/-- A transfer whose bank identifier (6 bytes) and account number (56 bytes) have
62 bytes together, so that the merchant-account group has 100 bytes. -/
def longAccount : TransferInfo :=
  { TransferInfo.zero with
    BankBin := str "970436",
    AccountNumber := str "12345678901234567890123456789012345678901234567890123456" }

/-- A transfer with an amount, a message and a merchant name, all within the
length limits. -/
def sampleTransfer : TransferInfo :=
  { BankBin := str "970436", AccountNumber := str "1234567890", Amount := 100000,
    Message := str "Thanh toan", MerchantName := str "NGUYEN VAN A", MerchantCity := [],
    IsDynamic := false, Editable := false }

/-- The units that `Encode` writes before the checksum unit, in order. -/
def payloadUnits (r : TransferInfo) : List (GoString × GoString) :=
  [(TagPayloadFormat, PayloadFormatEMV), (TagInitiationMethod, initiationCode r),
   (TagMerchantAccount, buildMerchantAccount r.BankBin r.AccountNumber),
   (TagCurrency, CurrencyVND)] ++
  (if r.Amount > 0 then [(TagAmount, FormatInt r.Amount)] else []) ++
  [(TagCountry, CountryVN)] ++
  (if r.MerchantName ≠ [] then
    [(TagMerchantName, truncateString (removeVietnameseDiacritics r.MerchantName) 25)]
   else []) ++
  [(TagMerchantCity, cityValue r)] ++
  (if r.Message ≠ [] then [(TagAdditionalData, buildAdditionalData r.Message)] else [])

/-- The record that decoding `Encode r` gives when every unit keeps to two length
digits (see `decode_encode`). -/
def decodedOf (r : TransferInfo) : DecodedInfo :=
  { PayloadFormat := PayloadFormatEMV
    InitiationMethod := initiationCode r
    BankBin := r.BankBin
    AccountNumber := r.AccountNumber
    Amount := r.Amount
    Currency := CurrencyVND
    Country := CountryVN
    MerchantName := truncateString (removeVietnameseDiacritics r.MerchantName) 25
    MerchantCity := cityValue r
    Message := truncateString (removeVietnameseDiacritics r.Message) 50
    CRC := CRC16StringWithTag (payload r)
    IsValid := true }

/-- The value of an uppercase hexadecimal digit; bytes that are no such digit
have none. -/
def hexDigitValue (b : Byte) : Option Nat :=
  if 48 ≤ b.val ∧ b.val ≤ 57 then some (b.val - 48)
  else if 65 ≤ b.val ∧ b.val ≤ 70 then some (b.val - 55)
  else none

/-- The number that a string of uppercase hexadecimal digits denotes, most
significant digit first, continuing from `acc`. -/
def hexValue : GoString → Nat → Option Nat
  | [], acc => some acc
  | c :: cs, acc =>
    match hexDigitValue c with
    | some d => hexValue cs (acc * 16 + d)
    | none => none

/-- What `removeVietnameseDiacritics` turns one rune into, in the words of its
three branches: the table entry when there is one, the rune itself when it is
below 128, a space otherwise. -/
def normalizeRune (r : Rune) : Rune :=
  match vietnameseLookup r with
  | some mapped => mapped
  | none => if r < 128 then r else 32

/-- A Unicode scalar value: at most U+10FFFF and no surrogate. These are the
runes that `encodeRune` writes as themselves. -/
def validRune (r : Nat) : Prop := r ≤ 0x10FFFF ∧ ¬ (0xD800 ≤ r ∧ r ≤ 0xDFFF)

/-- A transfer with Vietnamese text in the message, the name and the city, and
with bytes that are no UTF-8 in the account number. -/
def vietnameseTransfer : TransferInfo :=
  { BankBin := str "970436", AccountNumber := str "12345" ++ [byteOf 255, byteOf 128],
    Amount := 250000, Message := str "Cảm ơn", MerchantName := str "Nguyễn Văn A",
    MerchantCity := str "Đà Nẵng", IsDynamic := false, Editable := false }

/-- The first fixture of `TestEncode`: a bank identifier and an account number,
nothing else. -/
def staticFixture : TransferInfo :=
  { TransferInfo.zero with BankBin := str "970436", AccountNumber := str "1234567890" }

/-- The number of units that a loop `for d.pos < d.length` with `readTLV` in its
body reads from `d` in at most `fuel` iterations, when no handler of a unit ends
the loop before. -/
def unitsRead : Nat → Decoder → Nat
  | 0, _ => 0
  | fuel + 1, d =>
    if d.pos < d.length then
      match d.readTLV with
      | .ok (_, _, d2) => unitsRead fuel d2 + 1
      | _ => 0
    else 0

/-- A remainder at which a scan stops: it is shorter than the four bytes of a
header, or it has a header whose length field declares more bytes than follow. -/
def Truncated (rem : GoString) : Prop :=
  rem.length < 4 ∨
  ∃ tag ls tail : GoString, ∃ n : Int, rem = tag ++ ls ++ tail ∧ tag.length = 2 ∧
    ls.length = 2 ∧ Atoi ls = some n ∧ (tail.length : Int) < n

/-- A transfer whose bank identifier is the one letter `Đ`, which has two bytes
in UTF-8. -/
def nonAsciiBank : TransferInfo :=
  { TransferInfo.zero with BankBin := str "Đ", AccountNumber := str "1234567890" }

/-- The number of ASCII bytes of a string. -/
def asciiCount (s : GoString) : Nat := s.countP (fun b => decide (b.val < 128))

/-- The precomposed Vietnamese letters under their base Latin letters, in the
words of the specification ("all combinations of the Vietnamese diacritic system
for a-y vowels and đ/Đ"): each row has a base letter and the letters made from
it, which are, for the vowel itself and for each of its shapes (breve,
circumflex, horn), the shaped vowel and its five tones acute, grave, hook above,
tilde and dot below; the last row of either case is the barred d. -/
def vietnameseLetters : List (Char × List Char) := [
  ('a', ['á', 'à', 'ả', 'ã', 'ạ', 'ă', 'ắ', 'ằ', 'ẳ', 'ẵ', 'ặ', 'â', 'ấ', 'ầ', 'ẩ', 'ẫ', 'ậ']),
  ('e', ['é', 'è', 'ẻ', 'ẽ', 'ẹ', 'ê', 'ế', 'ề', 'ể', 'ễ', 'ệ']),
  ('i', ['í', 'ì', 'ỉ', 'ĩ', 'ị']),
  ('o', ['ó', 'ò', 'ỏ', 'õ', 'ọ', 'ô', 'ố', 'ồ', 'ổ', 'ỗ', 'ộ', 'ơ', 'ớ', 'ờ', 'ở', 'ỡ', 'ợ']),
  ('u', ['ú', 'ù', 'ủ', 'ũ', 'ụ', 'ư', 'ứ', 'ừ', 'ử', 'ữ', 'ự']),
  ('y', ['ý', 'ỳ', 'ỷ', 'ỹ', 'ỵ']),
  ('d', ['đ']),
  ('A', ['Á', 'À', 'Ả', 'Ã', 'Ạ', 'Ă', 'Ắ', 'Ằ', 'Ẳ', 'Ẵ', 'Ặ', 'Â', 'Ấ', 'Ầ', 'Ẩ', 'Ẫ', 'Ậ']),
  ('E', ['É', 'È', 'Ẻ', 'Ẽ', 'Ẹ', 'Ê', 'Ế', 'Ề', 'Ể', 'Ễ', 'Ệ']),
  ('I', ['Í', 'Ì', 'Ỉ', 'Ĩ', 'Ị']),
  ('O', ['Ó', 'Ò', 'Ỏ', 'Õ', 'Ọ', 'Ô', 'Ố', 'Ồ', 'Ổ', 'Ỗ', 'Ộ', 'Ơ', 'Ớ', 'Ờ', 'Ở', 'Ỡ', 'Ợ']),
  ('U', ['Ú', 'Ù', 'Ủ', 'Ũ', 'Ụ', 'Ư', 'Ứ', 'Ừ', 'Ử', 'Ữ', 'Ự']),
  ('Y', ['Ý', 'Ỳ', 'Ỷ', 'Ỹ', 'Ỵ']),
  ('D', ['Đ'])]

/-- The base Latin letter of a rune, in the words of the specification: the
letter of the row of `vietnameseLetters` that has the rune, and none for a rune
that is no precomposed Vietnamese letter. -/
def baseLetter (r : Rune) : Option Rune :=
  (vietnameseLetters.find? (fun g => g.2.any (fun c => decide (c.toNat = r)))).map
    (fun g => g.1.toNat)

/-! ## Properties -/

theorem appendTLVTo_eq (sb tag value : GoString) :
    appendTLVTo sb tag value = sb ++ tlv tag value := by
  simp [tlv, appendTLVTo, List.append_assoc]

/-- The output of `Encode` is the payload, the checksum header and the checksum
of the payload with that header. -/
theorem encode_eq (r : TransferInfo) :
    Encode r = payload r ++ str "6304" ++ CRC16StringWithTag (payload r) := by
  have h63 : str "6304" = TagCRC ++ str "04" := by decide
  rw [h63]
  simp only [Encode, Encoder.Encode, Encoder.appendTLV, appendTLVTo_eq, List.nil_append,
    payload, initiationCode, cityValue]
  by_cases h1 : r.Editable = true <;> by_cases h2 : r.IsDynamic = true <;>
    by_cases h3 : r.Amount > 0 <;> by_cases h4 : r.MerchantName = [] <;>
    by_cases h5 : r.Message = [] <;>
    simp only [h1, h2, h3, h4, h5, if_true, if_false, ne_eq, not_true_eq_false, Bool.false_eq_true, false_or, or_false,
      not_false_eq_true, or_true, true_or, or_self, List.append_assoc, List.append_nil,
      List.nil_append]

/-! ### The scanning loops as instances of one loop -/

theorem parseBeneficiaryOrgLoop_eq (fuel : Nat) (d : Decoder) (info : DecodedInfo) :
    parseBeneficiaryOrgLoop fuel d info
      = scanLoop (fun t v i => .ok (beneficiaryField t v i)) fuel d info := by
  induction fuel generalizing d info with
  | zero => rfl
  | succ n ih =>
    simp only [parseBeneficiaryOrgLoop, scanLoop]
    split
    · split <;> simp_all [Outcome.bind]
    · rfl

theorem parseMerchantAccountLoop_eq (fuel : Nat) (d : Decoder) (info : DecodedInfo) :
    parseMerchantAccountLoop fuel d info = scanLoop merchantAccountField fuel d info := by
  induction fuel generalizing d info with
  | zero => rfl
  | succ n ih =>
    simp only [parseMerchantAccountLoop, scanLoop, merchantAccountField]
    split
    · split
      · rename_i tag value d2 _
        congr 1
        funext i
        exact ih d2 i
      all_goals rfl
    · rfl

theorem parseAdditionalDataLoop_eq (fuel : Nat) (d : Decoder) (info : DecodedInfo) :
    parseAdditionalDataLoop fuel d info
      = scanLoop (fun t v i => .ok (additionalDataField t v i)) fuel d info := by
  induction fuel generalizing d info with
  | zero => rfl
  | succ n ih =>
    simp only [parseAdditionalDataLoop, scanLoop]
    split
    · split <;> simp_all [Outcome.bind, additionalDataField]
    · rfl

theorem decodeLoop_eq (fuel : Nat) (d : Decoder) (info : DecodedInfo) :
    decodeLoop fuel d info = scanLoop decodeField fuel d info := by
  induction fuel generalizing d info with
  | zero => rfl
  | succ n ih =>
    simp only [decodeLoop, scanLoop]
    split
    · split
      · rename_i tag value d2 _
        congr 1
        funext i
        exact ih d2 i
      all_goals rfl
    · rfl

/-! ### Slices -/

theorem slice_append_mid (a b c : GoString) :
    slice (a ++ b ++ c) (a.length : Int) ((a.length : Int) + (b.length : Int)) = some b := by
  have h1 : (0 : Int) ≤ (a.length : Int) ∧ (a.length : Int) ≤ (a.length : Int) + (b.length : Int) ∧
      (a.length : Int) + (b.length : Int) ≤ ((a ++ b ++ c).length : Int) := by
    simp only [List.length_append, Nat.cast_add]
    omega
  have h2 : ((a.length : Int) + (b.length : Int) - (a.length : Int)).toNat = b.length := by
    omega
  rw [slice, if_pos h1, h2, Int.toNat_ofNat, List.append_assoc, List.drop_left, List.take_left]

theorem slice_some_length {s : GoString} {lo hi : Int} {v : GoString}
    (h : slice s lo hi = some v) :
    0 ≤ lo ∧ lo ≤ hi ∧ hi ≤ (s.length : Int) ∧ (v.length : Int) = hi - lo := by
  unfold slice at h
  split at h
  · rename_i hc
    obtain ⟨h0, h1, h2⟩ := hc
    simp only [Option.some.injEq] at h
    subst h
    refine ⟨h0, h1, h2, ?_⟩
    simp only [List.length_take, List.length_drop]
    omega
  · cases h

theorem slice_isSome (s : GoString) (lo hi : Int)
    (h : 0 ≤ lo ∧ lo ≤ hi ∧ hi ≤ (s.length : Int)) : ∃ v, slice s lo hi = some v := by
  simp only [slice, h, and_self, if_true]
  exact ⟨_, rfl⟩

theorem slice_subset {s : GoString} {lo hi : Int} {v : GoString}
    (h : slice s lo hi = some v) : ∀ x ∈ v, x ∈ s := by
  unfold slice at h
  split at h
  · simp only [Option.some.injEq] at h
    subst h
    intro x hx
    exact List.mem_of_mem_drop (List.mem_of_mem_take hx)
  · cases h

theorem atoi_neg_mem {s : GoString} {n : Int} (h : Atoi s = some n) (hn : n < 0) :
    chr '-' ∈ s := by
  cases s with
  | nil => simp [Atoi, ParseInt] at h
  | cons c cs =>
    by_cases hc : c = chr '-'
    · subst hc; exact List.mem_cons_self _ _
    · exfalso
      have key : ∀ body : GoString,
          (match parseDigits body 0 with
            | none => none
            | some m => some (m : Int)) = some n → False := by
        intro body hb
        cases hp : parseDigits body 0 with
        | none => simp [hp] at hb
        | some m => simp only [hp, Option.some.injEq] at hb; omega
      have key2 : ∀ body : GoString,
          (match parseDigits body 0 with
            | none => none
            | some m => if 2 ^ 63 ≤ m then none else some (m : Int)) = some n → False := by
        intro body hb
        cases hp : parseDigits body 0 with
        | none => simp [hp] at hb
        | some m =>
          simp only [hp] at hb
          split at hb
          · cases hb
          · simp only [Option.some.injEq] at hb; omega
      have hpm : ¬ (chr '+' = chr '-') := by decide
      by_cases hplus : c = chr '+'
      · subst hplus
        by_cases hfast : 0 < (chr '+' :: cs).length ∧ (chr '+' :: cs).length < 19
        · simp only [Atoi, hfast, and_self, if_true, hpm, false_or, true_and, if_false] at h
          split at h
          · cases h
          · exact key _ h
        · simp only [Atoi, hfast, if_false, ParseInt, hpm, or_false, false_and, ne_eq,
            not_false_eq_true, true_and, if_true] at h
          split at h
          · cases h
          · exact key2 _ h
      · by_cases hfast : 0 < (c :: cs).length ∧ (c :: cs).length < 19
        · simp only [Atoi, hfast, and_self, if_true, hc, hplus, false_or, false_and,
            if_false] at h
          exact key _ h
        · simp only [Atoi, hfast, if_false, ParseInt, hc, hplus, or_false, false_and, ne_eq,
            not_false_eq_true, true_and, if_false, reduceCtorEq] at h
          exact key2 _ h

theorem readTLV_def (d : Decoder) :
    d.readTLV =
      if d.pos + 4 > d.length then .err .ErrInvalidQRString
      else
        match slice d.data d.pos (d.pos + 2) with
        | none => .panic
        | some tag =>
          match slice d.data (d.pos + 2) (d.pos + 2 + 2) with
          | none => .panic
          | some lengthStr =>
            match Atoi lengthStr with
            | none => .err .ErrInvalidLength
            | some length =>
              if d.pos + 2 + 2 + length > d.length then .err .ErrInvalidLength
              else
                match slice d.data (d.pos + 2 + 2) (d.pos + 2 + 2 + length) with
                | none => .panic
                | some value =>
                  .ok (tag, value,
                    { data := d.data, pos := d.pos + 2 + 2 + length, length := d.length }) := by
  rfl

theorem readTLV_ne_unfinished (d : Decoder) : d.readTLV ≠ .unfinished := by
  rw [readTLV_def]
  repeat' split
  all_goals simp

/-- What a successful read guarantees: the cursor moves forward by at least the
four header bytes, stays within the string, and the value is part of the data. -/
theorem readTLV_ok {d d2 : Decoder} {tag value : GoString}
    (h : d.readTLV = .ok (tag, value, d2)) :
    d2.data = d.data ∧ d2.length = d.length ∧ d.pos + 4 ≤ d2.pos ∧ d2.pos ≤ d.length ∧
      (d2.pos : Int) = d.pos + 4 + value.length ∧ (∀ x ∈ value, x ∈ d.data) := by
  rw [readTLV_def] at h
  split at h
  · cases h
  · cases ht : slice d.data d.pos (d.pos + 2) with
    | none => simp [ht] at h
    | some tag0 =>
      cases hl : slice d.data (d.pos + 2) (d.pos + 2 + 2) with
      | none => simp [ht, hl] at h
      | some ls =>
        cases hn : Atoi ls with
        | none => simp [ht, hl, hn] at h
        | some n =>
          simp only [ht, hl, hn] at h
          split at h
          · cases h
          · cases hv : slice d.data (d.pos + 2 + 2) (d.pos + 2 + 2 + n) with
            | none => simp [hv] at h
            | some v =>
              simp only [hv, Outcome.ok.injEq, Prod.mk.injEq] at h
              obtain ⟨_, hv2, hd⟩ := h
              subst hd hv2
              have hlen := slice_some_length hv
              simp only
              refine ⟨trivial, trivial, by omega, by omega, by omega, slice_subset hv⟩

/-- A read panics only on a negative length, which takes a minus sign in the data. -/
theorem readTLV_panic {d : Decoder} (hlen : d.length = d.data.length) (hpos : 0 ≤ d.pos)
    (h : d.readTLV = .panic) : chr '-' ∈ d.data := by
  rw [readTLV_def] at h
  split at h
  · cases h
  · rename_i h4
    obtain ⟨tag, ht⟩ := slice_isSome d.data d.pos (d.pos + 2)
      ⟨hpos, by omega, by omega⟩
    obtain ⟨ls, hls⟩ := slice_isSome d.data (d.pos + 2) (d.pos + 2 + 2)
      ⟨by omega, by omega, by omega⟩
    simp only [ht, hls] at h
    cases hn : Atoi ls with
    | none => simp [hn] at h
    | some n =>
      simp only [hn] at h
      split at h
      · cases h
      · by_cases hneg : n < 0
        · exact slice_subset hls _ (atoi_neg_mem hn hneg)
        · obtain ⟨v, hv⟩ := slice_isSome d.data (d.pos + 2 + 2)
            (d.pos + 2 + 2 + n) ⟨by omega, by omega, by omega⟩
          simp [hv] at h

/-! ### The scans end, and end well unless a length is negative -/

/-- With one iteration for every four bytes left and one more, a scan returns a
record or panics: it returns no error and the loop does not run out. -/
theorem scanLoop_ok_or_panic
    (field : GoString → GoString → DecodedInfo → Outcome DecodedInfo)
    (hfield : ∀ t v i, (∃ j, field t v i = .ok j) ∨ field t v i = .panic)
    (fuel : Nat) (d : Decoder) (info : DecodedInfo)
    (hle : d.pos ≤ d.length) (hfuel : d.length - d.pos < 4 * (fuel : Int)) :
    (∃ j, scanLoop field fuel d info = .ok j) ∨ scanLoop field fuel d info = .panic := by
  induction fuel generalizing d info with
  | zero => exfalso; simp only [Nat.cast_zero] at hfuel; omega
  | succ n ih =>
    simp only [scanLoop]
    split
    · cases hr : d.readTLV with
      | ok r =>
        obtain ⟨tag, value, d2⟩ := r
        obtain ⟨_, h2, h3, h4, _, _⟩ := readTLV_ok hr
        simp only
        rcases hfield tag value info with ⟨j, hj⟩ | hp
        · rw [hj]
          simp only [Outcome.bind]
          apply ih
          · omega
          · push_cast at hfuel; omega
        · rw [hp]; right; rfl
      | err e => left; exact ⟨info, rfl⟩
      | panic => right; rfl
      | unfinished => exact absurd hr (readTLV_ne_unfinished d)
    · left; exact ⟨info, rfl⟩

/-- A scan over data without a minus sign returns a record. -/
theorem scanLoop_ok
    (field : GoString → GoString → DecodedInfo → Outcome DecodedInfo)
    (hfield : ∀ t v i, chr '-' ∉ v → ∃ j, field t v i = .ok j)
    (fuel : Nat) (d : Decoder) (info : DecodedInfo)
    (hlen : d.length = d.data.length) (hpos : 0 ≤ d.pos)
    (hle : d.pos ≤ d.length) (hfuel : d.length - d.pos < 4 * (fuel : Int))
    (hminus : chr '-' ∉ d.data) :
    ∃ j, scanLoop field fuel d info = .ok j := by
  induction fuel generalizing d info with
  | zero => exfalso; simp only [Nat.cast_zero] at hfuel; omega
  | succ n ih =>
    simp only [scanLoop]
    split
    · cases hr : d.readTLV with
      | ok r =>
        obtain ⟨tag, value, d2⟩ := r
        obtain ⟨h1, h2, h3, h4, _, h6⟩ := readTLV_ok hr
        simp only
        obtain ⟨j, hj⟩ := hfield tag value info (fun hm => hminus (h6 _ hm))
        rw [hj]
        simp only [Outcome.bind]
        apply ih
        · rw [h2, h1]; exact hlen
        · omega
        · omega
        · push_cast at hfuel; omega
        · rw [h1]; exact hminus
      | err e => exact ⟨info, rfl⟩
      | panic => exact absurd (readTLV_panic hlen hpos hr) hminus
      | unfinished => exact absurd hr (readTLV_ne_unfinished d)
    · exact ⟨info, rfl⟩

theorem fuel_enough (n : Nat) : ((n : Int)) - 0 < 4 * ((n / 4 + 1 : Nat) : Int) := by
  push_cast
  omega

theorem parseBeneficiaryOrg_ok_or_panic (data : GoString) (info : DecodedInfo) :
    (∃ j, parseBeneficiaryOrg data info = .ok j) ∨ parseBeneficiaryOrg data info = .panic := by
  simp only [parseBeneficiaryOrg, parseBeneficiaryOrgLoop_eq, NewDecoder]
  apply scanLoop_ok_or_panic
  · intro t v i; left; exact ⟨_, rfl⟩
  · simp
  · exact fuel_enough _

theorem parseBeneficiaryOrg_ok (data : GoString) (info : DecodedInfo)
    (hminus : chr '-' ∉ data) : ∃ j, parseBeneficiaryOrg data info = .ok j := by
  simp only [parseBeneficiaryOrg, parseBeneficiaryOrgLoop_eq, NewDecoder]
  apply scanLoop_ok
  · intro t v i _; exact ⟨_, rfl⟩
  · rfl
  · exact le_refl _
  · simp
  · exact fuel_enough _
  · exact hminus

theorem parseMerchantAccount_ok_or_panic (data : GoString) (info : DecodedInfo) :
    (∃ j, parseMerchantAccount data info = .ok j) ∨ parseMerchantAccount data info = .panic := by
  simp only [parseMerchantAccount, parseMerchantAccountLoop_eq, NewDecoder]
  apply scanLoop_ok_or_panic
  · intro t v i
    simp only [merchantAccountField]
    split
    · exact parseBeneficiaryOrg_ok_or_panic v i
    · left; exact ⟨_, rfl⟩
  · simp
  · exact fuel_enough _

theorem parseMerchantAccount_ok (data : GoString) (info : DecodedInfo)
    (hminus : chr '-' ∉ data) : ∃ j, parseMerchantAccount data info = .ok j := by
  simp only [parseMerchantAccount, parseMerchantAccountLoop_eq, NewDecoder]
  apply scanLoop_ok
  · intro t v i hv
    simp only [merchantAccountField]
    split
    · exact parseBeneficiaryOrg_ok v i hv
    · exact ⟨_, rfl⟩
  · rfl
  · exact le_refl _
  · simp
  · exact fuel_enough _
  · exact hminus

theorem parseAdditionalData_ok (data : GoString) (info : DecodedInfo) :
    (∃ j, parseAdditionalData data info = .ok j) ∨ parseAdditionalData data info = .panic := by
  simp only [parseAdditionalData, parseAdditionalDataLoop_eq, NewDecoder]
  apply scanLoop_ok_or_panic
  · intro t v i; left; exact ⟨_, rfl⟩
  · simp
  · exact fuel_enough _

theorem parseAdditionalData_ok_of_no_minus (data : GoString) (info : DecodedInfo)
    (hminus : chr '-' ∉ data) : ∃ j, parseAdditionalData data info = .ok j := by
  simp only [parseAdditionalData, parseAdditionalDataLoop_eq, NewDecoder]
  apply scanLoop_ok
  · intro t v i _; exact ⟨_, rfl⟩
  · rfl
  · exact le_refl _
  · simp
  · exact fuel_enough _
  · exact hminus

theorem decodeField_ok_or_panic (t v : GoString) (i : DecodedInfo) :
    (∃ j, decodeField t v i = .ok j) ∨ decodeField t v i = .panic := by
  unfold decodeField
  by_cases h0 : t = TagPayloadFormat
  · rw [if_pos h0]; exact Or.inl ⟨_, rfl⟩
  rw [if_neg h0]
  by_cases h1 : t = TagInitiationMethod
  · rw [if_pos h1]; exact Or.inl ⟨_, rfl⟩
  rw [if_neg h1]
  by_cases h2 : t = TagMerchantAccount
  · rw [if_pos h2]; exact parseMerchantAccount_ok_or_panic v i
  rw [if_neg h2]
  by_cases h3 : t = TagCurrency
  · rw [if_pos h3]; exact Or.inl ⟨_, rfl⟩
  rw [if_neg h3]
  by_cases h4 : t = TagAmount
  · rw [if_pos h4]; cases ParseInt v <;> exact Or.inl ⟨_, rfl⟩
  rw [if_neg h4]
  by_cases h5 : t = TagCountry
  · rw [if_pos h5]; exact Or.inl ⟨_, rfl⟩
  rw [if_neg h5]
  by_cases h6 : t = TagMerchantName
  · rw [if_pos h6]; exact Or.inl ⟨_, rfl⟩
  rw [if_neg h6]
  by_cases h7 : t = TagMerchantCity
  · rw [if_pos h7]; exact Or.inl ⟨_, rfl⟩
  rw [if_neg h7]
  by_cases h8 : t = TagAdditionalData
  · rw [if_pos h8]; exact parseAdditionalData_ok v i
  rw [if_neg h8]
  by_cases h9 : t = TagCRC
  · rw [if_pos h9]; exact Or.inl ⟨_, rfl⟩
  rw [if_neg h9]
  exact Or.inl ⟨_, rfl⟩

theorem decodeField_ok (t v : GoString) (i : DecodedInfo) (hminus : chr '-' ∉ v) :
    ∃ j, decodeField t v i = .ok j := by
  unfold decodeField
  by_cases h0 : t = TagPayloadFormat
  · rw [if_pos h0]; exact ⟨_, rfl⟩
  rw [if_neg h0]
  by_cases h1 : t = TagInitiationMethod
  · rw [if_pos h1]; exact ⟨_, rfl⟩
  rw [if_neg h1]
  by_cases h2 : t = TagMerchantAccount
  · rw [if_pos h2]; exact parseMerchantAccount_ok v i hminus
  rw [if_neg h2]
  by_cases h3 : t = TagCurrency
  · rw [if_pos h3]; exact ⟨_, rfl⟩
  rw [if_neg h3]
  by_cases h4 : t = TagAmount
  · rw [if_pos h4]; cases ParseInt v <;> exact ⟨_, rfl⟩
  rw [if_neg h4]
  by_cases h5 : t = TagCountry
  · rw [if_pos h5]; exact ⟨_, rfl⟩
  rw [if_neg h5]
  by_cases h6 : t = TagMerchantName
  · rw [if_pos h6]; exact ⟨_, rfl⟩
  rw [if_neg h6]
  by_cases h7 : t = TagMerchantCity
  · rw [if_pos h7]; exact ⟨_, rfl⟩
  rw [if_neg h7]
  by_cases h8 : t = TagAdditionalData
  · rw [if_pos h8]; exact parseAdditionalData_ok_of_no_minus v i hminus
  rw [if_neg h8]
  by_cases h9 : t = TagCRC
  · rw [if_pos h9]; exact ⟨_, rfl⟩
  rw [if_neg h9]
  exact ⟨_, rfl⟩

/-! ### The checksum block and `ValidateCRC` -/

theorem slice_nat (s : GoString) (a b : Nat) (hab : a ≤ b) (hb : b ≤ s.length) :
    slice s (a : Int) (b : Int) = some ((s.drop a).take (b - a)) := by
  have h : (0 : Int) ≤ (a : Int) ∧ (a : Int) ≤ (b : Int) ∧ (b : Int) ≤ (s.length : Int) := by
    omega
  have h2 : ((b : Int) - (a : Int)).toNat = b - a := by omega
  rw [slice, if_pos h, h2, Int.toNat_ofNat]

/-- The three slices of the checksum block, for a string of at least 8 bytes. -/
theorem crc_slices (s : GoString) (h8 : 8 ≤ s.length) :
    slice s ((s.length : Int) - 4 - 4) ((s.length : Int) - 4)
        = some ((s.drop (s.length - 8)).take 4) ∧
    slice s 0 ((s.length : Int) - 4) = some (s.take (s.length - 4)) ∧
    slice s ((s.length : Int) - 4) (s.length : Int) = some (s.drop (s.length - 4)) := by
  have e1 : (s.length : Int) - 4 - 4 = ((s.length - 8 : Nat) : Int) := by omega
  have e2 : (s.length : Int) - 4 = ((s.length - 4 : Nat) : Int) := by omega
  have e0 : (0 : Int) = ((0 : Nat) : Int) := rfl
  refine ⟨?_, ?_, ?_⟩
  · rw [e1, e2, slice_nat s _ _ (by omega) (by omega)]
    congr 2
    omega
  · rw [e2, e0, slice_nat s _ _ (by omega) (by omega)]
    simp
  · rw [e2, slice_nat s _ _ (by omega) (le_refl _)]
    congr 1
    apply List.take_of_length_le
    simp

/-- The function `ValidateCRC` takes its slices within bounds and returns the
checksum test. -/
theorem validateCRC_eq (s : GoString) : ValidateCRC s = .ok (validCRC s) := by
  unfold ValidateCRC validCRC
  by_cases h8 : s.length < 8
  · have : ¬ 8 ≤ s.length := by omega
    simp [h8, this]
  · have h8b : 8 ≤ s.length := by omega
    obtain ⟨s1, s2, s3⟩ := crc_slices s h8b
    have hpos : ¬ ((s.length : Int) - 4 < 4) := by omega
    simp only [h8, if_false, s1, s2, s3, hpos, h8b, decide_True, Bool.true_and,
      CRC16String]
    by_cases hh : (s.drop (s.length - 8)).take 4 = str "6304"
    · simp [hh]
    · simp [hh]

/-- The checksum block of `Decode` never panics on the decoder `NewDecoder` makes,
and it sets `IsValid` to the checksum test. -/
theorem decodeCRC_eq (s : GoString) (h8 : 8 ≤ s.length) :
    ∃ crc, decodeCRC (NewDecoder s) DecodedInfo.zero
      = .ok { DecodedInfo.zero with CRC := crc, IsValid := validCRC s } := by
  obtain ⟨s1, s2, s3⟩ := crc_slices s h8
  have hge : (s.length : Int) ≥ 8 := by omega
  unfold validCRC
  simp only [decodeCRC, NewDecoder, hge, if_true, s1, s2, s3, h8, decide_True, Bool.true_and]
  by_cases hh : (s.drop (s.length - 8)).take 4 = str "6304"
  · simp only [hh, if_true, decide_True, Bool.true_and]
    exact ⟨_, rfl⟩
  · simp only [hh, if_false, decide_False, Bool.false_and]
    exact ⟨[], rfl⟩

/-! ### The scan does not touch the validity flag -/

theorem scanLoop_isValid
    (field : GoString → GoString → DecodedInfo → Outcome DecodedInfo)
    (hfield : ∀ t v i j, field t v i = .ok j → j.IsValid = i.IsValid)
    (fuel : Nat) (d : Decoder) (i j : DecodedInfo)
    (h : scanLoop field fuel d i = .ok j) : j.IsValid = i.IsValid := by
  induction fuel generalizing d i with
  | zero => simp [scanLoop] at h
  | succ n ih =>
    simp only [scanLoop] at h
    split at h
    · cases hr : d.readTLV with
      | ok r =>
        obtain ⟨tag, value, d2⟩ := r
        simp only [hr] at h
        cases hf : field tag value i with
        | ok k =>
          simp only [hf, Outcome.bind] at h
          rw [ih d2 k h, hfield _ _ _ _ hf]
        | err e => simp [hf, Outcome.bind] at h
        | panic => simp [hf, Outcome.bind] at h
        | unfinished => simp [hf, Outcome.bind] at h
      | err e => simp only [hr, Outcome.ok.injEq] at h; rw [h]
      | panic => simp [hr] at h
      | unfinished => simp [hr] at h
    · simp only [Outcome.ok.injEq] at h; rw [h]

theorem parseBeneficiaryOrg_isValid (data : GoString) (i j : DecodedInfo)
    (h : parseBeneficiaryOrg data i = .ok j) : j.IsValid = i.IsValid := by
  simp only [parseBeneficiaryOrg, parseBeneficiaryOrgLoop_eq] at h
  refine scanLoop_isValid _ ?_ _ _ _ _ h
  intro t v a b hab
  simp only [Outcome.ok.injEq] at hab
  subst hab
  simp only [beneficiaryField]
  split
  · rfl
  · split <;> rfl

theorem parseMerchantAccount_isValid (data : GoString) (i j : DecodedInfo)
    (h : parseMerchantAccount data i = .ok j) : j.IsValid = i.IsValid := by
  simp only [parseMerchantAccount, parseMerchantAccountLoop_eq] at h
  refine scanLoop_isValid _ ?_ _ _ _ _ h
  intro t v a b hab
  simp only [merchantAccountField] at hab
  split at hab
  · exact parseBeneficiaryOrg_isValid _ _ _ hab
  · simp only [Outcome.ok.injEq] at hab; rw [hab]

theorem parseAdditionalData_isValid (data : GoString) (i j : DecodedInfo)
    (h : parseAdditionalData data i = .ok j) : j.IsValid = i.IsValid := by
  simp only [parseAdditionalData, parseAdditionalDataLoop_eq] at h
  refine scanLoop_isValid _ ?_ _ _ _ _ h
  intro t v a b hab
  simp only [Outcome.ok.injEq] at hab
  subst hab
  simp only [additionalDataField]
  split <;> rfl

theorem decodeField_isValid (t v : GoString) (i j : DecodedInfo)
    (h : decodeField t v i = .ok j) : j.IsValid = i.IsValid := by
  unfold decodeField at h
  by_cases h0 : t = TagPayloadFormat
  · rw [if_pos h0] at h; simp only [Outcome.ok.injEq] at h; rw [← h]
  rw [if_neg h0] at h
  by_cases h1 : t = TagInitiationMethod
  · rw [if_pos h1] at h; simp only [Outcome.ok.injEq] at h; rw [← h]
  rw [if_neg h1] at h
  by_cases h2 : t = TagMerchantAccount
  · rw [if_pos h2] at h; exact parseMerchantAccount_isValid _ _ _ h
  rw [if_neg h2] at h
  by_cases h3 : t = TagCurrency
  · rw [if_pos h3] at h; simp only [Outcome.ok.injEq] at h; rw [← h]
  rw [if_neg h3] at h
  by_cases h4 : t = TagAmount
  · rw [if_pos h4] at h
    cases hp : ParseInt v with
    | none => simp only [hp, Outcome.ok.injEq] at h; rw [← h]
    | some a => simp only [hp, Outcome.ok.injEq] at h; rw [← h]
  rw [if_neg h4] at h
  by_cases h5 : t = TagCountry
  · rw [if_pos h5] at h; simp only [Outcome.ok.injEq] at h; rw [← h]
  rw [if_neg h5] at h
  by_cases h6 : t = TagMerchantName
  · rw [if_pos h6] at h; simp only [Outcome.ok.injEq] at h; rw [← h]
  rw [if_neg h6] at h
  by_cases h7 : t = TagMerchantCity
  · rw [if_pos h7] at h; simp only [Outcome.ok.injEq] at h; rw [← h]
  rw [if_neg h7] at h
  by_cases h8 : t = TagAdditionalData
  · rw [if_pos h8] at h; exact parseAdditionalData_isValid _ _ _ h
  rw [if_neg h8] at h
  by_cases h9 : t = TagCRC
  · rw [if_pos h9] at h; simp only [Outcome.ok.injEq] at h; rw [← h]
  rw [if_neg h9] at h
  simp only [Outcome.ok.injEq] at h; rw [← h]

/-! ### `Decode` as a whole -/

theorem decode_short (s : GoString) (h : s.length < 8) :
    Decode s = .err .ErrInvalidQRString := by
  have : ((s.length : Nat) : Int) < 8 := by omega
  simp only [Decode, Decoder.Decode, NewDecoder, this, if_true]

/-- For a string of at least 8 bytes `Decode` is the scan started from the record
the checksum block leaves. -/
theorem decode_long (s : GoString) (h : 8 ≤ s.length) :
    ∃ crc, Decode s = scanLoop decodeField (s.length / 4 + 1) (NewDecoder s)
      { DecodedInfo.zero with CRC := crc, IsValid := validCRC s } := by
  obtain ⟨crc, hcrc⟩ := decodeCRC_eq s h
  refine ⟨crc, ?_⟩
  have : ¬ ((s.length : Nat) : Int) < 8 := by omega
  have e : Decode s = (decodeCRC (NewDecoder s) DecodedInfo.zero).bind
      (decodeLoop (s.length / 4 + 1) (NewDecoder s)) := by
    simp only [Decode, Decoder.Decode]
    rw [if_neg (by simpa [NewDecoder] using this)]
    rfl
  rw [e, hcrc]
  simp only [Outcome.bind, decodeLoop_eq]

theorem decode_ok_or_panic (s : GoString) (h : 8 ≤ s.length) :
    (∃ j, Decode s = .ok j) ∨ Decode s = .panic := by
  obtain ⟨crc, hd⟩ := decode_long s h
  rw [hd]
  apply scanLoop_ok_or_panic _ decodeField_ok_or_panic
  · simp [NewDecoder]
  · exact fuel_enough _

theorem decode_ok (s : GoString) (h : 8 ≤ s.length) (hminus : chr '-' ∉ s) :
    ∃ j, Decode s = .ok j := by
  obtain ⟨crc, hd⟩ := decode_long s h
  rw [hd]
  apply scanLoop_ok _ decodeField_ok
  · rfl
  · exact le_refl _
  · simp [NewDecoder]
  · exact fuel_enough _
  · exact hminus

theorem decode_isValid (s : GoString) (h : 8 ≤ s.length) (j : DecodedInfo)
    (hj : Decode s = .ok j) : j.IsValid = validCRC s := by
  obtain ⟨crc, hd⟩ := decode_long s h
  rw [hd] at hj
  exact scanLoop_isValid _ decodeField_isValid _ _ _ _ hj

/-! ### Initiation method -/

theorem tlv_format : tlv TagPayloadFormat PayloadFormatEMV = str "000201" := by decide

theorem tlv_static : tlv TagInitiationMethod InitiationStatic = str "010211" := by decide

theorem tlv_dynamic : tlv TagInitiationMethod InitiationDynamic = str "010212" := by decide

theorem payload_prefix (r : TransferInfo) :
    tlv TagPayloadFormat PayloadFormatEMV ++ tlv TagInitiationMethod (initiationCode r)
      <+: Encode r := by
  rw [encode_eq, payload]
  simp only [List.append_assoc]
  exact ⟨_, rfl⟩

theorem encode_prefix (r : TransferInfo) :
    str "000201" ++
      (if r.Editable then str "010211"
       else if r.IsDynamic ∨ r.Amount > 0 then str "010212"
       else str "010211") <+: Encode r := by
  have h := payload_prefix r
  rw [tlv_format] at h
  unfold initiationCode at h
  by_cases h1 : r.Editable = true
  · rw [if_pos h1] at h ⊢
    rwa [tlv_static] at h
  · rw [if_neg h1] at h ⊢
    by_cases h2 : r.IsDynamic = true ∨ r.Amount > 0
    · rw [if_pos h2] at h ⊢
      rwa [tlv_dynamic] at h
    · rw [if_neg h2] at h ⊢
      rwa [tlv_static] at h

/-- C9: `Encode r` starts with the payload-format unit `000201`, immediately
followed by the initiation-method unit, which is `010211` (static) when
`Editable` is set, otherwise `010212` (dynamic) when `IsDynamic` is set or
`Amount > 0`, otherwise `010211` (static). -/
theorem encode_starts_with_format_and_initiation (r : TransferInfo) :
    str "000201" ++
      (if r.Editable then str "010211"
       else if r.IsDynamic ∨ r.Amount > 0 then str "010212"
       else str "010211") <+: Encode r :=
  encode_prefix r

/-- C10, as stated, fails: with `Amount = 0`, `Editable = false` and `IsDynamic`
set, `Encode r` starts with `000201` and the dynamic unit `010212`, not with the
static unit `010211`. -/
theorem static_code_counterexample :
    ({ TransferInfo.zero with IsDynamic := true } : TransferInfo).Amount = 0 ∧
    ({ TransferInfo.zero with IsDynamic := true } : TransferInfo).Editable = false ∧
    str "000201" ++ str "010212" <+: Encode { TransferInfo.zero with IsDynamic := true } ∧
    ¬ (str "000201" ++ str "010211" <+: Encode { TransferInfo.zero with IsDynamic := true }) := by
  decide

/-- C10, amended: for every `r` with `Amount = 0`, `Editable = false` and
`IsDynamic = false`, the initiation-method unit of `Encode r`, which follows the
payload-format unit `000201`, is the static `010211`. -/
theorem static_code_when_not_dynamic (r : TransferInfo)
    (hA : r.Amount = 0) (hE : r.Editable = false) (hD : r.IsDynamic = false) :
    str "000201" ++ str "010211" <+: Encode r := by
  have h := encode_prefix r
  simpa [hA, hE, hD] using h

theorem static_code_when_not_dynamic_witness :
    str "000201" ++ str "010211" <+:
      Encode { TransferInfo.zero with BankBin := str "970436",
                                      AccountNumber := str "1234567890" } :=
  static_code_when_not_dynamic _ rfl rfl rfl

/-! ### Panics and errors of `Decode` -/

/-- C5 fails on the code: the 8-byte input `00-1AAAA` has the length field `-1`,
which `strconv.Atoi` accepts; the bound test of `readTLV` lets it through and
the slice `d.data[4:3]` panics. -/
theorem decode_panics_on_negative_length :
    Decode (str "00-1AAAA") = Outcome.panic := by decide

/-- C7, as stated, fails: on the empty string `Decode` returns the error
`ErrInvalidQRString` and no record. -/
theorem decode_empty_is_error :
    Decode (str "") = Outcome.err GoError.ErrInvalidQRString ∧
      ¬ ∃ info, Decode (str "") = Outcome.ok info := by
  have h : Decode (str "") = Outcome.err GoError.ErrInvalidQRString := by decide
  refine ⟨h, ?_⟩
  rintro ⟨info, hi⟩
  rw [h] at hi
  cases hi

/-- C7, amended: a string shorter than 8 bytes makes `Decode` return the error
`ErrInvalidQRString` and no record; a string of at least 8 bytes, however
malformed, never makes it return an error: `Decode` returns a record unless it
panics. -/
theorem decode_error_only_when_short (s : GoString) :
    (s.length < 8 → Decode s = Outcome.err GoError.ErrInvalidQRString) ∧
    (8 ≤ s.length → (∃ info, Decode s = Outcome.ok info) ∨ Decode s = Outcome.panic) :=
  ⟨decode_short s, decode_ok_or_panic s⟩

theorem decode_error_only_when_short_witness :
    Decode (str "0002") = Outcome.err GoError.ErrInvalidQRString ∧
    ((∃ info, Decode (str "00020163") = Outcome.ok info) ∨
      Decode (str "00020163") = Outcome.panic) :=
  ⟨(decode_error_only_when_short (str "0002")).1 (by decide),
   (decode_error_only_when_short (str "00020163")).2 (by decide)⟩

/-- For a string of at least 8 bytes `Decode` returns a record whose validity
flag is the boolean that `ValidateCRC` returns, or it panics. -/
theorem decode_flag_or_panic (s : GoString) (h8 : 8 ≤ s.length) :
    (∃ info, Decode s = Outcome.ok info ∧ ValidateCRC s = Outcome.ok info.IsValid) ∨
      Decode s = Outcome.panic := by
  rcases decode_ok_or_panic s h8 with ⟨j, hj⟩ | hp
  · exact Or.inl ⟨j, hj, by rw [validateCRC_eq, decode_isValid s h8 j hj]⟩
  · exact Or.inr hp

/-- C8 fails on the code: the 16-byte string `00-1AAAA63042899` ends with the
header `6304` and the checksum of what stands before, so `ValidateCRC` returns
true; but its first unit has the length field `-1`, on which `readTLV` panics,
so `Decode` returns no record and no validity flag. -/
theorem decode_panics_on_valid_checksum :
    8 ≤ (str "00-1AAAA63042899").length ∧
    ValidateCRC (str "00-1AAAA63042899") = Outcome.ok true ∧
    Decode (str "00-1AAAA63042899") = Outcome.panic := by
  decide

/-! ### `sprintf` -/

theorem hexDigits_upper : ∀ n : Fin 16, isUpperHex (hexDigits.getD n.val 0) := by decide

theorem hexDigit_upper (x : Nat) : isUpperHex (hexDigits.getD (x &&& 0xF) 0) := by
  have h : x &&& 0xF < 16 := Nat.and_lt_two_pow x (by decide : 0xF < 2 ^ 4)
  exact hexDigits_upper ⟨x &&& 0xF, h⟩

theorem sprintf_length (v : Nat) : (sprintf v).length = 4 := rfl

theorem sprintf_upper (v : Nat) : ∀ b ∈ sprintf v, isUpperHex b := by
  intro b hb
  simp only [sprintf, List.mem_cons, List.mem_singleton, List.not_mem_nil, or_false] at hb
  rcases hb with h | h | h | h <;> rw [h] <;> exact hexDigit_upper _

/-! ### `EqualFold` against uppercase hexadecimal digits -/

theorem le_or_left (a b : Nat) : a ≤ a ||| b :=
  Nat.le_of_testBit (fun i h => by simp [Nat.testBit_or, h])

theorem le_or_right (a b : Nat) : b ≤ a ||| b :=
  Nat.le_of_testBit (fun i h => by simp [Nat.testBit_or, h])

theorem utf8Lead_facts : ∀ b0 : Byte, ∀ p ∈ utf8Lead b0.val,
      (p.1 ≤ 2 → 2 ≤ b0.val &&& 0x1F) ∧
      (¬ p.1 ≤ 2 → p.1 ≤ 3 → 1 ≤ b0.val &&& 0x0F ∨ p.2.1 = 0xA0) ∧
      (¬ p.1 ≤ 3 → 1 ≤ b0.val &&& 0x07 ∨ p.2.1 = 0x90) ∧ p.2.2 ≤ 0xBF := by
  decide

theorem cont_bits_A0 : ∀ b : Byte, 0xA0 ≤ b.val → b.val ≤ 0xBF → 0x20 ≤ b.val &&& 0x3F := by
  decide

theorem cont_bits_90 : ∀ b : Byte, 0x90 ≤ b.val → b.val ≤ 0xBF → 0x10 ≤ b.val &&& 0x3F := by
  decide

/-- A byte of `0x80` or more never decodes to an ASCII rune. -/
theorem decodeRune_ge (b0 : Byte) (rest : GoString) (h : 128 ≤ b0.val) :
    128 ≤ (decodeRune b0 rest).1 := by
  have hE : 128 ≤ RuneError := by decide
  unfold decodeRune
  rw [if_neg (by simp only [RuneSelf]; omega)]
  have hf := utf8Lead_facts b0
  cases hl : utf8Lead b0.val with
  | none => exact hE
  | some p =>
    obtain ⟨sz, lo, hi⟩ := p
    obtain ⟨f2, f3, f4, fhi⟩ := hf (sz, lo, hi) hl
    simp only at f2 f3 f4 fhi ⊢
    cases rest with
    | nil => exact hE
    | cons b1 rest1 =>
      simp only
      split
      · exact hE
      · rename_i hb1
        split
        · rename_i hsz
          have := f2 hsz
          have h1 : 128 ≤ (b0.val &&& 0x1F) <<< 6 := by rw [Nat.shiftLeft_eq]; omega
          exact le_trans h1 (le_or_left _ _)
        · rename_i hsz
          cases rest1 with
          | nil => exact hE
          | cons b2 rest2 =>
            simp only
            split
            · exact hE
            · split
              · rename_i hsz3
                have h1 : 128 ≤ ((b0.val &&& 0x0F) <<< 12) ||| ((b1.val &&& 0x3F) <<< 6) := by
                  rcases f3 hsz hsz3 with h | h
                  · have : 128 ≤ (b0.val &&& 0x0F) <<< 12 := by rw [Nat.shiftLeft_eq]; omega
                    exact le_trans this (le_or_left _ _)
                  · have hb := cont_bits_A0 b1 (by omega) (by omega)
                    have : 128 ≤ (b1.val &&& 0x3F) <<< 6 := by rw [Nat.shiftLeft_eq]; omega
                    exact le_trans this (le_or_right _ _)
                exact le_trans h1 (le_or_left _ _)
              · rename_i hsz3
                cases rest2 with
                | nil => exact hE
                | cons b3 rest3 =>
                  simp only
                  split
                  · exact hE
                  · have h1 : 128 ≤ ((b0.val &&& 0x07) <<< 18) ||| ((b1.val &&& 0x3F) <<< 12) := by
                      rcases f4 hsz3 with h | h
                      · have : 128 ≤ (b0.val &&& 0x07) <<< 18 := by
                          rw [Nat.shiftLeft_eq]; omega
                        exact le_trans this (le_or_left _ _)
                      · have hb := cont_bits_90 b1 (by omega) (by omega)
                        have : 128 ≤ (b1.val &&& 0x3F) <<< 12 := by
                          rw [Nat.shiftLeft_eq]; omega
                        exact le_trans this (le_or_right _ _)
                    exact le_trans (le_trans h1 (le_or_left _ _)) (le_or_left _ _)

theorem runes_cons_ascii (b : Byte) (s : GoString) (h : b.val < 128) :
    runes (b :: s) = b.val :: runes s := by
  have hd : decodeRune b s = (b.val, 1) := by
    unfold decodeRune
    rw [if_pos (by simp only [RuneSelf]; omega)]
  simp only [runes, List.length_cons, runesAux, hd, Nat.sub_self, List.drop_zero]

/-- An uppercase hexadecimal digit folds to no rune of `0x80` or more. -/
theorem equalFoldRune_hex_high (sr tr : Nat)
    (hs : (48 ≤ sr ∧ sr ≤ 57) ∨ (65 ≤ sr ∧ sr ≤ 70)) (ht : 128 ≤ tr) :
    equalFoldRune sr tr = false := by
  have hne : ¬ tr = sr := by omega
  have hlt : ¬ tr < sr := by omega
  have hhi : ¬ tr < RuneSelf := by simp only [RuneSelf]; omega
  simp only [equalFoldRune, hne, hlt, hhi, if_false, decide_eq_false_iff_not]
  rcases hs with ⟨h1, h2⟩ | ⟨h1, h2⟩
  · have hf : SimpleFold sr = sr := by
      unfold SimpleFold Rune
      split_ifs <;> omega
    simp only [hf, foldLoop, ne_eq, not_true_eq_false, false_and, if_false]
    intro h
    rw [h] at h2
    omega
  · have hc : ∀ x : Nat, x < 128 → (x ≠ tr ∧ x < tr) := fun x hx => ⟨by omega, by omega⟩
    intro h
    interval_cases sr <;>
      simp [foldLoop, SimpleFold, hc] at h

/-- One step of the ASCII fast path against an uppercase hexadecimal digit. -/
theorem hex_step : ∀ e0 ∈ hexDigits, ∀ t0 : Byte, t0.val < 128 →
    ((t0 = e0 ∨ ((if t0.val < e0.val then t0.val else e0.val) ≥ 0x41 ∧
        (if t0.val < e0.val then t0.val else e0.val) ≤ 0x5A ∧
        (if t0.val < e0.val then e0.val else t0.val) =
          (if t0.val < e0.val then t0.val else e0.val) + 0x61 - 0x41)) ↔ asciiUpper t0 = e0) := by
  decide

theorem hex_ascii : ∀ e0 ∈ hexDigits, ∀ t0 : Byte,
    (RuneSelf ≤ e0.val ||| t0.val ↔ 128 ≤ t0.val) ∧ e0.val < 128 ∧
    ((48 ≤ e0.val ∧ e0.val ≤ 57) ∨ (65 ≤ e0.val ∧ e0.val ≤ 70)) ∧
    (128 ≤ t0.val → asciiUpper t0 ≠ e0) := by
  decide

theorem isUpperHex_mem : ∀ b : Byte, isUpperHex b → b ∈ hexDigits := by decide

/-- Against a string of uppercase hexadecimal digits, `EqualFold` holds exactly
for the strings that upper-case to it. -/
theorem equalFold_hex (e t : GoString) (he : ∀ b ∈ e, isUpperHex b) :
    EqualFold e t = true ↔ t.map asciiUpper = e := by
  induction e generalizing t with
  | nil =>
    cases t with
    | nil => simp [EqualFold]
    | cons t0 t1 => simp [EqualFold]
  | cons e0 e1 ih =>
    cases t with
    | nil => simp [EqualFold]
    | cons t0 t1 =>
      have hmem : e0 ∈ hexDigits := isUpperHex_mem e0 (he e0 (List.mem_cons_self _ _))
      obtain ⟨hor, hlt, hrange, hhigh⟩ := hex_ascii e0 hmem t0
      have ih1 := ih t1 (fun b hb => he b (List.mem_cons_of_mem _ hb))
      simp only [List.map_cons, List.cons.injEq]
      by_cases h128 : 128 ≤ t0.val
      · have hdec : (if t0.val < RuneSelf then (t0.val, 1) else decodeRune t0 t1)
            = decodeRune t0 t1 := by
          rw [if_neg (by simp only [RuneSelf]; omega)]
        have hfalse : EqualFold (e0 :: e1) (t0 :: t1) = false := by
          rw [EqualFold, if_pos (hor.mpr h128), runes_cons_ascii e0 e1 hlt]
          simp only [equalFoldRunes, hdec]
          rw [equalFoldRune_hex_high _ _ hrange (decodeRune_ge t0 t1 h128)]
          simp
        rw [hfalse]
        simp only [Bool.false_eq_true, false_iff, not_and]
        intro h
        exact absurd h (hhigh h128)
      · have hstep := hex_step e0 hmem t0 (by omega)
        have hnor : ¬ (RuneSelf ≤ e0.val ||| t0.val) := fun h => h128 (hor.mp h)
        rw [EqualFold, if_neg hnor]
        by_cases heq : t0 = e0
        · rw [if_pos heq, ih1]
          have : asciiUpper t0 = e0 := hstep.mp (Or.inl heq)
          simp [this]
        · rw [if_neg heq]
          simp only
          by_cases hc : (if t0.val < e0.val then t0.val else e0.val) ≥ 0x41 ∧
              (if t0.val < e0.val then t0.val else e0.val) ≤ 0x5A ∧
              (if t0.val < e0.val then e0.val else t0.val) =
                (if t0.val < e0.val then t0.val else e0.val) + 0x61 - 0x41
          · rw [if_pos hc, ih1]
            have : asciiUpper t0 = e0 := hstep.mp (Or.inr hc)
            simp [this]
          · rw [if_neg hc]
            have : ¬ asciiUpper t0 = e0 := fun h => by
              rcases hstep.mpr h with h | h
              · exact heq h
              · exact hc h
            simp [this]

theorem asciiUpper_hex : ∀ b : Byte, isUpperHex b → asciiUpper b = b := by decide

theorem equalFold_hex_self (e : GoString) (he : ∀ b ∈ e, isUpperHex b) :
    EqualFold e e = true := by
  rw [equalFold_hex e e he]
  induction e with
  | nil => rfl
  | cons e0 e1 ih =>
    simp only [List.map_cons, List.cons.injEq]
    exact ⟨asciiUpper_hex e0 (he e0 (List.mem_cons_self _ _)),
      ih (fun b hb => he b (List.mem_cons_of_mem _ hb))⟩

/-! ### Checksum of the encoder's output -/

theorem crc16StringWithTag_eq (d : GoString) :
    CRC16StringWithTag d = CRC16String (d ++ str "6304") := rfl

theorem crc16String_length (d : GoString) : (CRC16String d).length = 4 := rfl

theorem crc16String_upper (d : GoString) : ∀ b ∈ CRC16String d, isUpperHex b :=
  sprintf_upper _

theorem map_asciiUpper_hex (e : GoString) (he : ∀ b ∈ e, isUpperHex b) :
    e.map asciiUpper = e := by
  induction e with
  | nil => rfl
  | cons e0 e1 ih =>
    simp only [List.map_cons, List.cons.injEq]
    exact ⟨asciiUpper_hex e0 (he e0 (List.mem_cons_self _ _)),
      ih (fun b hb => he b (List.mem_cons_of_mem _ hb))⟩

theorem header_length : (str "6304").length = 4 := by decide

/-- The parts that the checksum test reads of a string that ends in a header and
four more bytes. -/
theorem crc_parts (d h c : GoString) (hh : h.length = 4) (hc : c.length = 4) :
    8 ≤ (d ++ h ++ c).length ∧
    ((d ++ h ++ c).drop ((d ++ h ++ c).length - 8)).take 4 = h ∧
    (d ++ h ++ c).take ((d ++ h ++ c).length - 4) = d ++ h ∧
    (d ++ h ++ c).drop ((d ++ h ++ c).length - 4) = c := by
  have hl : (d ++ h ++ c).length = d.length + 8 := by
    simp only [List.length_append, hh, hc]
  have e8 : (d ++ h ++ c).length - 8 = d.length := by omega
  have e4 : (d ++ h ++ c).length - 4 = (d ++ h).length := by
    simp only [List.length_append, hh, hc]
    omega
  refine ⟨by omega, ?_, ?_, ?_⟩
  · rw [e8, List.append_assoc, List.drop_left, ← hh, List.take_left]
  · rw [e4, List.take_left]
  · rw [e4, List.drop_left]

/-- A string followed by the checksum header and the checksum string of both
passes the checksum test. -/
theorem validCRC_append (d : GoString) :
    validCRC (d ++ str "6304" ++ CRC16StringWithTag d) = true := by
  obtain ⟨h8, p1, p2, p3⟩ :=
    crc_parts d (str "6304") (CRC16StringWithTag d) header_length rfl
  unfold validCRC
  rw [p1, p2, p3, crc16StringWithTag_eq, equalFold_hex_self _ (crc16String_upper _)]
  simp only [decide_True, Bool.and_true, decide_eq_true_eq]
  exact h8

/-- C2: for every `TransferInfo r`, whatever its fields hold, `ValidateCRC`
returns `true` on `Encode r`. -/
theorem validateCRC_encode (r : TransferInfo) :
    ValidateCRC (Encode r) = Outcome.ok true := by
  rw [validateCRC_eq, encode_eq, validCRC_append]

/-- C3: `Encode r` is `p ++ "6304" ++ h`, where `p` is the concatenation of the
other units written (`payload r`) and `h = CRC16String (p ++ "6304")`, the
checksum of everything written before it together with the header of the
checksum unit itself; the last 8 bytes of the output are `6304` followed by
exactly 4 uppercase hexadecimal digits. -/
theorem encode_checksum_unit (r : TransferInfo) :
    Encode r = payload r ++ str "6304" ++ CRC16String (payload r ++ str "6304") ∧
    (Encode r).drop ((Encode r).length - 8)
      = str "6304" ++ CRC16String (payload r ++ str "6304") ∧
    (CRC16String (payload r ++ str "6304")).length = 4 ∧
    ∀ b ∈ CRC16String (payload r ++ str "6304"), isUpperHex b := by
  have he : Encode r = payload r ++ str "6304" ++ CRC16String (payload r ++ str "6304") := by
    rw [encode_eq, crc16StringWithTag_eq]
  refine ⟨he, ?_, rfl, crc16String_upper _⟩
  rw [he]
  have hl : (payload r ++ str "6304" ++ CRC16String (payload r ++ str "6304")).length - 8
      = (payload r).length := by
    simp only [List.length_append, header_length, crc16String_length]
    omega
  rw [hl, List.append_assoc, List.drop_left]

/-- C6: `ValidateCRC` returns a boolean on every string, without a panic. The
boolean is `true` exactly when the string has at least 8 bytes, the four bytes
before the last four are `6304`, and the last four bytes equal, ignoring letter
case, the 4-digit checksum string of the string without its last four bytes;
so it is `false` for a string shorter than 8 bytes and when the header is not
there. -/
theorem validateCRC_true_iff (s : GoString) :
    ∃ b : Bool, ValidateCRC s = Outcome.ok b ∧
      (b = true ↔
        8 ≤ s.length ∧ (s.drop (s.length - 8)).take 4 = str "6304" ∧
        (s.drop (s.length - 4)).map asciiUpper
          = (CRC16String (s.take (s.length - 4))).map asciiUpper) ∧
      (s.length < 8 → b = false) ∧
      ((s.drop (s.length - 8)).take 4 ≠ str "6304" → b = false) := by
  refine ⟨validCRC s, validateCRC_eq s, ?_, ?_, ?_⟩
  · unfold validCRC
    rw [map_asciiUpper_hex _ (crc16String_upper _)]
    simp only [Bool.and_eq_true, decide_eq_true_eq,
      equalFold_hex _ _ (crc16String_upper _), and_assoc]
  · intro h
    have : ¬ 8 ≤ s.length := by omega
    simp [validCRC, this]
  · intro h
    simp [validCRC, h]

/-! ### CRC-16 -/

theorem two_mul_xor (a b : Nat) : 2 * (a ^^^ b) = (2 * a) ^^^ (2 * b) := by
  apply Nat.eq_of_testBit_eq
  intro i
  cases i with
  | zero => simp [Nat.testBit_zero, Nat.mul_mod_right]
  | succ j =>
    have h2 : (0 : Nat) < 2 := by decide
    rw [Nat.testBit_succ, Nat.mul_div_cancel_left _ h2, Nat.testBit_xor, Nat.testBit_xor,
      Nat.testBit_succ, Nat.testBit_succ, Nat.mul_div_cancel_left _ h2,
      Nat.mul_div_cancel_left _ h2]

theorem two_pow_add_eq_xor (k x : Nat) (h : x < 2 ^ k) : 2 ^ k + x = 2 ^ k ^^^ x := by
  apply Nat.eq_of_testBit_eq
  intro i
  rw [Nat.testBit_xor]
  rcases Nat.lt_trichotomy i k with hlt | heq | hgt
  · rw [Nat.testBit_two_pow_add_gt hlt, Nat.testBit_two_pow_of_ne (by omega)]
    simp
  · subst heq
    rw [Nat.testBit_two_pow_add_eq, Nat.testBit_two_pow_self, Nat.testBit_lt_two_pow h]
    rfl
  · have h1 : 2 ^ k + x < 2 ^ i := by
      have : 2 ^ (k + 1) ≤ 2 ^ i := Nat.pow_le_pow_right (by decide) hgt
      rw [Nat.pow_succ] at this
      omega
    have h2 : x < 2 ^ i := by omega
    rw [Nat.testBit_lt_two_pow h1, Nat.testBit_two_pow_of_ne (by omega),
      Nat.testBit_lt_two_pow h2]
    rfl

theorem and_top_bit (c : Nat) : (c &&& 0x8000 ≠ 0) ↔ c / 2 ^ 15 % 2 = 1 := by
  have e : (0x8000 : Nat) = 2 ^ 15 := by decide
  rw [e]
  constructor
  · intro h
    by_contra hc
    apply h
    apply Nat.eq_of_testBit_eq
    intro i
    rw [Nat.testBit_and, Nat.testBit_two_pow, Nat.zero_testBit]
    by_cases hi : 15 = i
    · subst hi
      have h0 : c / 2 ^ 15 % 2 = 0 := by omega
      rw [Nat.testBit_to_div_mod, h0]
      rfl
    · simp [hi]
  · intro h hz
    have := Nat.testBit_to_div_mod (x := c) (i := 15)
    rw [h] at this
    have h2 : (c &&& 2 ^ 15).testBit 15 = true := by
      rw [Nat.testBit_and, this, Nat.testBit_two_pow_self]
      rfl
    rw [hz, Nat.zero_testBit] at h2
    cases h2

theorem crcShift_eq_ccittShift (c : Nat) : crcShift c = ccittShift c := by
  unfold crcShift ccittShift crcPoly
  rw [Nat.shiftLeft_eq]
  by_cases h : c / 2 ^ 15 % 2 = 1
  · rw [if_pos ((and_top_bit c).mpr h), if_pos h]
  · rw [if_neg (fun hh => h ((and_top_bit c).mp hh)), if_neg h]

theorem crcByte_eq (c : Nat) (b : Byte) :
    crcByte c b = Nat.iterate ccittShift 8 (c ^^^ (b.val * 2 ^ 8)) := by
  have hb : (b.val <<< 8) % 2 ^ 16 = b.val * 2 ^ 8 := by
    rw [Nat.shiftLeft_eq]
    have := b.isLt
    omega
  simp only [crcByte, hb, crcShift_eq_ccittShift, Function.iterate_succ, Function.iterate_zero,
    Function.comp_apply, id_eq]

theorem calculateCRC16_eq_ccittFalse (data : GoString) : CalculateCRC16 data = ccittFalse data := by
  have hf : crcByte = fun reg b => Nat.iterate ccittShift 8 (reg ^^^ (b.val * 2 ^ 8)) := by
    funext c b
    exact crcByte_eq c b
  simp only [CalculateCRC16, ccittFalse, crcInit, crcXorOut, Nat.xor_zero, hf]

theorem ccittShift_represents (c v : Nat) (h : Represents c v) :
    Represents (ccittShift c) (2 * v) := by
  obtain ⟨hc, q, hq⟩ := h
  have hg : ccittGenerator = 2 ^ 16 ^^^ 0x1021 := by decide
  unfold ccittShift
  by_cases ht : c / 2 ^ 15 % 2 = 1
  · rw [if_pos ht]
    have hge : 2 ^ 15 ≤ c := by omega
    have hmod : c * 2 % 2 ^ 16 = c * 2 - 2 ^ 16 := by omega
    have hx : 2 * c = 2 ^ 16 ^^^ (c * 2 - 2 ^ 16) := by
      rw [← two_pow_add_eq_xor 16 _ (by omega)]
      omega
    refine ⟨Nat.xor_lt_two_pow (by omega) (by decide), true :: q, ?_⟩
    rw [hq, two_mul_xor, hx, hmod]
    simp only [polyMul, if_true, hg]
    generalize 2 * polyMul q (2 ^ 16 ^^^ 0x1021) = P
    generalize c * 2 - 2 ^ 16 = X
    apply Nat.eq_of_testBit_eq
    intro i
    simp only [Nat.testBit_xor]
    cases Nat.testBit P i <;> cases Nat.testBit (2 ^ 16) i <;> cases Nat.testBit X i <;>
      cases Nat.testBit 0x1021 i <;> rfl
  · rw [if_neg ht]
    have hlt : c < 2 ^ 15 := by omega
    have hmod : c * 2 % 2 ^ 16 = 2 * c := by omega
    refine ⟨by omega, false :: q, ?_⟩
    rw [hq, two_mul_xor, hmod]
    simp only [polyMul, Bool.false_eq_true, if_false, Nat.zero_xor]

theorem xor_represents (c v x : Nat) (h : Represents c v) (hx : x < 2 ^ 16) :
    Represents (c ^^^ x) (v ^^^ x) := by
  obtain ⟨hc, q, hq⟩ := h
  refine ⟨Nat.xor_lt_two_pow hc hx, q, ?_⟩
  rw [hq, Nat.xor_assoc]

theorem iterate_represents (n c v : Nat) (h : Represents c v) :
    Represents (Nat.iterate ccittShift n c) (2 ^ n * v) := by
  induction n generalizing c v with
  | zero => simpa using h
  | succ k ih =>
    rw [Function.iterate_succ, Function.comp_apply]
    have := ih _ _ (ccittShift_represents c v h)
    rw [Nat.pow_succ, Nat.mul_assoc]
    exact this

theorem two_pow_mul_xor (n a b : Nat) : 2 ^ n * (a ^^^ b) = (2 ^ n * a) ^^^ (2 ^ n * b) := by
  induction n with
  | zero => simp
  | succ k ih =>
    rw [Nat.pow_succ, Nat.mul_comm (2 ^ k) 2, Nat.mul_assoc, Nat.mul_assoc, Nat.mul_assoc, ih,
      two_mul_xor]

theorem mul_two_pow_add_eq_xor (k a x : Nat) (h : x < 2 ^ k) :
    2 ^ k * a + x = (2 ^ k * a) ^^^ x := by
  apply Nat.eq_of_testBit_eq
  intro j
  rw [Nat.testBit_mul_pow_two_add a h, Nat.testBit_xor, Nat.testBit_mul_pow_two]
  by_cases hj : j < k
  · have : ¬ j ≥ k := by omega
    simp [hj, this]
  · have hge : j ≥ k := by omega
    have hx : x < 2 ^ j := lt_of_lt_of_le h (Nat.pow_le_pow_right (by decide) hge)
    simp [hj, hge, Nat.testBit_lt_two_pow hx]

theorem crcByte_represents (c v : Nat) (b : Byte) (h : Represents c v) :
    Represents (crcByte c b) (2 ^ 8 * (v ^^^ b.val * 2 ^ 8)) := by
  rw [crcByte_eq]
  apply iterate_represents
  apply xor_represents _ _ _ h
  have := b.isLt
  omega

theorem messagePoly_append (init : GoString) (b : Byte) :
    messagePoly (init ++ [b]) = messagePoly init * 256 + b.val := by
  simp [messagePoly, List.foldl_append]

/-- The register of `CalculateCRC16` after the whole input stands for the message
times `x ^ 16` plus the initial value times `x ^ (8 n)`. -/
theorem fold_represents (data : GoString) :
    Represents (data.foldl crcByte crcInit)
      ((messagePoly data <<< 16) ^^^ (0xFFFF <<< (8 * data.length))) := by
  induction data using List.reverseRecOn with
  | nil => exact ⟨by decide, [], by decide⟩
  | append_singleton init b ih =>
    rw [List.foldl_append, List.foldl_cons, List.foldl_nil]
    have hstep := crcByte_represents _ _ b ih
    have hv : 2 ^ 8 * ((messagePoly init <<< 16 ^^^ 0xFFFF <<< (8 * init.length)) ^^^
          b.val * 2 ^ 8)
        = (messagePoly (init ++ [b]) <<< 16) ^^^ (0xFFFF <<< (8 * (init ++ [b]).length)) := by
      have hb := b.isLt
      have e1 : messagePoly (init ++ [b]) <<< 16
          = (2 ^ 8 * (messagePoly init <<< 16)) ^^^ (2 ^ 8 * (b.val * 2 ^ 8)) := by
        rw [messagePoly_append, Nat.shiftLeft_eq, Nat.shiftLeft_eq]
        have e : (messagePoly init * 256 + b.val) * 2 ^ 16
            = 2 ^ 24 * messagePoly init + b.val * 2 ^ 16 := by ring
        have e2 : 2 ^ 8 * (messagePoly init * 2 ^ 16) = 2 ^ 24 * messagePoly init := by ring
        have e3 : 2 ^ 8 * (b.val * 2 ^ 8) = b.val * 2 ^ 16 := by ring
        rw [e, e2, e3]
        exact mul_two_pow_add_eq_xor 24 _ _ (by omega)
      have e4 : 0xFFFF <<< (8 * (init ++ [b]).length)
          = 2 ^ 8 * (0xFFFF <<< (8 * init.length)) := by
        rw [Nat.shiftLeft_eq, Nat.shiftLeft_eq, List.length_append, List.length_singleton,
          Nat.mul_add, Nat.pow_add]
        ring
      rw [two_pow_mul_xor, two_pow_mul_xor, e1, e4, Nat.xor_assoc, Nat.xor_assoc,
        Nat.xor_comm (2 ^ 8 * (65535 <<< (8 * init.length)))]
    rw [hv] at hstep
    exact hstep

/-- C4: `CalculateCRC16` is CRC-16/CCITT-FALSE as the specification words it
(register `0xFFFF`, each byte XORed into the high byte, eight shifts modulo
`2 ^ 16` with `0x1021` XORed in when the top bit was set, no final XOR); its
result is the remainder of `message(x) * x ^ 16 + 0xFFFF * x ^ (8 n)` modulo
`x ^ 16 + x ^ 12 + x ^ 5 + 1` over GF(2), that is, it has degree below 16 and
differs from that polynomial by a multiple `q * g` of the generator; the empty
input gives `0xFFFF` and the ASCII bytes of `123456789` give `0x29B1`. -/
theorem calculateCRC16_is_ccitt_false (data : GoString) :
    CalculateCRC16 data = ccittFalse data ∧
    CalculateCRC16 data < 2 ^ 16 ∧
    (∃ q : List Bool,
      (messagePoly data <<< 16) ^^^ (0xFFFF <<< (8 * data.length))
        = polyMul q ccittGenerator ^^^ CalculateCRC16 data) ∧
    CalculateCRC16 [] = 0xFFFF ∧
    CalculateCRC16 (str "123456789") = 0x29B1 := by
  have h := fold_represents data
  have e : CalculateCRC16 data = data.foldl crcByte crcInit := by
    simp only [CalculateCRC16, crcXorOut, Nat.xor_zero]
  rw [← e] at h
  exact ⟨calculateCRC16_eq_ccittFalse data, h.1, h.2, by decide, by decide⟩

/-! ### Units with a length of at most 99 -/

theorem formatLength_small : ∀ n : Fin 100,
    (formatLength (n.val : Int)).length = 2 ∧ Atoi (formatLength (n.val : Int)) = some (n.val : Int) := by
  decide

theorem formatLength_atoi (n : Nat) (h : n ≤ 99) :
    (formatLength (n : Int)).length = 2 ∧ Atoi (formatLength (n : Int)) = some (n : Int) :=
  formatLength_small ⟨n, by omega⟩

theorem tlv_eq (tag value : GoString) :
    tlv tag value = tag ++ formatLength (value.length : Int) ++ value := by
  simp [tlv, appendTLVTo]

theorem tlv_length (tag value : GoString) (ht : tag.length = 2) (hv : value.length ≤ 99) :
    (tlv tag value).length = 4 + value.length := by
  rw [tlv_eq]
  simp only [List.length_append, ht, (formatLength_atoi _ hv).1]

/-- Reading at the start of a well-formed unit returns its tag and value and moves
the cursor to the end of the unit. -/
theorem readTLV_unit (pre post tag value : GoString)
    (ht : tag.length = 2) (hv : value.length ≤ 99) :
    Decoder.readTLV ⟨pre ++ tlv tag value ++ post, pre.length,
        (pre ++ tlv tag value ++ post).length⟩
      = .ok (tag, value, ⟨pre ++ tlv tag value ++ post, (pre ++ tlv tag value).length,
          (pre ++ tlv tag value ++ post).length⟩) := by
  obtain ⟨hl, ha⟩ := formatLength_atoi _ hv
  have hdata : pre ++ tlv tag value ++ post
      = pre ++ tag ++ formatLength (value.length : Int) ++ value ++ post := by
    rw [tlv_eq]; simp only [List.append_assoc]
  have hN : (pre ++ tlv tag value ++ post).length
      = pre.length + 4 + value.length + post.length := by
    rw [hdata]; simp only [List.length_append, ht, hl]
  have s1 : slice (pre ++ tlv tag value ++ post) (pre.length : Int) ((pre.length : Int) + 2)
      = some tag := by
    rw [hdata]
    have := slice_append_mid pre tag (formatLength (value.length : Int) ++ value ++ post)
    rw [ht] at this
    simpa only [List.append_assoc, Nat.cast_ofNat] using this
  have s2 : slice (pre ++ tlv tag value ++ post) ((pre.length : Int) + 2)
      ((pre.length : Int) + 2 + 2) = some (formatLength (value.length : Int)) := by
    rw [hdata]
    have := slice_append_mid (pre ++ tag) (formatLength (value.length : Int)) (value ++ post)
    rw [hl, List.length_append, ht] at this
    simpa only [List.append_assoc, Nat.cast_add, Nat.cast_ofNat] using this
  have s3 : slice (pre ++ tlv tag value ++ post) ((pre.length : Int) + 2 + 2)
      ((pre.length : Int) + 2 + 2 + (value.length : Int)) = some value := by
    rw [hdata]
    have := slice_append_mid (pre ++ tag ++ formatLength (value.length : Int)) value post
    rw [List.length_append, List.length_append, ht, hl] at this
    simpa only [List.append_assoc, Nat.cast_add, Nat.cast_ofNat] using this
  have h4 : ¬ ((pre.length : Int) + 4 > ((pre ++ tlv tag value ++ post).length : Int)) := by
    rw [hN]; push_cast; omega
  have h5 : ¬ ((pre.length : Int) + 2 + 2 + (value.length : Int)
      > ((pre ++ tlv tag value ++ post).length : Int)) := by
    rw [hN]; push_cast; omega
  rw [readTLV_def]
  simp only
  rw [if_neg h4, s1]
  simp only
  rw [s2]
  simp only
  rw [ha]
  simp only
  rw [if_neg h5, s3]
  simp only [Outcome.ok.injEq, Prod.mk.injEq, true_and, Decoder.mk.injEq, and_true]
  rw [List.length_append, tlv_length tag value ht hv]
  push_cast
  omega

/-! ### Scanning a sequence of well-formed units -/

theorem outcome_bind_assoc {α β γ : Type} (x : Outcome α) (f : α → Outcome β)
    (g : β → Outcome γ) : (x.bind f).bind g = x.bind (fun a => (f a).bind g) := by
  cases x <;> rfl

theorem serialize_cons (u : GoString × GoString) (us : List (GoString × GoString)) :
    serialize (u :: us) = tlv u.1 u.2 ++ serialize us := by
  simp [serialize]

theorem serialize_length (us : List (GoString × GoString)) (h : ∀ u ∈ us, WellFormed u) :
    4 * us.length ≤ (serialize us).length := by
  induction us with
  | nil => simp [serialize]
  | cons u us ih =>
    have hu := h u (List.mem_cons_self _ _)
    rw [serialize_cons, List.length_append, tlv_length _ _ hu.1 hu.2, List.length_cons]
    have := ih (fun v hv => h v (List.mem_cons_of_mem _ hv))
    omega

/-- A scan that starts at a sequence of well-formed units applies their fields in
order and goes on after them with the iterations that are left. -/
theorem scanLoop_units
    (field : GoString → GoString → DecodedInfo → Outcome DecodedInfo)
    (us : List (GoString × GoString)) (h : ∀ u ∈ us, WellFormed u)
    (k : Nat) (pre post : GoString) (info : DecodedInfo) :
    scanLoop field (us.length + k)
        ⟨pre ++ serialize us ++ post, pre.length, (pre ++ serialize us ++ post).length⟩ info
      = (runFields field us info).bind
          (scanLoop field k ⟨pre ++ serialize us ++ post, (pre ++ serialize us).length,
            (pre ++ serialize us ++ post).length⟩) := by
  induction us generalizing pre info with
  | nil =>
    simp only [List.length_nil, Nat.zero_add, serialize, List.flatMap_nil, List.append_nil,
      runFields, Outcome.bind]
  | cons u us ih =>
    obtain ⟨tag, value⟩ := u
    have hu := h (tag, value) (List.mem_cons_self _ _)
    have hrest : ∀ v ∈ us, WellFormed v := fun v hv => h v (List.mem_cons_of_mem _ hv)
    have hpre : pre ++ serialize ((tag, value) :: us) = (pre ++ tlv tag value) ++ serialize us := by
      rw [serialize_cons]; simp only [List.append_assoc]
    have hassoc : pre ++ tlv tag value ++ serialize us ++ post
        = pre ++ tlv tag value ++ (serialize us ++ post) := by
      simp only [List.append_assoc]
    have hfuel : ((tag, value) :: us).length + k = (us.length + k) + 1 := by
      simp only [List.length_cons]; omega
    have hlt : (pre.length : Int) < ((pre ++ tlv tag value ++ (serialize us ++ post)).length : Int) := by
      simp only [List.length_append, tlv_length tag value hu.1 hu.2]
      push_cast
      omega
    have hih := ih hrest (pre ++ tlv tag value)
    rw [hassoc] at hih
    rw [hfuel, hpre, hassoc, scanLoop]
    simp only
    rw [if_pos hlt, readTLV_unit pre (serialize us ++ post) tag value hu.1 hu.2]
    simp only [runFields]
    rw [outcome_bind_assoc]
    congr 1
    funext i
    exact hih i

theorem scanLoop_at_end (field : GoString → GoString → DecodedInfo → Outcome DecodedInfo)
    (k : Nat) (data : GoString) (info : DecodedInfo) :
    scanLoop field (k + 1) ⟨data, data.length, data.length⟩ info = .ok info := by
  rw [scanLoop]
  simp

/-- A scan over exactly a sequence of well-formed units, with the iterations that
the parsing methods give it, applies the fields of the units in order. -/
theorem scan_serialize
    (field : GoString → GoString → DecodedInfo → Outcome DecodedInfo)
    (us : List (GoString × GoString)) (h : ∀ u ∈ us, WellFormed u) (info : DecodedInfo) :
    scanLoop field ((serialize us).length / 4 + 1) (NewDecoder (serialize us)) info
      = runFields field us info := by
  have hlen := serialize_length us h
  obtain ⟨k, hk⟩ : ∃ k, (serialize us).length / 4 + 1 = us.length + (k + 1) :=
    ⟨(serialize us).length / 4 - us.length, by omega⟩
  have := scanLoop_units field us h (k + 1) [] [] info
  simp only [List.nil_append, List.append_nil, List.length_nil, Nat.cast_zero] at this
  rw [hk]
  unfold NewDecoder
  rw [this]
  have hend : scanLoop field (k + 1)
      ⟨serialize us, (serialize us).length, (serialize us).length⟩ = fun i => .ok i :=
    funext (fun i => scanLoop_at_end field k _ i)
  rw [hend]
  cases runFields field us info <;> rfl

/-! ### Normalization and truncation -/

theorem byteOf_val (b : Byte) : byteOf b.val = b := by
  apply Fin.ext
  simp only [byteOf]
  exact Nat.mod_eq_of_lt b.isLt

theorem encodeRune_ascii (x : Nat) (h : x < 128) : encodeRune x = [byteOf x] := by
  unfold encodeRune
  rw [if_pos (show x ≤ 0x7F by omega)]

theorem encodeRune_byte (b : Byte) (h : b.val < 128) : encodeRune b.val = [b] := by
  rw [encodeRune_ascii _ h, byteOf_val]

theorem byteOf_lt (x : Nat) (h : x < 128) : (byteOf x).val < 128 := by
  simp only [byteOf]
  omega

theorem isASCII_cons {b : Byte} {s : GoString} (h : isASCII (b :: s)) :
    b.val < 128 ∧ isASCII s :=
  ⟨h b (List.mem_cons_self _ _), fun c hc => h c (List.mem_cons_of_mem _ hc)⟩

theorem runes_ascii (s : GoString) (h : isASCII s) : runes s = s.map (fun b => b.val) := by
  induction s with
  | nil => rfl
  | cons b s ih =>
    obtain ⟨hb, hs⟩ := isASCII_cons h
    rw [runes_cons_ascii b s hb, ih hs, List.map_cons]

theorem stringOfRunes_ascii (s : GoString) (h : isASCII s) :
    stringOfRunes (s.map (fun b => b.val)) = s := by
  induction s with
  | nil => rfl
  | cons b s ih =>
    obtain ⟨hb, hs⟩ := isASCII_cons h
    simp only [stringOfRunes, List.map_cons, List.flatMap_cons, encodeRune_byte b hb,
      List.singleton_append, List.cons.injEq, true_and]
    exact ih hs

theorem isASCII_take (s : GoString) (n : Nat) (h : isASCII s) : isASCII (s.take n) :=
  fun b hb => h b (List.mem_of_mem_take hb)

/-- On ASCII text `truncateString` keeps the first `maxLen` bytes. -/
theorem truncateString_ascii (s : GoString) (n : Nat) (h : isASCII s) :
    truncateString s n = s.take n := by
  unfold truncateString
  simp only [runes_ascii s h, List.length_map]
  split
  · rename_i hle
    exact (List.take_of_length_le hle).symm
  · rw [← List.map_take]
    exact stringOfRunes_ascii _ (isASCII_take s n h)

theorem truncateString_ascii_length (s : GoString) (n : Nat) (h : isASCII s) :
    (truncateString s n).length ≤ n := by
  rw [truncateString_ascii s n h, List.length_take]
  omega

theorem table_values_ascii : ∀ p ∈ vietnameseToASCII, p.2.toNat < 128 := by decide

theorem table_keys_high : ∀ p ∈ vietnameseToASCII, 128 ≤ p.1.toNat := by decide

theorem vietnameseLookup_ascii (r m : Nat) (h : vietnameseLookup r = some m) : m < 128 := by
  unfold vietnameseLookup at h
  cases hf : vietnameseToASCII.find? (fun p => decide (p.1.toNat = r)) with
  | none => rw [hf] at h; cases h
  | some p =>
    rw [hf] at h
    simp only [Option.map_some', Option.some.injEq] at h
    rw [← h]
    exact table_values_ascii p (List.mem_of_find?_eq_some hf)

theorem vietnameseLookup_none (r : Nat) (h : r < 128) : vietnameseLookup r = none := by
  unfold vietnameseLookup
  have : vietnameseToASCII.find? (fun p => decide (p.1.toNat = r)) = none := by
    rw [List.find?_eq_none]
    intro p hp
    have := table_keys_high p hp
    simp only [decide_eq_true_eq]
    omega
  rw [this]
  rfl

/-- The rune that `removeVietnameseDiacritics` writes for the rune `r`. -/
theorem normalized_rune_ascii (r : Nat) :
    isASCII (match vietnameseLookup r with
      | some mapped => encodeRune mapped
      | none => if r < 128 then encodeRune r else encodeRune (chr ' ').val) := by
  cases hl : vietnameseLookup r with
  | some m =>
    have hm := vietnameseLookup_ascii r m hl
    simp only
    rw [encodeRune_ascii m hm]
    intro b hb
    simp only [List.mem_singleton] at hb
    rw [hb]
    exact byteOf_lt m hm
  | none =>
    simp only
    split
    · rename_i hr
      rw [encodeRune_ascii r hr]
      intro b hb
      simp only [List.mem_singleton] at hb
      rw [hb]
      exact byteOf_lt r hr
    · unfold isASCII
      decide

/-- The output of `removeVietnameseDiacritics` is ASCII, whatever the input. -/
theorem removeVietnameseDiacritics_ascii (s : GoString) :
    isASCII (removeVietnameseDiacritics s) := by
  unfold removeVietnameseDiacritics
  intro b hb
  rw [List.mem_flatMap] at hb
  obtain ⟨r, _, hr⟩ := hb
  exact normalized_rune_ascii r b hr

/-- ASCII text is left as it is by `removeVietnameseDiacritics`. -/
theorem removeVietnameseDiacritics_of_ascii (s : GoString) (h : isASCII s) :
    removeVietnameseDiacritics s = s := by
  unfold removeVietnameseDiacritics
  rw [runes_ascii s h]
  induction s with
  | nil => rfl
  | cons b s ih =>
    obtain ⟨hb, hs⟩ := isASCII_cons h
    simp only [List.map_cons, List.flatMap_cons, vietnameseLookup_none b.val hb, hb, if_true,
      encodeRune_byte b hb, List.singleton_append, List.cons.injEq, true_and]
    exact ih hs

theorem normalized_length (s : GoString) (n : Nat) :
    (truncateString (removeVietnameseDiacritics s) n).length ≤ n :=
  truncateString_ascii_length _ n (removeVietnameseDiacritics_ascii s)

theorem normalized_of_ascii (s : GoString) (n : Nat) (h : isASCII s) (hn : s.length ≤ n) :
    truncateString (removeVietnameseDiacritics s) n = s := by
  rw [removeVietnameseDiacritics_of_ascii s h, truncateString_ascii s n h,
    List.take_of_length_le hn]

/-! ### Decimal formatting and parsing -/

theorem digit_val (d : Nat) (h : d < 10) : (byteOf (48 + d)).val = 48 + d := by
  simp only [byteOf]
  omega

theorem parseDigits_append (xs ys : GoString) (acc : Nat) :
    parseDigits (xs ++ ys) acc = (parseDigits xs acc).bind (fun a => parseDigits ys a) := by
  induction xs generalizing acc with
  | nil => rfl
  | cons x xs ih =>
    simp only [List.cons_append, parseDigits]
    split
    · exact ih _
    · rfl

theorem parseDigits_formatNatAux (fuel n : Nat) (h : n < fuel) :
    parseDigits (formatNatAux fuel n) 0 = some n := by
  induction fuel generalizing n with
  | zero => omega
  | succ f ih =>
    unfold formatNatAux
    split
    · rename_i h10
      have hv := digit_val n h10
      simp only [parseDigits, hv]
      rw [if_pos (by omega)]
      simp
    · rename_i h10
      have hv := digit_val (n % 10) (Nat.mod_lt _ (by decide))
      rw [parseDigits_append, ih (n / 10) (by omega)]
      simp only [Option.some_bind, parseDigits, hv]
      rw [if_pos (by omega)]
      congr 1
      omega

theorem formatNatAux_digits (fuel n : Nat) :
    ∀ b ∈ formatNatAux fuel n, 48 ≤ b.val ∧ b.val ≤ 57 := by
  induction fuel generalizing n with
  | zero => intro b hb; simp [formatNatAux] at hb
  | succ f ih =>
    intro b hb
    unfold formatNatAux at hb
    split at hb
    · rename_i h10
      simp only [List.mem_singleton] at hb
      rw [hb, digit_val n h10]
      omega
    · rw [List.mem_append] at hb
      rcases hb with hb | hb
      · exact ih _ b hb
      · simp only [List.mem_singleton] at hb
        have := Nat.mod_lt n (by decide : 0 < 10)
        rw [hb, digit_val (n % 10) this]
        omega

theorem formatNatAux_length (fuel n k : Nat) (hk : 1 ≤ k) (h : n < 10 ^ k) :
    (formatNatAux fuel n).length ≤ k := by
  induction fuel generalizing n k with
  | zero => simp [formatNatAux]
  | succ f ih =>
    unfold formatNatAux
    split
    · simpa using hk
    · rename_i h10
      have hk2 : 2 ≤ k := by
        by_contra hc
        have : k = 1 := by omega
        subst this
        omega
      obtain ⟨j, rfl⟩ : ∃ j, k = j + 1 := ⟨k - 1, by omega⟩
      have hdiv : n / 10 < 10 ^ j := by
        rw [Nat.pow_succ] at h
        omega
      have := ih (n / 10) j (by omega) hdiv
      simp only [List.length_append, List.length_singleton]
      omega

theorem formatNatAux_ne_nil (fuel n : Nat) : formatNatAux (fuel + 1) n ≠ [] := by
  unfold formatNatAux
  split <;> simp

/-- A positive `int64` written by `FormatInt` is read back by `ParseInt`, and it
has at most 19 digits. -/
theorem parseInt_formatInt (a : Int) (h0 : 0 < a) (h63 : a < 2 ^ 63) :
    ParseInt (FormatInt a) = some a ∧ (FormatInt a).length ≤ 19 := by
  obtain ⟨n, rfl⟩ : ∃ n : Nat, a = (n : Int) := ⟨a.toNat, by omega⟩
  have hn : n < 2 ^ 63 := by exact_mod_cast h63
  have hF : FormatInt (n : Int) = formatNat n := by
    unfold FormatInt
    rw [if_neg (by omega), Int.toNat_ofNat]
  rw [hF]
  constructor
  · have hp : parseDigits (formatNat n) 0 = some n :=
      parseDigits_formatNatAux (n + 1) n (by omega)
    have hd := formatNatAux_digits (n + 1) n
    cases hs : formatNat n with
    | nil => exact absurd hs (formatNatAux_ne_nil n n)
    | cons c cs =>
      have hc : 48 ≤ c.val ∧ c.val ≤ 57 := hd c (by
        show c ∈ formatNat n
        rw [hs]; exact List.mem_cons_self _ _)
      have hplus : ¬ (c = chr '+') := by
        intro hh; rw [hh] at hc; revert hc; decide
      have hminus : ¬ (c = chr '-') := by
        intro hh; rw [hh] at hc; revert hc; decide
      rw [hs] at hp
      have hn2 : ¬ (2 ^ 63 ≤ n) := by omega
      simp only [ParseInt, hplus, hminus, or_self, if_false, hp, ne_eq, not_false_eq_true,
        true_and, hn2, false_and, reduceCtorEq]
  · apply formatNatAux_length
    · decide
    · have : (2 : Nat) ^ 63 < 10 ^ 19 := by decide
      omega

/-! ### The nested groups -/

theorem serialize_append (us vs : List (GoString × GoString)) :
    serialize (us ++ vs) = serialize us ++ serialize vs := by
  simp [serialize]

theorem serialize_singleton (tag value : GoString) :
    serialize [(tag, value)] = tlv tag value := by
  simp [serialize]

theorem serialize_nil : serialize [] = [] := rfl

theorem runFields_append (field : GoString → GoString → DecodedInfo → Outcome DecodedInfo)
    (us vs : List (GoString × GoString)) (info : DecodedInfo) :
    runFields field (us ++ vs) info = (runFields field us info).bind (runFields field vs) := by
  induction us generalizing info with
  | nil => rfl
  | cons u us ih =>
    obtain ⟨t, v⟩ := u
    simp only [List.cons_append, runFields]
    rw [outcome_bind_assoc]
    congr 1
    funext i
    exact ih i

theorem wellFormed_mk (tag value : GoString) (ht : tag.length = 2) (hv : value.length ≤ 99) :
    WellFormed (tag, value) := ⟨ht, hv⟩

theorem buildBeneficiaryOrg_eq (bin acct : GoString) :
    buildBeneficiaryOrg bin acct = serialize [(str "00", bin), (str "01", acct)] := by
  simp [buildBeneficiaryOrg, appendTLVTo_eq, serialize]

theorem buildBeneficiaryOrg_length (bin acct : GoString)
    (hb : bin.length ≤ 99) (ha : acct.length ≤ 99) :
    (buildBeneficiaryOrg bin acct).length = 8 + bin.length + acct.length := by
  simp only [buildBeneficiaryOrg, appendTLVTo_eq, List.nil_append, List.length_append]
  rw [tlv_length _ _ (by decide) hb, tlv_length _ _ (by decide) ha]
  omega

theorem parseBeneficiaryOrg_build (bin acct : GoString) (info : DecodedInfo)
    (hb : bin.length ≤ 99) (ha : acct.length ≤ 99) :
    parseBeneficiaryOrg (buildBeneficiaryOrg bin acct) info
      = .ok { info with BankBin := bin, AccountNumber := acct } := by
  have hwf : ∀ u ∈ [(str "00", bin), (str "01", acct)], WellFormed u := by
    intro u hu
    simp only [List.mem_cons, List.mem_singleton, List.not_mem_nil, or_false] at hu
    rcases hu with rfl | rfl
    · exact wellFormed_mk _ _ (by decide) hb
    · exact wellFormed_mk _ _ (by decide) ha
  have h01 : ¬ (str "01" = str "00") := by decide
  rw [buildBeneficiaryOrg_eq]
  unfold parseBeneficiaryOrg
  rw [parseBeneficiaryOrgLoop_eq]
  exact (scan_serialize _ _ hwf info).trans (by
    simp only [runFields, Outcome.bind, beneficiaryField, if_true, h01, if_false])

theorem buildMerchantAccount_eq (bin acct : GoString) :
    buildMerchantAccount bin acct
      = serialize [(SubTagGUID, NAPAS_GUID), (str "01", buildBeneficiaryOrg bin acct),
          (str "02", TransferToAccount)] := by
  simp [buildMerchantAccount, appendTLVTo_eq, serialize]

theorem buildMerchantAccount_length (bin acct : GoString)
    (h : bin.length + acct.length ≤ 61) :
    (buildMerchantAccount bin acct).length = 38 + bin.length + acct.length := by
  have hben := buildBeneficiaryOrg_length bin acct (by omega) (by omega)
  simp only [buildMerchantAccount, appendTLVTo_eq, List.nil_append, List.length_append]
  rw [tlv_length _ _ (by decide) (by decide), tlv_length _ _ (by decide) (by omega),
    tlv_length _ _ (by decide) (by decide), hben]
  have h1 : NAPAS_GUID.length = 10 := by decide
  have h2 : TransferToAccount.length = 8 := by decide
  omega

theorem parseMerchantAccount_build (bin acct : GoString) (info : DecodedInfo)
    (h : bin.length + acct.length ≤ 61) :
    parseMerchantAccount (buildMerchantAccount bin acct) info
      = .ok { info with BankBin := bin, AccountNumber := acct } := by
  have hben := buildBeneficiaryOrg_length bin acct (by omega) (by omega)
  have hwf : ∀ u ∈ [(SubTagGUID, NAPAS_GUID), (str "01", buildBeneficiaryOrg bin acct),
      (str "02", TransferToAccount)], WellFormed u := by
    intro u hu
    simp only [List.mem_cons, List.mem_singleton, List.not_mem_nil, or_false] at hu
    rcases hu with rfl | rfl | rfl
    · exact wellFormed_mk _ _ (by decide) (by decide)
    · exact wellFormed_mk _ _ (by decide) (by omega)
    · exact wellFormed_mk _ _ (by decide) (by decide)
  have h00 : ¬ (SubTagGUID = str "01") := by decide
  have h02 : ¬ (str "02" = str "01") := by decide
  rw [buildMerchantAccount_eq]
  unfold parseMerchantAccount
  rw [parseMerchantAccountLoop_eq]
  exact (scan_serialize _ _ hwf info).trans (by
    simp only [runFields, Outcome.bind, merchantAccountField, if_true, h00, h02, if_false,
      parseBeneficiaryOrg_build bin acct info (by omega) (by omega)])

theorem buildAdditionalData_eq (message : GoString) :
    buildAdditionalData message
      = serialize [(SubTagPurpose,
          truncateString (removeVietnameseDiacritics message) 50)] := by
  simp [buildAdditionalData, appendTLVTo_eq, serialize]

theorem buildAdditionalData_length (message : GoString) :
    (buildAdditionalData message).length ≤ 54 := by
  have := normalized_length message 50
  simp only [buildAdditionalData, appendTLVTo_eq, List.nil_append]
  rw [tlv_length _ _ (by decide) (by omega)]
  omega

theorem parseAdditionalData_build (message : GoString) (info : DecodedInfo) :
    parseAdditionalData (buildAdditionalData message) info
      = .ok { info with Message := truncateString (removeVietnameseDiacritics message) 50 } := by
  have hlen := normalized_length message 50
  have hwf : ∀ u ∈ [(SubTagPurpose,
      truncateString (removeVietnameseDiacritics message) 50)], WellFormed u := by
    intro u hu
    simp only [List.mem_singleton] at hu
    rw [hu]
    exact wellFormed_mk _ _ (by decide) (by omega)
  rw [buildAdditionalData_eq]
  unfold parseAdditionalData
  rw [parseAdditionalDataLoop_eq]
  exact (scan_serialize _ _ hwf info).trans (by
    simp only [runFields, Outcome.bind, additionalDataField, if_true])

/-! ### Decoding the encoder's output -/

theorem payload_eq_serialize (r : TransferInfo) : payload r = serialize (payloadUnits r) := by
  unfold payload payloadUnits
  simp only [serialize_append]
  by_cases h3 : r.Amount > 0 <;> by_cases h4 : r.MerchantName = [] <;>
    by_cases h5 : r.Message = [] <;>
    simp [h3, h4, h5, serialize]

theorem tlv_crc (d : GoString) :
    tlv TagCRC (CRC16StringWithTag d) = str "6304" ++ CRC16StringWithTag d := by
  rw [tlv_eq]
  have h : (CRC16StringWithTag d).length = 4 := rfl
  rw [h]
  have : TagCRC ++ formatLength ((4 : Nat) : Int) = str "6304" := by decide
  rw [this]

theorem encode_eq_serialize (r : TransferInfo) :
    Encode r = serialize (payloadUnits r ++ [(TagCRC, CRC16StringWithTag (payload r))]) := by
  rw [encode_eq, serialize_append, serialize_singleton, tlv_crc, ← payload_eq_serialize,
    List.append_assoc]

theorem cityValue_length (r : TransferInfo) : (cityValue r).length ≤ 15 :=
  normalized_length _ 15

theorem payloadUnits_wellFormed (r : TransferInfo) (h63 : r.Amount < 2 ^ 63)
    (hlen : r.BankBin.length + r.AccountNumber.length ≤ 61) :
    ∀ u ∈ payloadUnits r ++ [(TagCRC, CRC16StringWithTag (payload r))], WellFormed u := by
  have hma := buildMerchantAccount_length r.BankBin r.AccountNumber hlen
  have hname := normalized_length r.MerchantName 25
  have hcity := cityValue_length r
  have hmsg := buildAdditionalData_length r.Message
  have hinit : (initiationCode r).length ≤ 99 := by
    unfold initiationCode
    split_ifs <;> decide
  intro u hu
  unfold payloadUnits at hu
  simp only [List.mem_append, List.mem_cons, List.mem_singleton, List.not_mem_nil,
    or_false] at hu
  rcases hu with ((((((h | h | h | h) | h) | h) | h) | h) | h) | h
  · rw [h]; exact wellFormed_mk _ _ (by decide) (by decide)
  · rw [h]; exact wellFormed_mk _ _ (by decide) hinit
  · rw [h]; exact wellFormed_mk _ _ (by decide) (by omega)
  · rw [h]; exact wellFormed_mk _ _ (by decide) (by decide)
  · split at h
    · rename_i hpos
      simp only [List.mem_singleton] at h
      rw [h]
      exact wellFormed_mk _ _ (by decide)
        (by have := (parseInt_formatInt r.Amount hpos h63).2; omega)
    · simp at h
  · rw [h]; exact wellFormed_mk _ _ (by decide) (by decide)
  · split at h
    · simp only [List.mem_singleton] at h
      rw [h]
      exact wellFormed_mk _ _ (by decide) (by omega)
    · simp at h
  · rw [h]; exact wellFormed_mk _ _ (by decide) (by omega)
  · split at h
    · simp only [List.mem_singleton] at h
      rw [h]
      exact wellFormed_mk _ _ (by decide) (by omega)
    · simp at h
  · rw [h]; exact wellFormed_mk _ _ (by decide) (by rw [crc16StringWithTag_eq, crc16String_length]; omega)

theorem decodeField_format (v : GoString) (i : DecodedInfo) :
    decodeField TagPayloadFormat v i = .ok { i with PayloadFormat := v } := by
  unfold decodeField
  rw [if_pos rfl]

theorem decodeField_initiation (v : GoString) (i : DecodedInfo) :
    decodeField TagInitiationMethod v i = .ok { i with InitiationMethod := v } := by
  unfold decodeField
  rw [if_neg (by decide), if_pos rfl]

theorem decodeField_merchantAccount (v : GoString) (i : DecodedInfo) :
    decodeField TagMerchantAccount v i = parseMerchantAccount v i := by
  unfold decodeField
  rw [if_neg (by decide), if_neg (by decide), if_pos rfl]

theorem decodeField_currency (v : GoString) (i : DecodedInfo) :
    decodeField TagCurrency v i = .ok { i with Currency := v } := by
  unfold decodeField
  rw [if_neg (by decide), if_neg (by decide), if_neg (by decide), if_pos rfl]

theorem decodeField_amount (v : GoString) (i : DecodedInfo) :
    decodeField TagAmount v i =
      match ParseInt v with
      | some amt => .ok { i with Amount := amt }
      | none => .ok i := by
  unfold decodeField
  rw [if_neg (by decide), if_neg (by decide), if_neg (by decide), if_neg (by decide),
    if_pos rfl]

theorem decodeField_country (v : GoString) (i : DecodedInfo) :
    decodeField TagCountry v i = .ok { i with Country := v } := by
  unfold decodeField
  rw [if_neg (by decide), if_neg (by decide), if_neg (by decide), if_neg (by decide),
    if_neg (by decide), if_pos rfl]

theorem decodeField_merchantName (v : GoString) (i : DecodedInfo) :
    decodeField TagMerchantName v i = .ok { i with MerchantName := v } := by
  unfold decodeField
  rw [if_neg (by decide), if_neg (by decide), if_neg (by decide), if_neg (by decide),
    if_neg (by decide), if_neg (by decide), if_pos rfl]

theorem decodeField_merchantCity (v : GoString) (i : DecodedInfo) :
    decodeField TagMerchantCity v i = .ok { i with MerchantCity := v } := by
  unfold decodeField
  rw [if_neg (by decide), if_neg (by decide), if_neg (by decide), if_neg (by decide),
    if_neg (by decide), if_neg (by decide), if_neg (by decide), if_pos rfl]

theorem decodeField_additionalData (v : GoString) (i : DecodedInfo) :
    decodeField TagAdditionalData v i = parseAdditionalData v i := by
  unfold decodeField
  rw [if_neg (by decide), if_neg (by decide), if_neg (by decide), if_neg (by decide),
    if_neg (by decide), if_neg (by decide), if_neg (by decide), if_neg (by decide),
    if_pos rfl]

theorem decodeField_crc (v : GoString) (i : DecodedInfo) :
    decodeField TagCRC v i = .ok { i with CRC := v } := by
  unfold decodeField
  rw [if_neg (by decide), if_neg (by decide), if_neg (by decide), if_neg (by decide),
    if_neg (by decide), if_neg (by decide), if_neg (by decide), if_neg (by decide),
    if_neg (by decide), if_pos rfl]

theorem normalized_nil (n : Nat) : truncateString (removeVietnameseDiacritics []) n = [] := by
  have h : removeVietnameseDiacritics [] = [] := rfl
  rw [h]
  unfold truncateString
  rw [if_pos (by simp [runes, runesAux])]

/-- Decoding the output of `Encode`: when the amount is a non-negative `int64` and
the bank identifier and account number have at most 61 bytes together, every
unit keeps to two length digits and `Decode` returns the record `decodedOf r`. -/
theorem decode_encode (r : TransferInfo)
    (h0 : 0 ≤ r.Amount) (h63 : r.Amount < 2 ^ 63)
    (hlen : r.BankBin.length + r.AccountNumber.length ≤ 61) :
    Decode (Encode r) = .ok (decodedOf r) := by
  have hwf := payloadUnits_wellFormed r h63 hlen
  have h8 : 8 ≤ (Encode r).length := by
    rw [encode_eq]
    simp only [List.length_append, header_length]
    have : (CRC16StringWithTag (payload r)).length = 4 := rfl
    omega
  obtain ⟨crc0, hd⟩ := decode_long (Encode r) h8
  have hvalid : validCRC (Encode r) = true := by
    rw [encode_eq]; exact validCRC_append _
  rw [hd, hvalid, encode_eq_serialize, scan_serialize _ _ hwf, runFields_append]
  have hma := parseMerchantAccount_build r.BankBin r.AccountNumber
  have hmsg := parseAdditionalData_build r.Message
  unfold payloadUnits decodedOf
  by_cases h3 : r.Amount > 0
  · have hparse := (parseInt_formatInt r.Amount h3 h63).1
    by_cases h4 : r.MerchantName = [] <;> by_cases h5 : r.Message = [] <;>
      simp only [h3, h4, h5, if_true, if_false, ne_eq, not_true_eq_false, not_false_eq_true,
        List.append_nil, List.cons_append, List.nil_append, runFields, Outcome.bind,
        decodeField_format, decodeField_initiation, decodeField_merchantAccount,
        decodeField_currency, decodeField_amount, decodeField_country,
        decodeField_merchantName, decodeField_merchantCity, decodeField_additionalData,
        decodeField_crc, hma _ hlen, hmsg, hparse, normalized_nil] <;> rfl
  · have hz : r.Amount = 0 := by omega
    by_cases h4 : r.MerchantName = [] <;> by_cases h5 : r.Message = [] <;>
      simp only [h3, h4, h5, if_true, if_false, ne_eq, not_true_eq_false, not_false_eq_true,
        List.append_nil, List.cons_append, List.nil_append, runFields, Outcome.bind,
        decodeField_format, decodeField_initiation, decodeField_merchantAccount,
        decodeField_currency, decodeField_amount, decodeField_country,
        decodeField_merchantName, decodeField_merchantCity, decodeField_additionalData,
        decodeField_crc, hma _ hlen, hmsg, normalized_nil, hz] <;> rfl

/-! ### Round trip -/

/-- C1 fails on the code: `longAccount` has ASCII-only text fields and the amount
0, and its bank identifier and account number have 62 bytes together; the
merchant-account group then has 100 bytes, `formatLength` writes the three
digits `100` for it against its own description ("2-digit string"), the scan of
`Decode` loses its place, and `Decode (Encode longAccount)` returns a record
with an empty bank identifier and an empty account number, not those of
`longAccount`. -/
theorem roundtrip_counterexample :
    isASCII longAccount.BankBin ∧ isASCII longAccount.AccountNumber ∧
    isASCII longAccount.Message ∧ isASCII longAccount.MerchantName ∧
    isASCII longAccount.MerchantCity ∧ 0 ≤ longAccount.Amount ∧
    (Decode (Encode longAccount)).bind (fun i => Outcome.ok (i.BankBin, i.AccountNumber))
      = Outcome.ok ([], []) ∧
    ¬ ∃ info, Decode (Encode longAccount) = Outcome.ok info ∧
        info.BankBin = longAccount.BankBin ∧
        info.AccountNumber = longAccount.AccountNumber ∧
        info.Amount = longAccount.Amount := by
  have hb : (Decode (Encode longAccount)).bind
      (fun i => Outcome.ok (i.BankBin, i.AccountNumber)) = Outcome.ok ([], []) := by decide
  refine ⟨by decide, by decide, by decide, by decide, by decide, by decide, hb, ?_⟩
  rintro ⟨info, hi, hbin, _⟩
  rw [hi] at hb
  simp only [Outcome.bind, Outcome.ok.injEq, Prod.mk.injEq] at hb
  have h1 := hb.1
  rw [hbin] at h1
  revert h1
  decide

/-- The round trip where every unit keeps to two length digits: for every
`TransferInfo r` whose text fields are ASCII-only, whose `Amount` is a
non-negative `int64`, and whose `BankBin` and `AccountNumber` have at most 61
bytes together, `Decode (Encode r)` returns a
record whose `BankBin`, `AccountNumber` and `Amount` are those of `r`; when in
addition `r.Message` has at most 50 characters and `r.MerchantName` at most 25,
the decoded `Message` and `MerchantName` are `r.Message` and `r.MerchantName`. -/
theorem roundtrip_within_length_limits (r : TransferInfo)
    (_hbin : isASCII r.BankBin) (_hacct : isASCII r.AccountNumber)
    (hmsg : isASCII r.Message) (hname : isASCII r.MerchantName)
    (_hcity : isASCII r.MerchantCity)
    (h0 : 0 ≤ r.Amount) (h63 : r.Amount < 2 ^ 63)
    (hlen : r.BankBin.length + r.AccountNumber.length ≤ 61) :
    ∃ info, Decode (Encode r) = Outcome.ok info ∧
      info.BankBin = r.BankBin ∧ info.AccountNumber = r.AccountNumber ∧
      info.Amount = r.Amount ∧
      (r.Message.length ≤ 50 → r.MerchantName.length ≤ 25 →
        info.Message = r.Message ∧ info.MerchantName = r.MerchantName) := by
  refine ⟨decodedOf r, decode_encode r h0 h63 hlen, rfl, rfl, rfl, ?_⟩
  intro h50 h25
  exact ⟨normalized_of_ascii r.Message 50 hmsg h50,
    normalized_of_ascii r.MerchantName 25 hname h25⟩

theorem roundtrip_within_length_limits_witness :
    ∃ info, Decode (Encode sampleTransfer) = Outcome.ok info ∧
      info.BankBin = str "970436" ∧ info.AccountNumber = str "1234567890" ∧
      info.Amount = 100000 ∧ info.Message = str "Thanh toan" ∧
      info.MerchantName = str "NGUYEN VAN A" := by
  obtain ⟨info, h1, h2, h3, h4, h5⟩ :=
    roundtrip_within_length_limits sampleTransfer (by decide) (by decide) (by decide)
      (by decide) (by decide) (by decide) (by decide) (by decide)
  obtain ⟨h6, h7⟩ := h5 (by decide) (by decide)
  exact ⟨info, h1, h2, h3, h4, h6, h7⟩

/-! ### The checksum string -/

theorem calculateCRC16_lt (d : GoString) : CalculateCRC16 d < 2 ^ 16 := by
  have h := (fold_represents d).1
  simpa only [CalculateCRC16, crcXorOut, Nat.xor_zero] using h

theorem hexDigits_value : ∀ n : Fin 16, hexDigitValue (hexDigits.getD n.val 0) = some n.val := by
  decide

theorem hexDigit_value (x : Nat) :
    hexDigitValue (hexDigits.getD (x &&& 0xF) 0) = some (x % 16) := by
  have e : x &&& 0xF = x % 16 := Nat.and_pow_two_sub_one_eq_mod x 4
  rw [e]
  exact hexDigits_value ⟨x % 16, Nat.mod_lt _ (by decide)⟩

theorem hexValue_sprintf (v : Nat) (h : v < 2 ^ 16) : hexValue (sprintf v) 0 = some v := by
  simp only [sprintf, hexValue, hexDigit_value, Nat.shiftRight_eq_div_pow]
  congr 1
  omega

/-- C19: `CRC16String` returns exactly 4 bytes, each one of `0`-`9` or `A`-`F`;
read as a hexadecimal number, most significant digit first, they denote
`CalculateCRC16` of the string, which is below `2 ^ 16`, so the four digits are its
zero-padded representation; and `CRC16StringWithTag d = CRC16String (d ++ "6304")`
for every string `d`. -/
theorem crc16String_is_padded_hex (d : GoString) :
    (CRC16String d).length = 4 ∧
    (∀ b ∈ CRC16String d, isUpperHex b) ∧
    hexValue (CRC16String d) 0 = some (CalculateCRC16 d) ∧
    CalculateCRC16 d < 16 ^ 4 ∧
    CRC16StringWithTag d = CRC16String (d ++ str "6304") :=
  ⟨rfl, sprintf_upper _, hexValue_sprintf _ (calculateCRC16_lt d), calculateCRC16_lt d, rfl⟩

/-- C20: for every string `d`, encoder output or not, `ValidateCRC` returns `true`
on `d ++ "6304" ++ CRC16StringWithTag d`. -/
theorem validateCRC_of_appended_checksum (d : GoString) :
    ValidateCRC (d ++ str "6304" ++ CRC16StringWithTag d) = Outcome.ok true := by
  rw [validateCRC_eq, validCRC_append]

/-! ### One rune at a time -/

theorem normalizeRune_lt (r : Nat) : normalizeRune r < 128 := by
  unfold normalizeRune
  cases hl : vietnameseLookup r with
  | some m => exact vietnameseLookup_ascii r m hl
  | none =>
    simp only
    split
    · assumption
    · decide

/-- The function `removeVietnameseDiacritics` writes one byte for every rune of
its input. -/
theorem removeVietnameseDiacritics_eq_map (s : GoString) :
    removeVietnameseDiacritics s = (runes s).map (fun r => byteOf (normalizeRune r)) := by
  unfold removeVietnameseDiacritics
  generalize runes s = rs
  induction rs with
  | nil => rfl
  | cons r rs ih =>
    rw [List.flatMap_cons, List.map_cons, ih]
    unfold normalizeRune
    cases hl : vietnameseLookup r with
    | some m =>
      simp only
      rw [encodeRune_ascii m (vietnameseLookup_ascii r m hl)]
      rfl
    | none =>
      simp only
      split
      · rename_i h
        rw [encodeRune_ascii r h]
        rfl
      · rfl

theorem removeVietnameseDiacritics_length (s : GoString) :
    (removeVietnameseDiacritics s).length = (runes s).length := by
  rw [removeVietnameseDiacritics_eq_map, List.length_map]

theorem runes_length_ascii (s : GoString) (h : isASCII s) : (runes s).length = s.length := by
  rw [runes_ascii s h, List.length_map]

/-- C16: `removeVietnameseDiacritics s` has exactly as many code points as `s`. -/
theorem normalization_keeps_rune_count (s : GoString) :
    (runes (removeVietnameseDiacritics s)).length = (runes s).length := by
  rw [runes_length_ascii _ (removeVietnameseDiacritics_ascii s),
    removeVietnameseDiacritics_length]

/-- C17: the result of `removeVietnameseDiacritics` is ASCII text: every byte of
it is below 128, every rune of it is below 128, and its length in bytes is its
number of code points. -/
theorem normalization_is_ascii (s : GoString) :
    (∀ b ∈ removeVietnameseDiacritics s, b.val < 128) ∧
    (∀ r ∈ runes (removeVietnameseDiacritics s), r < 128) ∧
    (removeVietnameseDiacritics s).length = (runes (removeVietnameseDiacritics s)).length := by
  have h := removeVietnameseDiacritics_ascii s
  refine ⟨h, ?_, (runes_length_ascii _ h).symm⟩
  intro r hr
  rw [runes_ascii _ h, List.mem_map] at hr
  obtain ⟨b, hb, rfl⟩ := hr
  exact h b hb

/-- C15, as stated, fails: the line feed `0x0A` is not in the Vietnamese table and
not in the printable range `0x20`-`0x7E`, yet `removeVietnameseDiacritics` passes
it through unchanged and does not turn it into a space. -/
theorem control_character_counterexample :
    vietnameseLookup 0x0A = none ∧ ¬ (0x20 ≤ 0x0A ∧ 0x0A ≤ 0x7E) ∧
    removeVietnameseDiacritics ([0x0A] : GoString) = [0x0A] ∧
    removeVietnameseDiacritics ([0x0A] : GoString) ≠ str " " := by
  decide

theorem table_values_letters : ∀ p ∈ vietnameseToASCII,
    (65 ≤ p.2.toNat ∧ p.2.toNat ≤ 90) ∨ (97 ≤ p.2.toNat ∧ p.2.toNat ≤ 122) := by
  decide

theorem vietnameseLookup_some (r m : Nat) (h : vietnameseLookup r = some m) :
    ∃ p ∈ vietnameseToASCII, p.1.toNat = r ∧ p.2.toNat = m := by
  unfold vietnameseLookup at h
  cases hf : vietnameseToASCII.find? (fun p => decide (p.1.toNat = r)) with
  | none => rw [hf] at h; cases h
  | some p =>
    rw [hf] at h
    simp only [Option.map_some', Option.some.injEq] at h
    have hp := List.find?_some hf
    simp only [decide_eq_true_eq] at hp
    exact ⟨p, List.mem_of_find?_eq_some hf, hp, h⟩

theorem table_baseLetter : ∀ p ∈ vietnameseToASCII,
    baseLetter p.1.toNat = some p.2.toNat := by
  decide

theorem letters_in_table :
    vietnameseLetters.all (fun g => g.2.all (fun c =>
      decide (vietnameseLookup c.toNat = some g.1.toNat))) = true := by
  decide

/-- The table of the source and the rows of the specification give every rune
the same letter: the table has exactly the precomposed Vietnamese letters, each
with its base Latin letter. -/
theorem vietnameseLookup_eq_baseLetter (r : Nat) : vietnameseLookup r = baseLetter r := by
  cases hl : vietnameseLookup r with
  | some m =>
    obtain ⟨p, hp, h1, h2⟩ := vietnameseLookup_some r m hl
    rw [← h1, ← h2]
    exact (table_baseLetter p hp).symm
  | none =>
    cases hb : baseLetter r with
    | none => rfl
    | some b =>
      exfalso
      unfold baseLetter at hb
      cases hf : vietnameseLetters.find? (fun g => g.2.any (fun c => decide (c.toNat = r))) with
      | none => rw [hf] at hb; cases hb
      | some g =>
        have hg := List.mem_of_find?_eq_some hf
        have hc := List.find?_some hf
        rw [List.any_eq_true] at hc
        obtain ⟨c, hcm, hcr⟩ := hc
        have hcr2 : c.toNat = r := of_decide_eq_true hcr
        have hall := List.all_eq_true.mp (List.all_eq_true.mp letters_in_table g hg) c hcm
        have := of_decide_eq_true hall
        rw [hcr2, hl] at this
        cases this

theorem baseLetter_letters : ∀ g ∈ vietnameseLetters,
    (65 ≤ g.1.toNat ∧ g.1.toNat ≤ 90) ∨ (97 ≤ g.1.toNat ∧ g.1.toNat ≤ 122) := by
  decide

/-- C15, amended: `removeVietnameseDiacritics` treats each character (rune) of
its input independently and writes one byte for it. The table of the source
has exactly the precomposed Vietnamese letters, and such a letter, which is
never below 128, becomes its base Latin letter (`a`, `e`, `i`, `o`, `u`, `y` or
`d`, in the case of the letter); a character below 128, control characters
included, passes through unchanged; every other character becomes a single
space. -/
theorem normalization_per_rune (s : GoString) :
    removeVietnameseDiacritics s = (runes s).map (fun r => byteOf (normalizeRune r)) ∧
    (∀ r : Nat, vietnameseLookup r = baseLetter r) ∧
    (∀ r b : Nat, baseLetter r = some b →
      normalizeRune r = b ∧ 128 ≤ r ∧ ((65 ≤ b ∧ b ≤ 90) ∨ (97 ≤ b ∧ b ≤ 122))) ∧
    (∀ g ∈ vietnameseLetters, ∀ c ∈ g.2, normalizeRune c.toNat = g.1.toNat) ∧
    (∀ r : Nat, r < 128 → normalizeRune r = r) ∧
    (∀ r : Nat, 128 ≤ r → baseLetter r = none → normalizeRune r = 32) := by
  refine ⟨removeVietnameseDiacritics_eq_map s, vietnameseLookup_eq_baseLetter, ?_, ?_, ?_, ?_⟩
  · intro r b h
    rw [← vietnameseLookup_eq_baseLetter] at h
    obtain ⟨p, hp, h1, h2⟩ := vietnameseLookup_some r b h
    refine ⟨?_, ?_, ?_⟩
    · unfold normalizeRune; rw [h]
    · rw [← h1]; exact table_keys_high p hp
    · rw [← h2]; exact table_values_letters p hp
  · intro g hg c hc
    have hall := List.all_eq_true.mp (List.all_eq_true.mp letters_in_table g hg) c hc
    have := of_decide_eq_true hall
    unfold normalizeRune
    rw [this]
  · intro r h
    unfold normalizeRune
    rw [vietnameseLookup_none r h]
    simp only [h, if_true]
  · intro r h hl
    rw [← vietnameseLookup_eq_baseLetter] at hl
    unfold normalizeRune
    rw [hl]
    have : ¬ r < 128 := by omega
    simp only [this, if_false]

/-! ### The units that `Encode` writes -/

theorem mem_payloadUnits (r : TransferInfo) (u : GoString × GoString) :
    u ∈ payloadUnits r ↔
      u = (TagPayloadFormat, PayloadFormatEMV) ∨
      u = (TagInitiationMethod, initiationCode r) ∨
      u = (TagMerchantAccount, buildMerchantAccount r.BankBin r.AccountNumber) ∨
      u = (TagCurrency, CurrencyVND) ∨
      (r.Amount > 0 ∧ u = (TagAmount, FormatInt r.Amount)) ∨
      u = (TagCountry, CountryVN) ∨
      (r.MerchantName ≠ [] ∧
        u = (TagMerchantName, truncateString (removeVietnameseDiacritics r.MerchantName) 25)) ∨
      u = (TagMerchantCity, cityValue r) ∨
      (r.Message ≠ [] ∧ u = (TagAdditionalData, buildAdditionalData r.Message)) := by
  unfold payloadUnits
  by_cases h3 : r.Amount > 0 <;> by_cases h4 : r.MerchantName = [] <;>
    by_cases h5 : r.Message = [] <;>
    simp [h3, h4, h5]

theorem buildAdditionalData_tlv (message : GoString) :
    buildAdditionalData message
      = tlv SubTagPurpose (truncateString (removeVietnameseDiacritics message) 50) := by
  simp [buildAdditionalData, appendTLVTo_eq]

/-- The output of `Encode` around the amount: the first three units, the currency
unit, the amount unit when there is one, the country unit, and the rest. -/
theorem encode_around_amount (r : TransferInfo) :
    ∃ post, Encode r =
      tlv TagPayloadFormat PayloadFormatEMV ++ tlv TagInitiationMethod (initiationCode r) ++
        tlv TagMerchantAccount (buildMerchantAccount r.BankBin r.AccountNumber) ++
        tlv TagCurrency CurrencyVND ++
        (if r.Amount > 0 then tlv TagAmount (FormatInt r.Amount) else []) ++
        tlv TagCountry CountryVN ++ post := by
  rw [encode_eq]
  unfold payload
  exact ⟨_, by simp only [List.append_assoc]; rfl⟩

theorem encode_city_infix (r : TransferInfo) :
    tlv TagMerchantCity (cityValue r) <:+: Encode r := by
  obtain ⟨pre, hpre⟩ : ∃ pre, payload r = pre ++ tlv TagMerchantCity (cityValue r) ++
      (if r.Message ≠ [] then tlv TagAdditionalData (buildAdditionalData r.Message) else []) :=
    ⟨_, rfl⟩
  refine ⟨pre, (if r.Message ≠ [] then tlv TagAdditionalData (buildAdditionalData r.Message)
    else []) ++ str "6304" ++ CRC16StringWithTag (payload r), ?_⟩
  rw [encode_eq]
  generalize CRC16StringWithTag (payload r) = c
  rw [hpre]
  simp only [List.append_assoc]

theorem encode_message_infix (r : TransferInfo) (h : r.Message ≠ []) :
    tlv TagAdditionalData (buildAdditionalData r.Message) <:+: Encode r := by
  obtain ⟨pre, hpre⟩ : ∃ pre, payload r = pre ++
      (if r.Message ≠ [] then tlv TagAdditionalData (buildAdditionalData r.Message) else []) :=
    ⟨_, rfl⟩
  rw [if_pos h] at hpre
  refine ⟨pre, str "6304" ++ CRC16StringWithTag (payload r), ?_⟩
  rw [encode_eq]
  generalize CRC16StringWithTag (payload r) = c
  rw [hpre]
  simp only [List.append_assoc]

theorem formatNatAux_head (fuel n : Nat) (h0 : 0 < n) (hf : n < fuel) :
    (formatNatAux fuel n).head? ≠ some (chr '0') := by
  induction fuel generalizing n with
  | zero => omega
  | succ f ih =>
    unfold formatNatAux
    split
    · rename_i h10
      intro hh
      simp only [List.head?_cons, Option.some.injEq] at hh
      have := congrArg Fin.val hh
      rw [digit_val n h10] at this
      revert this
      have : (chr '0').val = 48 := by decide
      rw [this]
      omega
    · rename_i h10
      have hne : formatNatAux f (n / 10) ≠ [] := by
        obtain ⟨g, rfl⟩ : ∃ g, f = g + 1 := ⟨f - 1, by omega⟩
        exact formatNatAux_ne_nil g _
      rw [List.head?_append_of_ne_nil _ hne]
      exact ih (n / 10) (by omega) (by omega)

/-- The decimal string of a positive amount: digits only, no leading zero, and
the digits denote the amount. -/
theorem formatInt_decimal (a : Int) (h : 0 < a) :
    (∀ b ∈ FormatInt a, 48 ≤ b.val ∧ b.val ≤ 57) ∧
    (FormatInt a).head? ≠ some (chr '0') ∧
    parseDigits (FormatInt a) 0 = some a.toNat := by
  have hF : FormatInt a = formatNat a.toNat := by
    unfold FormatInt
    rw [if_neg (by omega)]
  rw [hF]
  exact ⟨formatNatAux_digits _ _, formatNatAux_head _ _ (by omega) (by omega),
    parseDigits_formatNatAux _ _ (by omega)⟩

/-- C11 fails on the code: in `Encode longAccount` the merchant-account group has
100 bytes, `formatLength` writes the three digits `100` for it, and the unit with
tag 38 has a header of five bytes, `38100`, instead of four. -/
theorem length_field_of_three_digits :
    (buildMerchantAccount longAccount.BankBin longAccount.AccountNumber).length = 100 ∧
    formatLength 100 = str "100" ∧
    str "000201" ++ str "010211" ++ str "38" ++ str "100" ++
      buildMerchantAccount longAccount.BankBin longAccount.AccountNumber
        <+: Encode longAccount := by
  decide

/-- C12: `Encode` writes the merchant-name unit (tag 59) exactly when
`r.MerchantName` is not empty, with the value
`truncateString (removeVietnameseDiacritics r.MerchantName) 25`, and the
additional-data unit (tag 62) exactly when `r.Message` is not empty, its value
being the one purpose sub-unit (tag 08) with the value
`truncateString (removeVietnameseDiacritics r.Message) 50`; the message `Cảm ơn`
is written as `Cam on`. -/
theorem name_and_message_units (r : TransferInfo) :
    Encode r = serialize (payloadUnits r ++ [(TagCRC, CRC16StringWithTag (payload r))]) ∧
    (∀ v, (TagMerchantName, v) ∈ payloadUnits r ↔
      r.MerchantName ≠ [] ∧
        v = truncateString (removeVietnameseDiacritics r.MerchantName) 25) ∧
    (∀ v, (TagAdditionalData, v) ∈ payloadUnits r ↔
      r.Message ≠ [] ∧
        v = tlv SubTagPurpose (truncateString (removeVietnameseDiacritics r.Message) 50)) ∧
    (r.Message = str "Cảm ơn" → str "62100806Cam on" <:+: Encode r) := by
  refine ⟨encode_eq_serialize r, ?_, ?_, ?_⟩
  · intro v
    rw [mem_payloadUnits]
    have t0 : ¬ TagMerchantName = TagPayloadFormat := by decide
    have t1 : ¬ TagMerchantName = TagInitiationMethod := by decide
    have t2 : ¬ TagMerchantName = TagMerchantAccount := by decide
    have t3 : ¬ TagMerchantName = TagCurrency := by decide
    have t4 : ¬ TagMerchantName = TagAmount := by decide
    have t5 : ¬ TagMerchantName = TagCountry := by decide
    have t7 : ¬ TagMerchantName = TagMerchantCity := by decide
    have t8 : ¬ TagMerchantName = TagAdditionalData := by decide
    simp only [Prod.mk.injEq, t0, t1, t2, t3, t4, t5, t7, t8, false_and, and_false, false_or,
      or_false, true_and]
  · intro v
    rw [mem_payloadUnits, buildAdditionalData_tlv]
    have t0 : ¬ TagAdditionalData = TagPayloadFormat := by decide
    have t1 : ¬ TagAdditionalData = TagInitiationMethod := by decide
    have t2 : ¬ TagAdditionalData = TagMerchantAccount := by decide
    have t3 : ¬ TagAdditionalData = TagCurrency := by decide
    have t4 : ¬ TagAdditionalData = TagAmount := by decide
    have t5 : ¬ TagAdditionalData = TagCountry := by decide
    have t6 : ¬ TagAdditionalData = TagMerchantName := by decide
    have t7 : ¬ TagAdditionalData = TagMerchantCity := by decide
    simp only [Prod.mk.injEq, t0, t1, t2, t3, t4, t5, t6, t7, false_and, and_false, false_or,
      or_false, true_and]
  · intro hm
    have hne : r.Message ≠ [] := by rw [hm]; decide
    have h := encode_message_infix r hne
    rw [hm] at h
    have e : tlv TagAdditionalData (buildAdditionalData (str "Cảm ơn"))
        = str "62100806Cam on" := by decide
    rwa [e] at h

/-- C13: `Encode` writes the amount unit (tag 54) exactly when `r.Amount > 0`,
between the currency unit `5303704` and the country unit `5802VN`; its value is
the decimal representation of `r.Amount`: digits only (no sign, no decimal
point), no leading zero, denoting the amount; when `r.Amount` is 0 there is no
amount unit and the country unit follows the currency unit immediately. -/
theorem amount_unit (r : TransferInfo) :
    Encode r = serialize (payloadUnits r ++ [(TagCRC, CRC16StringWithTag (payload r))]) ∧
    (∀ v, (TagAmount, v) ∈ payloadUnits r ↔ r.Amount > 0 ∧ v = FormatInt r.Amount) ∧
    (∃ post, Encode r =
      tlv TagPayloadFormat PayloadFormatEMV ++ tlv TagInitiationMethod (initiationCode r) ++
        tlv TagMerchantAccount (buildMerchantAccount r.BankBin r.AccountNumber) ++
        str "5303704" ++
        (if r.Amount > 0 then tlv TagAmount (FormatInt r.Amount) else []) ++
        str "5802VN" ++ post) ∧
    (r.Amount > 0 →
      (∀ b ∈ FormatInt r.Amount, 48 ≤ b.val ∧ b.val ≤ 57) ∧
      (FormatInt r.Amount).head? ≠ some (chr '0') ∧
      parseDigits (FormatInt r.Amount) 0 = some r.Amount.toNat) ∧
    (r.Amount = 0 → ∃ post, Encode r =
      tlv TagPayloadFormat PayloadFormatEMV ++ tlv TagInitiationMethod (initiationCode r) ++
        tlv TagMerchantAccount (buildMerchantAccount r.BankBin r.AccountNumber) ++
        str "5303704" ++ str "5802VN" ++ post) := by
  have e53 : tlv TagCurrency CurrencyVND = str "5303704" := by decide
  have e58 : tlv TagCountry CountryVN = str "5802VN" := by decide
  obtain ⟨post, hpost⟩ := encode_around_amount r
  rw [e53, e58] at hpost
  refine ⟨encode_eq_serialize r, ?_, ⟨post, hpost⟩, formatInt_decimal r.Amount, ?_⟩
  · intro v
    rw [mem_payloadUnits]
    have t0 : ¬ TagAmount = TagPayloadFormat := by decide
    have t1 : ¬ TagAmount = TagInitiationMethod := by decide
    have t2 : ¬ TagAmount = TagMerchantAccount := by decide
    have t3 : ¬ TagAmount = TagCurrency := by decide
    have t5 : ¬ TagAmount = TagCountry := by decide
    have t6 : ¬ TagAmount = TagMerchantName := by decide
    have t7 : ¬ TagAmount = TagMerchantCity := by decide
    have t8 : ¬ TagAmount = TagAdditionalData := by decide
    simp only [Prod.mk.injEq, t0, t1, t2, t3, t5, t6, t7, t8, false_and, and_false, false_or,
      or_false, true_and]
  · intro hz
    have hn : ¬ r.Amount > 0 := by omega
    rw [if_neg hn, List.append_nil] at hpost
    exact ⟨post, hpost⟩

/-- C14: `Encode` always writes the merchant-city unit (tag 60); its value is
`truncateString (removeVietnameseDiacritics c) 15`, where `c` is `r.MerchantCity`,
or `Ha Noi` when `r.MerchantCity` is empty; with an empty city the output contains
the unit `6006Ha Noi`. -/
theorem city_unit (r : TransferInfo) :
    Encode r = serialize (payloadUnits r ++ [(TagCRC, CRC16StringWithTag (payload r))]) ∧
    (∀ v, (TagMerchantCity, v) ∈ payloadUnits r ↔
      v = truncateString (removeVietnameseDiacritics
        (if r.MerchantCity = [] then str "Ha Noi" else r.MerchantCity)) 15) ∧
    tlv TagMerchantCity (truncateString (removeVietnameseDiacritics
        (if r.MerchantCity = [] then str "Ha Noi" else r.MerchantCity)) 15) <:+: Encode r ∧
    (r.MerchantCity = [] → str "6006Ha Noi" <:+: Encode r) := by
  refine ⟨encode_eq_serialize r, ?_, encode_city_infix r, ?_⟩
  · intro v
    rw [mem_payloadUnits]
    have t0 : ¬ TagMerchantCity = TagPayloadFormat := by decide
    have t1 : ¬ TagMerchantCity = TagInitiationMethod := by decide
    have t2 : ¬ TagMerchantCity = TagMerchantAccount := by decide
    have t3 : ¬ TagMerchantCity = TagCurrency := by decide
    have t4 : ¬ TagMerchantCity = TagAmount := by decide
    have t5 : ¬ TagMerchantCity = TagCountry := by decide
    have t6 : ¬ TagMerchantCity = TagMerchantName := by decide
    have t8 : ¬ TagMerchantCity = TagAdditionalData := by decide
    simp only [Prod.mk.injEq, t0, t1, t2, t3, t4, t5, t6, t8, false_and, and_false, false_or,
      or_false, true_and, cityValue]
  · intro hc
    have h := encode_city_infix r
    unfold cityValue at h
    rw [if_pos hc] at h
    have e : tlv TagMerchantCity (truncateString (removeVietnameseDiacritics (str "Ha Noi")) 15)
        = str "6006Ha Noi" := by decide
    rwa [e] at h

/-! ### Bit operations of UTF-8 as arithmetic -/

theorem or_eq_add (k a b : Nat) (ha : a % 2 ^ k = 0) (hb : b < 2 ^ k) : a ||| b = a + b := by
  have e : a = 2 ^ k * (a / 2 ^ k) := by
    have := Nat.div_add_mod a (2 ^ k)
    omega
  rw [e, ← Nat.mul_add_lt_is_or hb]

theorem and_3F (x : Nat) : x &&& 0x3F = x % 64 := Nat.and_pow_two_sub_one_eq_mod x 6

theorem and_1F (x : Nat) : x &&& 0x1F = x % 32 := Nat.and_pow_two_sub_one_eq_mod x 5

theorem and_0F (x : Nat) : x &&& 0x0F = x % 16 := Nat.and_pow_two_sub_one_eq_mod x 4

theorem and_07 (x : Nat) : x &&& 0x07 = x % 8 := Nat.and_pow_two_sub_one_eq_mod x 3

theorem dec2 (x y : Nat) :
    ((x &&& 0x1F) <<< 6) ||| (y &&& 0x3F) = x % 32 * 64 + y % 64 := by
  rw [and_1F, and_3F, Nat.shiftLeft_eq]
  exact or_eq_add 6 _ _ (by omega) (by omega)

theorem dec3 (x y z : Nat) :
    ((x &&& 0x0F) <<< 12) ||| ((y &&& 0x3F) <<< 6) ||| (z &&& 0x3F)
      = x % 16 * 4096 + y % 64 * 64 + z % 64 := by
  rw [and_0F, and_3F, and_3F, Nat.shiftLeft_eq, Nat.shiftLeft_eq,
    or_eq_add 12 (x % 16 * 2 ^ 12) (y % 64 * 2 ^ 6) (by omega) (by omega)]
  exact or_eq_add 6 _ _ (by omega) (by omega)

theorem dec4 (x y z w : Nat) :
    ((x &&& 0x07) <<< 18) ||| ((y &&& 0x3F) <<< 12) ||| ((z &&& 0x3F) <<< 6) ||| (w &&& 0x3F)
      = x % 8 * 262144 + y % 64 * 4096 + z % 64 * 64 + w % 64 := by
  rw [and_07, and_3F, and_3F, and_3F, Nat.shiftLeft_eq, Nat.shiftLeft_eq, Nat.shiftLeft_eq,
    or_eq_add 18 (x % 8 * 2 ^ 18) (y % 64 * 2 ^ 12) (by omega) (by omega),
    or_eq_add 12 (x % 8 * 2 ^ 18 + y % 64 * 2 ^ 12) (z % 64 * 2 ^ 6) (by omega) (by omega)]
  exact or_eq_add 6 _ _ (by omega) (by omega)

theorem enc_lead (k c x : Nat) (hc : c % 2 ^ k = 0) (hx : x < 2 ^ k) (h256 : c + 2 ^ k ≤ 256) :
    (byteOf (c ||| x)).val = c + x := by
  rw [or_eq_add k c x hc hx]
  simp only [byteOf]
  omega

theorem enc_cont (x : Nat) : (byteOf (0x80 ||| (x &&& 0x3F))).val = 128 + x % 64 := by
  rw [and_3F]
  exact enc_lead 6 128 (x % 64) (by decide) (by omega) (by decide)

/-! ### Decoding well-formed sequences -/

theorem decodeRune_1 (b0 : Byte) (rest : GoString) (h : b0.val < 128) :
    decodeRune b0 rest = (b0.val, 1) := by
  unfold decodeRune
  rw [if_pos (by simp only [RuneSelf]; omega)]

theorem decodeRune_2 (b0 b1 : Byte) (rest : GoString)
    (h0 : 0xC2 ≤ b0.val ∧ b0.val ≤ 0xDF) (h1 : 0x80 ≤ b1.val ∧ b1.val ≤ 0xBF) :
    decodeRune b0 (b1 :: rest) = (b0.val % 32 * 64 + b1.val % 64, 2) := by
  have hl : utf8Lead b0.val = some (2, 0x80, 0xBF) := by
    unfold utf8Lead
    rw [if_pos h0]
  unfold decodeRune
  rw [if_neg (by simp only [RuneSelf]; omega), hl]
  simp only
  rw [if_neg (by omega), if_pos (by decide), dec2]

theorem utf8Lead_3 (x : Nat) (h : 0xE0 ≤ x ∧ x ≤ 0xEF) :
    utf8Lead x = some (3, if x = 0xE0 then 0xA0 else 0x80, if x = 0xED then 0x9F else 0xBF) := by
  unfold utf8Lead
  split_ifs <;> first | rfl | omega

theorem utf8Lead_4 (x : Nat) (h : 0xF0 ≤ x ∧ x ≤ 0xF4) :
    utf8Lead x = some (4, if x = 0xF0 then 0x90 else 0x80, if x = 0xF4 then 0x8F else 0xBF) := by
  unfold utf8Lead
  split_ifs <;> first | rfl | omega

theorem decodeRune_3 (b0 b1 b2 : Byte) (rest : GoString)
    (h0 : 0xE0 ≤ b0.val ∧ b0.val ≤ 0xEF) (h1 : 0x80 ≤ b1.val ∧ b1.val ≤ 0xBF)
    (hE0 : b0.val = 0xE0 → 0xA0 ≤ b1.val) (hED : b0.val = 0xED → b1.val ≤ 0x9F)
    (h2 : 0x80 ≤ b2.val ∧ b2.val ≤ 0xBF) :
    decodeRune b0 (b1 :: b2 :: rest)
      = (b0.val % 16 * 4096 + b1.val % 64 * 64 + b2.val % 64, 3) := by
  unfold decodeRune
  rw [if_neg (by simp only [RuneSelf]; omega), utf8Lead_3 _ h0]
  simp only
  have c1 : ¬ (b1.val < (if b0.val = 0xE0 then 0xA0 else 0x80) ∨
      (if b0.val = 0xED then 0x9F else 0xBF) < b1.val) := by
    split_ifs <;> omega
  rw [if_neg c1, if_neg (by decide), if_neg (by omega), if_pos (by decide), dec3]

theorem decodeRune_4 (b0 b1 b2 b3 : Byte) (rest : GoString)
    (h0 : 0xF0 ≤ b0.val ∧ b0.val ≤ 0xF4) (h1 : 0x80 ≤ b1.val ∧ b1.val ≤ 0xBF)
    (hF0 : b0.val = 0xF0 → 0x90 ≤ b1.val) (hF4 : b0.val = 0xF4 → b1.val ≤ 0x8F)
    (h2 : 0x80 ≤ b2.val ∧ b2.val ≤ 0xBF) (h3 : 0x80 ≤ b3.val ∧ b3.val ≤ 0xBF) :
    decodeRune b0 (b1 :: b2 :: b3 :: rest)
      = (b0.val % 8 * 262144 + b1.val % 64 * 4096 + b2.val % 64 * 64 + b3.val % 64, 4) := by
  unfold decodeRune
  rw [if_neg (by simp only [RuneSelf]; omega), utf8Lead_4 _ h0]
  simp only
  have c1 : ¬ (b1.val < (if b0.val = 0xF0 then 0x90 else 0x80) ∨
      (if b0.val = 0xF4 then 0x8F else 0xBF) < b1.val) := by
    split_ifs <;> omega
  rw [if_neg c1, if_neg (by decide), if_neg (by omega), if_neg (by decide), if_neg (by omega),
    dec4]

/-- Decoding what `encodeRune` wrote for a scalar value gives the value back,
with the number of bytes written. -/
theorem decodeRune_encodeRune (r : Nat) (hv : validRune r) (rest : GoString) :
    ∃ b0 tail, encodeRune r = b0 :: tail ∧
      decodeRune b0 (tail ++ rest) = (r, tail.length + 1) := by
  obtain ⟨hmax, hsur⟩ := hv
  unfold encodeRune
  by_cases c1 : r ≤ 0x7F
  · rw [if_pos c1]
    refine ⟨_, [], rfl, ?_⟩
    have hb : (byteOf r).val = r := by simp only [byteOf]; omega
    rw [decodeRune_1 _ _ (by omega), hb]
    rfl
  rw [if_neg c1]
  by_cases c2 : r ≤ 0x7FF
  · rw [if_pos c2]
    refine ⟨_, _, rfl, ?_⟩
    have e0 : (byteOf (0xC0 ||| (r >>> 6))).val = 192 + r / 64 := by
      rw [Nat.shiftRight_eq_div_pow]
      exact enc_lead 5 192 _ (by decide) (by omega) (by decide)
    have e1 := enc_cont r
    simp only [List.cons_append, List.nil_append, List.length_singleton]
    rw [decodeRune_2 _ _ _ (by omega) (by omega), e0, e1]
    congr 1
    omega
  rw [if_neg c2]
  have c3 : ¬ (0x10FFFF < r ∨ (0xD800 ≤ r ∧ r ≤ 0xDFFF)) := by
    intro h
    rcases h with h | h
    · omega
    · exact hsur h
  rw [if_neg c3]
  by_cases c4 : r ≤ 0xFFFF
  · rw [if_pos c4]
    refine ⟨_, _, rfl, ?_⟩
    have e0 : (byteOf (0xE0 ||| (r >>> 12))).val = 224 + r / 4096 := by
      rw [Nat.shiftRight_eq_div_pow]
      exact enc_lead 4 224 _ (by decide) (by omega) (by decide)
    have e1 : (byteOf (0x80 ||| ((r >>> 6) &&& 0x3F))).val = 128 + r / 64 % 64 := by
      rw [enc_cont, Nat.shiftRight_eq_div_pow]
    have e2 := enc_cont r
    have hs : ¬ (0xD800 ≤ r ∧ r ≤ 0xDFFF) := hsur
    simp only [List.cons_append, List.nil_append, List.length_cons, List.length_singleton]
    rw [decodeRune_3 _ _ _ _ (by omega) (by omega) (by omega) (by omega) (by omega), e0, e1, e2]
    congr 1
    omega
  · rw [if_neg c4]
    refine ⟨_, _, rfl, ?_⟩
    have e0 : (byteOf (0xF0 ||| (r >>> 18))).val = 240 + r / 262144 := by
      rw [Nat.shiftRight_eq_div_pow]
      exact enc_lead 3 240 _ (by decide) (by omega) (by decide)
    have e1 : (byteOf (0x80 ||| ((r >>> 12) &&& 0x3F))).val = 128 + r / 4096 % 64 := by
      rw [enc_cont, Nat.shiftRight_eq_div_pow]
    have e2 : (byteOf (0x80 ||| ((r >>> 6) &&& 0x3F))).val = 128 + r / 64 % 64 := by
      rw [enc_cont, Nat.shiftRight_eq_div_pow]
    have e3 := enc_cont r
    simp only [List.cons_append, List.nil_append, List.length_cons, List.length_singleton]
    rw [decodeRune_4 _ _ _ _ _ (by omega) (by omega) (by omega) (by omega) (by omega) (by omega),
      e0, e1, e2, e3]
    congr 1
    omega

/-! ### Every decoded rune is a scalar value -/

theorem utf8Lead_valid_facts : ∀ b0 : Byte, ∀ p ∈ utf8Lead b0.val,
    0x80 ≤ p.2.1 ∧ p.2.2 ≤ 0xBF ∧
    (¬ p.1 ≤ 2 → p.1 ≤ 3 → b0.val % 16 = 13 → p.2.2 = 0x9F) ∧
    (¬ p.1 ≤ 3 → b0.val % 8 ≤ 4 ∧ (b0.val % 8 = 4 → p.2.2 = 0x8F) ∧
      (b0.val % 8 = 0 → p.2.1 = 0x90)) := by
  decide

theorem runeError_valid : validRune RuneError := by
  unfold validRune RuneError
  decide

theorem decodeRune_valid (b0 : Byte) (rest : GoString) : validRune (decodeRune b0 rest).1 := by
  have hE := runeError_valid
  unfold decodeRune
  split
  · rename_i h
    simp only [RuneSelf] at h
    unfold validRune
    constructor <;> omega
  · cases hl : utf8Lead b0.val with
    | none => exact hE
    | some p =>
      obtain ⟨sz, lo, hi⟩ := p
      obtain ⟨flo, fhi, f3, f4⟩ := utf8Lead_valid_facts b0 (sz, lo, hi) hl
      simp only at flo fhi f3 f4 ⊢
      cases rest with
      | nil => exact hE
      | cons b1 rest1 =>
        simp only
        split
        · exact hE
        · rename_i hb1
          split
          · rw [dec2]
            unfold validRune
            constructor <;> omega
          · rename_i hsz
            cases rest1 with
            | nil => exact hE
            | cons b2 rest2 =>
              simp only
              split
              · exact hE
              · split
                · rename_i hsz3
                  rw [dec3]
                  have f := f3 hsz hsz3
                  unfold validRune
                  constructor
                  · omega
                  · intro hs
                    have h13 : b0.val % 16 = 13 := by omega
                    have := f h13
                    omega
                · rename_i hsz3
                  cases rest2 with
                  | nil => exact hE
                  | cons b3 rest3 =>
                    simp only
                    split
                    · exact hE
                    · rw [dec4]
                      obtain ⟨g1, g2, g3⟩ := f4 hsz3
                      unfold validRune
                      constructor
                      · by_cases h4 : b0.val % 8 = 4
                        · have := g2 h4
                          omega
                        · omega
                      · by_cases h0 : b0.val % 8 = 0
                        · have := g3 h0
                          omega
                        · omega

/-! ### The runes of an encoded rune sequence -/

theorem runesAux_fuel (f : Nat) : ∀ s : GoString, s.length ≤ f → runesAux f s = runes s := by
  induction f using Nat.strong_induction_on with
  | _ f ih =>
    intro s hs
    cases s with
    | nil =>
      cases f <;> rfl
    | cons b0 rest =>
      obtain ⟨g, rfl⟩ : ∃ g, f = g + 1 := ⟨f - 1, by simp only [List.length_cons] at hs; omega⟩
      simp only [List.length_cons] at hs
      have hd : (rest.drop ((decodeRune b0 rest).2 - 1)).length ≤ rest.length := by
        rw [List.length_drop]; omega
      simp only [runes, List.length_cons, runesAux]
      congr 1
      have h1 := ih g (by omega) (rest.drop ((decodeRune b0 rest).2 - 1)) (by omega)
      by_cases hg : rest.length = g
      · rw [hg]
      · have h2 := ih rest.length (by omega) (rest.drop ((decodeRune b0 rest).2 - 1)) hd
        rw [h1, h2]

theorem runes_cons (b0 : Byte) (rest : GoString) :
    runes (b0 :: rest)
      = (decodeRune b0 rest).1 :: runes (rest.drop ((decodeRune b0 rest).2 - 1)) := by
  have hd : (rest.drop ((decodeRune b0 rest).2 - 1)).length ≤ rest.length := by
    rw [List.length_drop]; omega
  show runesAux (rest.length + 1) (b0 :: rest) = _
  simp only [runesAux]
  rw [runesAux_fuel _ _ hd]

theorem runes_encodeRune_append (r : Nat) (hv : validRune r) (rest : GoString) :
    runes (encodeRune r ++ rest) = r :: runes rest := by
  obtain ⟨b0, tail, he, hd⟩ := decodeRune_encodeRune r hv rest
  rw [he, List.cons_append, runes_cons, hd]
  simp only [Nat.add_sub_cancel, List.drop_left]

theorem runes_stringOfRunes (rs : List Nat) (h : ∀ r ∈ rs, validRune r) :
    runes (stringOfRunes rs) = rs := by
  induction rs with
  | nil => rfl
  | cons r rs ih =>
    have : stringOfRunes (r :: rs) = encodeRune r ++ stringOfRunes rs := by
      simp [stringOfRunes]
    rw [this, runes_encodeRune_append r (h r (List.mem_cons_self _ _)),
      ih (fun x hx => h x (List.mem_cons_of_mem _ hx))]

theorem runes_valid (s : GoString) : ∀ r ∈ runes s, validRune r := by
  have key : ∀ n, ∀ t : GoString, t.length = n → ∀ r ∈ runes t, validRune r := by
    intro n
    induction n using Nat.strong_induction_on with
    | _ n ih =>
      intro t hn
      cases t with
      | nil => intro r hr; simp [runes, runesAux] at hr
      | cons b0 rest =>
        intro r hr
        rw [runes_cons, List.mem_cons] at hr
        rcases hr with rfl | hr
        · exact decodeRune_valid b0 rest
        · have hd : (rest.drop ((decodeRune b0 rest).2 - 1)).length < n := by
            rw [← hn, List.length_drop, List.length_cons]; omega
          exact ih _ hd _ rfl r hr
  exact key s.length s rfl

theorem runes_truncateString (s : GoString) (maxLen : Nat) :
    runes (truncateString s maxLen) = (runes s).take maxLen := by
  unfold truncateString
  simp only
  split
  · rename_i h
    rw [List.take_of_length_le h]
  · exact runes_stringOfRunes _ (fun r hr => runes_valid s r (List.mem_of_mem_take hr))

/-- C18: for every string `s` and every `maxLen ≥ 0`, `truncateString s maxLen` is
`s` itself when `s` has at most `maxLen` code points, and otherwise the encoding
of the first `maxLen` code points of `s`; the code points of the result are
exactly the first `maxLen` code points of `s`, nothing more, so there are never
more than `maxLen` of them; on well-formed text (the encoding of scalar values
`rs`) the result is the encoding of the first `maxLen` of them. The limit counts
code points, not bytes: two code points of `Đà Nẵng` are the four bytes of `Đà`. -/
theorem truncateString_counts_code_points (s : GoString) (maxLen : Nat) :
    ((runes s).length ≤ maxLen → truncateString s maxLen = s) ∧
    (maxLen < (runes s).length →
      truncateString s maxLen = stringOfRunes ((runes s).take maxLen)) ∧
    runes (truncateString s maxLen) = (runes s).take maxLen ∧
    (runes (truncateString s maxLen)).length ≤ maxLen ∧
    (∀ rs : List Nat, (∀ r ∈ rs, validRune r) →
      truncateString (stringOfRunes rs) maxLen = stringOfRunes (rs.take maxLen)) ∧
    truncateString (str "Đà Nẵng") 2 = str "Đà" ∧ (str "Đà").length = 4 := by
  refine ⟨?_, ?_, runes_truncateString s maxLen, ?_, ?_, by decide, by decide⟩
  · intro h
    unfold truncateString
    simp only [h, if_true]
  · intro h
    unfold truncateString
    have : ¬ (runes s).length ≤ maxLen := by omega
    simp only [this, if_false]
  · rw [runes_truncateString, List.length_take]
    omega
  · intro rs hrs
    unfold truncateString
    simp only [runes_stringOfRunes rs hrs]
    split
    · rename_i h
      rw [List.take_of_length_le h]
    · rfl

/-! ### Tampering with the last character -/

theorem take_three_append_X (c : GoString) (hc : c.length = 4) (hu : ∀ b ∈ c, isUpperHex b) :
    (c.take 3 ++ str "X").map asciiUpper ≠ c := by
  match c, hc with
  | [a, b, c, d], _ =>
    intro h
    have hd : isUpperHex d := hu d (by simp)
    have hx : str "X" = [byteOf 88] := by decide
    rw [hx] at h
    simp only [List.take, List.map, List.cons_append, List.nil_append, List.cons.injEq,
      and_true] at h
    have h4 : asciiUpper (byteOf 88) = d := h.2.2.2
    have h5 : asciiUpper (byteOf 88) = byteOf 88 := by decide
    rw [h5] at h4
    subst h4
    revert hd
    decide

theorem validCRC_tampered (d : GoString) :
    validCRC (d ++ str "6304" ++ ((CRC16StringWithTag d).take 3 ++ str "X")) = false := by
  have hc : ((CRC16StringWithTag d).take 3 ++ str "X").length = 4 := by
    rw [List.length_append, List.length_take, crc16StringWithTag_eq, crc16String_length]
    decide
  obtain ⟨h8, hh, hd, hcc⟩ := crc_parts d (str "6304") _ header_length hc
  unfold validCRC
  rw [hh, hd, hcc]
  have hne : EqualFold (CRC16String (d ++ str "6304"))
      ((CRC16StringWithTag d).take 3 ++ str "X") ≠ true := by
    intro h
    rw [equalFold_hex _ _ (crc16String_upper _), crc16StringWithTag_eq] at h
    exact take_three_append_X _ (crc16String_length _) (crc16String_upper _) h
  simp only [Bool.and_eq_false_imp]
  intro _
  exact Bool.eq_false_iff.mpr hne

theorem encode_take_last (r : TransferInfo) :
    (Encode r).take ((Encode r).length - 1)
      = payload r ++ str "6304" ++ (CRC16StringWithTag (payload r)).take 3 := by
  rw [encode_eq]
  have hl : (payload r ++ str "6304" ++ CRC16StringWithTag (payload r)).length - 1
      = (payload r ++ str "6304").length + 3 := by
    rw [List.length_append, crc16StringWithTag_eq, crc16String_length]
    omega
  rw [hl, List.take_append]

/-- C21: for every transfer `r`, the string obtained from `Encode r` by replacing
its last character with `X` (the test's `validQR[:len(validQR)-1] + "X"`) fails
the checksum validation: `ValidateCRC` returns false. -/
theorem validateCRC_rejects_last_character_X (r : TransferInfo) :
    slice (Encode r) 0 ((Encode r).length - 1 : Nat)
      = some ((Encode r).take ((Encode r).length - 1)) ∧
    ValidateCRC ((Encode r).take ((Encode r).length - 1) ++ str "X") = .ok false := by
  constructor
  · have := slice_nat (Encode r) 0 ((Encode r).length - 1) (Nat.zero_le _) (Nat.sub_le _ _)
    simpa using this
  · rw [validateCRC_eq, encode_take_last, List.append_assoc (payload r ++ str "6304"),
      validCRC_tampered]

/-! ### The fixtures of the normalization test -/

/-- C23: `removeVietnameseDiacritics` maps the five fixtures of its test as stated:
each precomposed Vietnamese letter becomes its base Latin letter of the same case,
and the other characters are kept. -/
theorem removeVietnameseDiacritics_fixtures :
    removeVietnameseDiacritics (str "Cảm ơn") = str "Cam on" ∧
    removeVietnameseDiacritics (str "Nguyễn Văn A") = str "Nguyen Van A" ∧
    removeVietnameseDiacritics (str "Đà Nẵng") = str "Da Nang" ∧
    removeVietnameseDiacritics (str "Hồ Chí Minh") = str "Ho Chi Minh" ∧
    removeVietnameseDiacritics (str "Thanh toán đơn hàng") = str "Thanh toan don hang" := by
  refine ⟨?_, ?_, ?_, ?_, ?_⟩ <;> decide

/-! ### The decoded record of an encoded transfer -/

theorem encode_drop_last_four (r : TransferInfo) :
    (Encode r).drop ((Encode r).length - 4) = CRC16StringWithTag (payload r) := by
  rw [encode_eq]
  exact (crc_parts (payload r) (str "6304") _ header_length
    (by rw [crc16StringWithTag_eq, crc16String_length])).2.2.2

/-- C24: for every transfer `r` with an amount that is not negative (and, being an
`int64`, below `2 ^ 63`) and with at most 61 bytes of bank identifier and account
number together, whatever these bytes and whatever the message, the name and the
city, `Decode (Encode r)` returns without error a record with the bank identifier,
the account number and the amount of `r`, the message, the name and the city
normalized and truncated (to 50, 25 and 15 characters; the city `Ha Noi` when
`r` has none), the payload format `01`, the currency `704`, the country `VN`, the
last four characters of `Encode r` as checksum, and a true validity flag. -/
theorem decode_encode_record (r : TransferInfo)
    (h0 : 0 ≤ r.Amount) (h63 : r.Amount < 2 ^ 63)
    (hlen : r.BankBin.length + r.AccountNumber.length ≤ 61) :
    ∃ info, Decode (Encode r) = .ok info ∧
      info.BankBin = r.BankBin ∧ info.AccountNumber = r.AccountNumber ∧
      info.Amount = r.Amount ∧
      info.Message = truncateString (removeVietnameseDiacritics r.Message) 50 ∧
      info.MerchantName = truncateString (removeVietnameseDiacritics r.MerchantName) 25 ∧
      info.MerchantCity = truncateString (removeVietnameseDiacritics
        (if r.MerchantCity = [] then str "Ha Noi" else r.MerchantCity)) 15 ∧
      info.PayloadFormat = str "01" ∧ info.Currency = str "704" ∧ info.Country = str "VN" ∧
      info.CRC = (Encode r).drop ((Encode r).length - 4) ∧
      info.IsValid = true :=
  ⟨decodedOf r, decode_encode r h0 h63 hlen, rfl, rfl, rfl, rfl, rfl, rfl, rfl, rfl, rfl,
    (encode_drop_last_four r).symm, rfl⟩

theorem decode_encode_record_witness :
    (0 ≤ vietnameseTransfer.Amount ∧ vietnameseTransfer.Amount < 2 ^ 63 ∧
      vietnameseTransfer.BankBin.length + vietnameseTransfer.AccountNumber.length ≤ 61) ∧
    ∃ info, Decode (Encode vietnameseTransfer) = .ok info ∧
      info.BankBin = vietnameseTransfer.BankBin ∧
      info.AccountNumber = vietnameseTransfer.AccountNumber ∧
      info.Amount = vietnameseTransfer.Amount ∧
      info.Message
        = truncateString (removeVietnameseDiacritics vietnameseTransfer.Message) 50 ∧
      info.MerchantName
        = truncateString (removeVietnameseDiacritics vietnameseTransfer.MerchantName) 25 ∧
      info.MerchantCity = truncateString (removeVietnameseDiacritics
        (if vietnameseTransfer.MerchantCity = [] then str "Ha Noi"
         else vietnameseTransfer.MerchantCity)) 15 ∧
      info.PayloadFormat = str "01" ∧ info.Currency = str "704" ∧ info.Country = str "VN" ∧
      info.CRC = (Encode vietnameseTransfer).drop ((Encode vietnameseTransfer).length - 4) ∧
      info.IsValid = true :=
  ⟨by decide, decode_encode_record vietnameseTransfer (by decide) (by decide) (by decide)⟩

/-! ### Substrings and length of an encoded transfer -/

theorem value_infix_tlv (tag value : GoString) : value <:+: tlv tag value := by
  rw [tlv_eq]
  exact (List.suffix_append _ _).isInfix

theorem tlv_infix_serialize (us : List (GoString × GoString)) (u : GoString × GoString)
    (h : u ∈ us) : tlv u.1 u.2 <:+: serialize us := by
  induction us with
  | nil => cases h
  | cons v vs ih =>
    rw [serialize_cons]
    rcases List.mem_cons.mp h with h1 | h1
    · subst h1
      exact (List.prefix_append _ _).isInfix
    · exact (ih h1).trans ((List.suffix_append _ _).isInfix)

theorem value_infix_serialize (us : List (GoString × GoString)) (tag value : GoString)
    (h : (tag, value) ∈ us) : value <:+: serialize us :=
  (value_infix_tlv tag value).trans (tlv_infix_serialize us (tag, value) h)

theorem unit_infix_encode (r : TransferInfo) (u : GoString × GoString)
    (h : u ∈ payloadUnits r) : tlv u.1 u.2 <:+: Encode r := by
  rw [encode_eq_serialize]
  exact tlv_infix_serialize _ u (List.mem_append_left _ h)

theorem merchantAccount_infix_encode (r : TransferInfo) :
    buildMerchantAccount r.BankBin r.AccountNumber <:+: Encode r :=
  (value_infix_tlv TagMerchantAccount _).trans
    (unit_infix_encode r (TagMerchantAccount, _)
      ((mem_payloadUnits r _).mpr (Or.inr (Or.inr (Or.inl rfl)))))

theorem beneficiary_infix_encode (r : TransferInfo) :
    buildBeneficiaryOrg r.BankBin r.AccountNumber <:+: Encode r := by
  refine List.IsInfix.trans ?_ (merchantAccount_infix_encode r)
  rw [buildMerchantAccount_eq]
  exact value_infix_serialize _ (str "01") _ (by simp)

theorem formatLength_length (n : Nat) : 2 ≤ (formatLength (n : Int)).length := by
  unfold formatLength Itoa FormatInt formatNat
  have hn : ¬ ((n : Int) < 0) := by omega
  rw [if_neg hn, Int.toNat_ofNat]
  by_cases h : (n : Int) < 10
  · rw [if_pos h, List.length_append]
    have := List.length_pos.mpr (formatNatAux_ne_nil n n)
    have h0 : (str "0").length = 1 := by decide
    omega
  · rw [if_neg h]
    obtain ⟨m, rfl⟩ : ∃ m, n = m + 1 := ⟨n - 1, by omega⟩
    have h10 : ¬ (m + 1 < 10) := by omega
    rw [formatNatAux, if_neg h10, List.length_append]
    have := List.length_pos.mpr (formatNatAux_ne_nil m ((m + 1) / 10))
    simp only [List.length_singleton]
    omega

theorem tlv_length_ge (tag value : GoString) (ht : tag.length = 2) :
    4 + value.length ≤ (tlv tag value).length := by
  rw [tlv_eq, List.length_append, List.length_append, ht]
  have := formatLength_length value.length
  omega

theorem buildMerchantAccount_length_ge (bin acct : GoString) :
    38 ≤ (buildMerchantAccount bin acct).length := by
  rw [buildMerchantAccount_eq]
  simp only [serialize_cons, serialize_nil, List.length_append, List.length_nil]
  have h1 : (tlv SubTagGUID NAPAS_GUID).length = 14 := by decide
  have h2 : (tlv (str "02") TransferToAccount).length = 12 := by decide
  have h3 := tlv_length_ge (str "01") (buildBeneficiaryOrg bin acct) (by decide)
  have h4 : 8 ≤ (buildBeneficiaryOrg bin acct).length := by
    rw [buildBeneficiaryOrg_eq]
    simp only [serialize_cons, serialize_nil, List.length_append, List.length_nil]
    have h5 := tlv_length_ge (str "00") bin (by decide)
    have h6 := tlv_length_ge (str "01") acct (by decide)
    omega
  omega

theorem runes_ne_nil (s : GoString) (h : s ≠ []) : runes s ≠ [] := by
  cases s with
  | nil => exact absurd rfl h
  | cons b rest => rw [runes_cons]; exact List.cons_ne_nil _ _

theorem cityValue_ne_nil (r : TransferInfo) : 1 ≤ (cityValue r).length := by
  unfold cityValue
  have hne : (if r.MerchantCity = [] then str "Ha Noi" else r.MerchantCity) ≠ [] := by
    by_cases h : r.MerchantCity = []
    · rw [if_pos h]; decide
    · rw [if_neg h]; exact h
  generalize (if r.MerchantCity = [] then str "Ha Noi" else r.MerchantCity) = c at hne
  rw [truncateString_ascii _ _ (removeVietnameseDiacritics_ascii c), List.length_take,
    removeVietnameseDiacritics_length]
  have := List.length_pos.mpr (runes_ne_nil c hne)
  omega

theorem initiationCode_length (r : TransferInfo) : (initiationCode r).length = 2 := by
  unfold initiationCode
  split_ifs <;> decide

theorem payload_length_ge (r : TransferInfo) : 72 ≤ (payload r).length := by
  unfold payload
  simp only [List.length_append]
  have h1 : (tlv TagPayloadFormat PayloadFormatEMV).length = 6 := by decide
  have h2 := tlv_length_ge TagInitiationMethod (initiationCode r) (by decide)
  have h3 := tlv_length_ge TagMerchantAccount
    (buildMerchantAccount r.BankBin r.AccountNumber) (by decide)
  have h4 : (tlv TagCurrency CurrencyVND).length = 7 := by decide
  have h5 : (tlv TagCountry CountryVN).length = 6 := by decide
  have h6 := tlv_length_ge TagMerchantCity (cityValue r) (by decide)
  have h7 := cityValue_ne_nil r
  have h8 := buildMerchantAccount_length_ge r.BankBin r.AccountNumber
  have h9 := initiationCode_length r
  omega

/-! ### Every ASCII byte is a character of its own -/

theorem utf8Lead_low : ∀ b0 : Byte, ∀ p ∈ utf8Lead b0.val, 0x80 ≤ p.2.1 := by decide

/-- The bytes that `decodeRune` consumes after the first are continuation bytes,
none of them ASCII. -/
theorem decodeRune_continuation (b0 : Byte) (rest : GoString) :
    ∀ b ∈ rest.take ((decodeRune b0 rest).2 - 1), 128 ≤ b.val := by
  unfold decodeRune
  by_cases h0 : b0.val < RuneSelf
  · rw [if_pos h0]; intro b hb; simp at hb
  rw [if_neg h0]
  have hf := utf8Lead_low b0
  cases hl : utf8Lead b0.val with
  | none => intro b hb; simp at hb
  | some p =>
    obtain ⟨sz, lo, hi⟩ := p
    have hlo : 0x80 ≤ lo := hf (sz, lo, hi) hl
    simp only
    cases rest with
    | nil => intro b hb; simp at hb
    | cons b1 rest1 =>
      simp only
      split
      · intro b hb; simp at hb
      · rename_i hb1
        split
        · intro b hb
          simp at hb
          subst hb
          omega
        · cases rest1 with
          | nil => intro b hb; simp at hb
          | cons b2 rest2 =>
            simp only
            split
            · intro b hb; simp at hb
            · rename_i hb2
              split
              · intro b hb
                simp at hb
                rcases hb with hb | hb <;> subst hb <;> omega
              · cases rest2 with
                | nil => intro b hb; simp at hb
                | cons b3 rest3 =>
                  simp only
                  split
                  · intro b hb; simp at hb
                  · rename_i hb3
                    intro b hb
                    simp at hb
                    rcases hb with hb | hb | hb <;> subst hb <;> omega

theorem asciiCount_append (s t : GoString) :
    asciiCount (s ++ t) = asciiCount s + asciiCount t := by
  simp only [asciiCount, List.countP_append]

theorem asciiCount_of_ascii (s : GoString) (h : isASCII s) : asciiCount s = s.length := by
  unfold asciiCount
  rw [List.countP_eq_length]
  intro b hb
  exact decide_eq_true (h b hb)

theorem asciiCount_of_high (s : GoString) (h : ∀ b ∈ s, 128 ≤ b.val) : asciiCount s = 0 := by
  unfold asciiCount
  rw [List.countP_eq_zero]
  intro b hb
  have := h b hb
  simp only [decide_eq_true_eq]
  omega

theorem asciiCount_cons_le (b : Byte) (s : GoString) : asciiCount (b :: s) ≤ asciiCount s + 1 := by
  unfold asciiCount
  rw [List.countP_cons]
  split <;> omega

/-- A string has at least as many characters (runes) as it has ASCII bytes. -/
theorem asciiCount_le_runes (n : Nat) : ∀ s : GoString, s.length ≤ n →
    asciiCount s ≤ (runes s).length := by
  induction n with
  | zero =>
    intro s hs
    have : s = [] := List.eq_nil_of_length_eq_zero (by omega)
    subst this
    exact Nat.zero_le _
  | succ n ih =>
    intro s hs
    cases s with
    | nil => exact Nat.zero_le _
    | cons b0 rest =>
      rw [runes_cons, List.length_cons]
      have hsplit := List.take_append_drop ((decodeRune b0 rest).2 - 1) rest
      have h1 := asciiCount_of_high _ (decodeRune_continuation b0 rest)
      have h2 : asciiCount rest
          = asciiCount (rest.drop ((decodeRune b0 rest).2 - 1)) := by
        conv_lhs => rw [← hsplit]
        rw [asciiCount_append, h1, Nat.zero_add]
      have h3 := ih (rest.drop ((decodeRune b0 rest).2 - 1)) (by
        rw [List.length_drop]; simp only [List.length_cons] at hs; omega)
      have h4 := asciiCount_cons_le b0 rest
      omega

theorem formatLength_ascii (n : Nat) : isASCII (formatLength (n : Int)) := by
  unfold formatLength Itoa FormatInt formatNat
  have hn : ¬ ((n : Int) < 0) := by omega
  rw [if_neg hn, Int.toNat_ofNat]
  have hd : isASCII (formatNatAux (n + 1) n) := fun b hb => by
    have := formatNatAux_digits (n + 1) n b hb
    omega
  split
  · intro b hb
    rcases List.mem_append.mp hb with h | h
    · have h0 : isASCII (str "0") := by decide
      exact h0 b h
    · exact hd b h
  · exact hd

theorem asciiCount_tlv (tag value : GoString) (ht : tag.length = 2) (ha : isASCII tag) :
    4 + asciiCount value ≤ asciiCount (tlv tag value) := by
  rw [tlv_eq, asciiCount_append, asciiCount_append, asciiCount_of_ascii tag ha,
    asciiCount_of_ascii _ (formatLength_ascii value.length), ht]
  have := formatLength_length value.length
  omega

theorem asciiCount_buildMerchantAccount (bin acct : GoString) :
    38 ≤ asciiCount (buildMerchantAccount bin acct) := by
  rw [buildMerchantAccount_eq]
  simp only [serialize_cons, serialize_nil, asciiCount_append]
  have h1 : asciiCount (tlv SubTagGUID NAPAS_GUID) = 14 := by decide
  have h2 : asciiCount (tlv (str "02") TransferToAccount) = 12 := by decide
  have h3 := asciiCount_tlv (str "01") (buildBeneficiaryOrg bin acct) (by decide) (by decide)
  have h4 : 8 ≤ asciiCount (buildBeneficiaryOrg bin acct) := by
    rw [buildBeneficiaryOrg_eq]
    simp only [serialize_cons, serialize_nil, asciiCount_append]
    have h5 := asciiCount_tlv (str "00") bin (by decide) (by decide)
    have h6 := asciiCount_tlv (str "01") acct (by decide) (by decide)
    omega
  omega

theorem asciiCount_cityValue (r : TransferInfo) : 1 ≤ asciiCount (cityValue r) := by
  have ha : isASCII (cityValue r) := by
    unfold cityValue
    rw [truncateString_ascii _ _ (removeVietnameseDiacritics_ascii _)]
    exact isASCII_take _ _ (removeVietnameseDiacritics_ascii _)
  rw [asciiCount_of_ascii _ ha]
  exact cityValue_ne_nil r

theorem asciiCount_payload (r : TransferInfo) : 72 ≤ asciiCount (payload r) := by
  unfold payload
  simp only [asciiCount_append]
  have h1 : asciiCount (tlv TagPayloadFormat PayloadFormatEMV) = 6 := by decide
  have h2 := asciiCount_tlv TagInitiationMethod (initiationCode r) (by decide) (by decide)
  have h2a : asciiCount (initiationCode r) = 2 := by
    unfold initiationCode
    split_ifs <;> decide
  have h3 := asciiCount_tlv TagMerchantAccount
    (buildMerchantAccount r.BankBin r.AccountNumber) (by decide) (by decide)
  have h4 : asciiCount (tlv TagCurrency CurrencyVND) = 7 := by decide
  have h5 : asciiCount (tlv TagCountry CountryVN) = 6 := by decide
  have h6 := asciiCount_tlv TagMerchantCity (cityValue r) (by decide) (by decide)
  have h7 := asciiCount_cityValue r
  have h8 := asciiCount_buildMerchantAccount r.BankBin r.AccountNumber
  omega

/-- The output of `Encode` has at least 80 characters, however the bytes of the
bank identifier and the account number decode. -/
theorem encode_runes_length (r : TransferInfo) : 80 ≤ (runes (Encode r)).length := by
  refine le_trans ?_ (asciiCount_le_runes _ (Encode r) (le_refl _))
  rw [encode_eq, asciiCount_append, asciiCount_append]
  have h1 := asciiCount_payload r
  have h2 : asciiCount (str "6304") = 4 := by decide
  have h3 : asciiCount (CRC16StringWithTag (payload r)) = 4 := by
    rw [asciiCount_of_ascii, crc16StringWithTag_eq, crc16String_length]
    intro b hb
    rw [crc16StringWithTag_eq] at hb
    have := crc16String_upper _ b hb
    unfold isUpperHex at this
    omega
  omega

/-- C22: for every transfer `r`, `Encode r` contains the substrings `000201`,
`A000000727`, the bank identifier and the account number of `r`, `5303704`,
`5802VN` and `6304`, and is at least 80 long, both in bytes (the `len` that the
test measures) and in characters; for the fixture with bank identifier `970436`
and account number `1234567890` it also contains `010211`. -/
theorem encode_substrings_and_length (r : TransferInfo) :
    str "000201" <:+: Encode r ∧ str "A000000727" <:+: Encode r ∧
    r.BankBin <:+: Encode r ∧ r.AccountNumber <:+: Encode r ∧
    str "5303704" <:+: Encode r ∧ str "5802VN" <:+: Encode r ∧ str "6304" <:+: Encode r ∧
    80 ≤ (Encode r).length ∧ 80 ≤ (runes (Encode r)).length ∧
    str "010211" <:+: Encode staticFixture := by
  refine ⟨?_, ?_, ?_, ?_, ?_, ?_, ?_, ?_, encode_runes_length r, ?_⟩
  · have h := unit_infix_encode r (TagPayloadFormat, PayloadFormatEMV)
      ((mem_payloadUnits r _).mpr (Or.inl rfl))
    exact h
  · refine List.IsInfix.trans ?_ (merchantAccount_infix_encode r)
    rw [buildMerchantAccount_eq]
    exact value_infix_serialize _ SubTagGUID NAPAS_GUID (by simp)
  · refine List.IsInfix.trans ?_ (beneficiary_infix_encode r)
    rw [buildBeneficiaryOrg_eq]
    exact value_infix_serialize _ (str "00") _ (by simp)
  · refine List.IsInfix.trans ?_ (beneficiary_infix_encode r)
    rw [buildBeneficiaryOrg_eq]
    exact value_infix_serialize _ (str "01") _ (by simp)
  · have h := unit_infix_encode r (TagCurrency, CurrencyVND)
      ((mem_payloadUnits r _).mpr (Or.inr (Or.inr (Or.inr (Or.inl rfl)))))
    exact h
  · have h := unit_infix_encode r (TagCountry, CountryVN)
      ((mem_payloadUnits r _).mpr (Or.inr (Or.inr (Or.inr (Or.inr (Or.inr (Or.inl rfl)))))))
    exact h
  · rw [encode_eq]
    exact List.infix_append _ _ _
  · rw [encode_eq, List.length_append, List.length_append, crc16StringWithTag_eq,
      crc16String_length, header_length]
    have := payload_length_ge r
    omega
  · obtain ⟨t, ht⟩ := payload_prefix staticFixture
    have hc : initiationCode staticFixture = InitiationStatic := by decide
    rw [hc, tlv_static] at ht
    exact ⟨_, t, ht⟩

/-! ### Length fields with a sign -/

/-- C25 fails on the code: `readTLV` takes the length from `strconv.Atoi`, which
accepts a sign. The unit `00+5ABCDE` is read with length 5 and sets the payload
format; after the unit `00-0` of length 0 the scan goes on and reads the country;
inside the merchant-account group the unit `01+9...` is read with length 9 and
its bank identifier reaches the record. With the length field `ab` the scan
does stop without error, as the claim says. -/
theorem decode_accepts_signed_lengths :
    Decode (str "00+5ABCDE")
      = Outcome.ok { DecodedInfo.zero with PayloadFormat := str "ABCDE" } ∧
    Decode (str "00-05802VN") = Outcome.ok { DecodedInfo.zero with Country := str "VN" } ∧
    Decode (str "381301+90005ABCDE")
      = Outcome.ok { DecodedInfo.zero with BankBin := str "ABCDE" } ∧
    Decode (str "00ab5802VN") = Outcome.ok DecodedInfo.zero := by
  decide

/-! ### The amount unit -/

/-- C27: when the top-level scan of `Decode` reads an amount unit (tag 54) with
the value `v`, no error arises and the scan goes on with the units that follow:
if `v` parses as a base-10 64-bit integer the record has that integer as amount
from then on, and if it does not the record is the one from before the unit. -/
theorem amount_unit_is_lenient (d d2 : Decoder) (v : GoString) (info : DecodedInfo)
    (k : Nat) (h : d.readTLV = .ok (TagAmount, v, d2)) :
    (∀ amt, ParseInt v = some amt →
      decodeLoop (k + 1) d info = decodeLoop k d2 { info with Amount := amt }) ∧
    (ParseInt v = none → decodeLoop (k + 1) d info = decodeLoop k d2 info) := by
  obtain ⟨_, _, h3, h4, _, _⟩ := readTLV_ok h
  have hlt : d.pos < d.length := by omega
  constructor
  · intro amt hp
    simp only [decodeLoop]
    rw [if_pos hlt, h]
    simp only
    rw [decodeField_amount, hp]
    rfl
  · intro hp
    simp only [decodeLoop]
    rw [if_pos hlt, h]
    simp only
    rw [decodeField_amount, hp]
    rfl

theorem amount_unit_is_lenient_witness :
    (NewDecoder (str "5403abc5802VN")).readTLV
      = .ok (TagAmount, str "abc", ⟨str "5403abc5802VN", 7, 13⟩) ∧
    ((∀ amt, ParseInt (str "abc") = some amt →
      decodeLoop (3 + 1) (NewDecoder (str "5403abc5802VN")) DecodedInfo.zero
        = decodeLoop 3 ⟨str "5403abc5802VN", 7, 13⟩
            { DecodedInfo.zero with Amount := amt }) ∧
    (ParseInt (str "abc") = none →
      decodeLoop (3 + 1) (NewDecoder (str "5403abc5802VN")) DecodedInfo.zero
        = decodeLoop 3 ⟨str "5403abc5802VN", 7, 13⟩ DecodedInfo.zero)) ∧
    Decode (str "5403abc5802VN") = .ok { DecodedInfo.zero with Country := str "VN" } ∧
    Decode (str "5402125403abc5802VN")
      = .ok { DecodedInfo.zero with Amount := 12, Country := str "VN" } ∧
    Decode (str "5403abc5402125802VN")
      = .ok { DecodedInfo.zero with Amount := 12, Country := str "VN" } :=
  ⟨by decide,
   amount_unit_is_lenient (NewDecoder (str "5403abc5802VN")) ⟨str "5403abc5802VN", 7, 13⟩
     (str "abc") DecodedInfo.zero 3 (by decide),
   by decide, by decide, by decide⟩

/-! ### Termination of the scans -/

theorem unitsRead_le (fuel : Nat) (d : Decoder) (hle : d.pos ≤ d.length) :
    4 * (unitsRead fuel d : Int) ≤ d.length - d.pos := by
  induction fuel generalizing d with
  | zero => simp only [unitsRead, Nat.cast_zero]; omega
  | succ n ih =>
    simp only [unitsRead]
    split
    · cases hr : d.readTLV with
      | ok r =>
        obtain ⟨tag, value, d2⟩ := r
        obtain ⟨_, h2, h3, h4, _, _⟩ := readTLV_ok hr
        have := ih d2 (by omega)
        simp only
        push_cast
        omega
      | err e => simp only [Nat.cast_zero]; omega
      | panic => simp only [Nat.cast_zero]; omega
      | unfinished => simp only [Nat.cast_zero]; omega
    · simp only [Nat.cast_zero]; omega

theorem decode_ne_unfinished (s : GoString) : Decode s ≠ .unfinished := by
  by_cases h : s.length < 8
  · rw [decode_short s h]; exact fun h => by cases h
  · rcases decode_ok_or_panic s (by omega) with ⟨j, hj⟩ | hp
    · rw [hj]; exact fun h => by cases h
    · rw [hp]; exact fun h => by cases h

/-- C30: for every string `s` the scan of `Decode` ends: with the
`len(s) / 4 + 1` iterations that the model gives each loop, neither `Decode` nor
a nested parsing method runs out of iterations. Every unit that is read moves
the cursor forward by at least 4 and not past the length of the string scanned,
and its value, the string of a nested scan, is shorter than that string; so a
loop reads at most `len(s) / 4` units. The scans are nested three deep: the
handlers of the innermost loops, those of the beneficiary group and of the
additional data, are plain assignments that start no scan. -/
theorem decode_scan_terminates (s : GoString) :
    Decode s ≠ .unfinished ∧
    (∀ info, parseMerchantAccount s info ≠ .unfinished ∧
      parseBeneficiaryOrg s info ≠ .unfinished ∧
      parseAdditionalData s info ≠ .unfinished) ∧
    (∀ (d d2 : Decoder) (tag value : GoString), d.readTLV = .ok (tag, value, d2) →
      d.pos + 4 ≤ d2.pos ∧ d2.pos ≤ d2.length ∧ d2.length = d.length ∧
      d2.pos = d.pos + 4 + value.length) ∧
    (∀ fuel, unitsRead fuel (NewDecoder s) ≤ s.length / 4) ∧
    (∀ info, parseMerchantAccount s info
      = scanLoop (fun t v i => if t = str "01" then parseBeneficiaryOrg v i else .ok i)
          (s.length / 4 + 1) (NewDecoder s) info) ∧
    (∀ info, parseBeneficiaryOrg s info
      = scanLoop (fun t v i => .ok (beneficiaryField t v i))
          (s.length / 4 + 1) (NewDecoder s) info) ∧
    (∀ info, parseAdditionalData s info
      = scanLoop (fun t v i => .ok (additionalDataField t v i))
          (s.length / 4 + 1) (NewDecoder s) info) := by
  refine ⟨decode_ne_unfinished s, ?_, ?_, ?_, ?_, ?_, ?_⟩
  · intro info
    refine ⟨?_, ?_, ?_⟩
    · rcases parseMerchantAccount_ok_or_panic s info with ⟨j, hj⟩ | hp
      · rw [hj]; exact fun h => by cases h
      · rw [hp]; exact fun h => by cases h
    · rcases parseBeneficiaryOrg_ok_or_panic s info with ⟨j, hj⟩ | hp
      · rw [hj]; exact fun h => by cases h
      · rw [hp]; exact fun h => by cases h
    · rcases parseAdditionalData_ok s info with ⟨j, hj⟩ | hp
      · rw [hj]; exact fun h => by cases h
      · rw [hp]; exact fun h => by cases h
  · intro d d2 tag value h
    obtain ⟨_, h2, h3, h4, h5, _⟩ := readTLV_ok h
    exact ⟨h3, by omega, h2, h5⟩
  · intro fuel
    have := unitsRead_le fuel (NewDecoder s) (by simp [NewDecoder])
    generalize unitsRead fuel (NewDecoder s) = n at this
    simp only [NewDecoder] at this
    omega
  · intro info
    simp only [parseMerchantAccount, parseMerchantAccountLoop_eq, NewDecoder]
    rfl
  · intro info
    simp only [parseBeneficiaryOrg, parseBeneficiaryOrgLoop_eq, NewDecoder]
  · intro info
    simp only [parseAdditionalData, parseAdditionalDataLoop_eq, NewDecoder]

/-! ### Units followed by a truncated remainder -/

theorem readTLV_truncated (pre rem : GoString) (h : Truncated rem) :
    ∃ e, Decoder.readTLV ⟨pre ++ rem, pre.length, (pre ++ rem).length⟩ = .err e := by
  rcases h with h | ⟨tag, ls, tail, n, rfl, ht, hl, hn, hlt⟩
  · refine ⟨.ErrInvalidQRString, ?_⟩
    rw [readTLV_def]
    simp only
    rw [if_pos (by rw [List.length_append]; push_cast; omega)]
  · refine ⟨.ErrInvalidLength, ?_⟩
    have hN : (pre ++ (tag ++ ls ++ tail)).length = pre.length + 4 + tail.length := by
      simp only [List.length_append, ht, hl]; omega
    have s1 : slice (pre ++ (tag ++ ls ++ tail)) (pre.length : Int) ((pre.length : Int) + 2)
        = some tag := by
      have := slice_append_mid pre tag (ls ++ tail)
      rw [ht] at this
      simpa only [List.append_assoc, Nat.cast_ofNat] using this
    have s2 : slice (pre ++ (tag ++ ls ++ tail)) ((pre.length : Int) + 2)
        ((pre.length : Int) + 2 + 2) = some ls := by
      have := slice_append_mid (pre ++ tag) ls tail
      rw [hl, List.length_append, ht] at this
      simpa only [List.append_assoc, Nat.cast_add, Nat.cast_ofNat] using this
    have h4 : ¬ ((pre.length : Int) + 4 > ((pre ++ (tag ++ ls ++ tail)).length : Int)) := by
      rw [hN]; push_cast; omega
    have h5 : (pre.length : Int) + 2 + 2 + n
        > ((pre ++ (tag ++ ls ++ tail)).length : Int) := by
      rw [hN]; push_cast; omega
    rw [readTLV_def]
    simp only
    rw [if_neg h4, s1]
    simp only
    rw [s2]
    simp only
    rw [hn]
    simp only
    rw [if_pos h5]

theorem scanLoop_truncated (field : GoString → GoString → DecodedInfo → Outcome DecodedInfo)
    (k : Nat) (pre rem : GoString) (info : DecodedInfo) (h : Truncated rem) :
    scanLoop field (k + 1) ⟨pre ++ rem, pre.length, (pre ++ rem).length⟩ info = .ok info := by
  obtain ⟨e, he⟩ := readTLV_truncated pre rem h
  simp only [scanLoop]
  split
  · rw [he]
  · rfl

/-- A string of well-formed units followed by a truncated remainder is decoded as
its units alone: `Decode` applies their fields in order to the record that the
checksum block leaves. The result is a record unless a field panics, which the
nested scans do on a negative length. -/
theorem decode_truncated (us : List (GoString × GoString)) (rem : GoString)
    (hwf : ∀ u ∈ us, WellFormed u) (hrem : Truncated rem)
    (h8 : 8 ≤ (serialize us ++ rem).length) :
    ∃ crc, Decode (serialize us ++ rem)
      = runFields decodeField us
          { DecodedInfo.zero with CRC := crc, IsValid := validCRC (serialize us ++ rem) } := by
  obtain ⟨crc, hd⟩ := decode_long _ h8
  refine ⟨crc, ?_⟩
  rw [hd]
  have hlen := serialize_length us hwf
  obtain ⟨k, hk⟩ : ∃ k, (serialize us ++ rem).length / 4 + 1 = us.length + (k + 1) :=
    ⟨(serialize us ++ rem).length / 4 - us.length, by
      rw [List.length_append]; omega⟩
  have := scanLoop_units decodeField us hwf (k + 1) [] rem
    { DecodedInfo.zero with CRC := crc, IsValid := validCRC (serialize us ++ rem) }
  simp only [List.nil_append, List.length_nil, Nat.cast_zero] at this
  rw [hk]
  unfold NewDecoder
  rw [this]
  have hend : scanLoop decodeField (k + 1)
      ⟨serialize us ++ rem, (serialize us).length, (serialize us ++ rem).length⟩
        = fun i => .ok i :=
    funext (fun i => scanLoop_truncated decodeField k _ rem i hrem)
  rw [hend]
  cases runFields decodeField us _ <;> rfl

theorem formatLength_all_digits : ∀ n : Fin 100,
    (formatLength (n.val : Int)).all (fun b => decide (48 ≤ b.val ∧ b.val ≤ 57)) = true := by
  decide

theorem formatLength_parseDigits : ∀ n : Fin 100,
    parseDigits (formatLength (n.val : Int)) 0 = some n.val := by
  decide

theorem formatLength_digits (n : Fin 100) :
    (∀ b ∈ formatLength (n.val : Int), 48 ≤ b.val ∧ b.val ≤ 57) ∧
    parseDigits (formatLength (n.val : Int)) 0 = some n.val := by
  refine ⟨?_, formatLength_parseDigits n⟩
  intro b hb
  have := List.all_eq_true.mp (formatLength_all_digits n) b hb
  exact of_decide_eq_true this

/-- C28, as stated, fails: the bank identifier `Đ` is one character (one code
point) but two bytes, and `Encode` writes its unit as `0002Đ`, with the length
field `02`. -/
theorem length_field_counterexample :
    (runes nonAsciiBank.BankBin).length = 1 ∧ nonAsciiBank.BankBin.length = 2 ∧
    buildBeneficiaryOrg nonAsciiBank.BankBin nonAsciiBank.AccountNumber
      = str "00" ++ str "02" ++ nonAsciiBank.BankBin ++ str "01101234567890" ∧
    str "00" ++ str "02" ++ nonAsciiBank.BankBin ++ str "01101234567890"
      <:+: Encode nonAsciiBank := by
  refine ⟨by decide, by decide, by decide, ?_⟩
  have h : buildBeneficiaryOrg nonAsciiBank.BankBin nonAsciiBank.AccountNumber
      = str "00" ++ str "02" ++ nonAsciiBank.BankBin ++ str "01101234567890" := by decide
  rw [← h]
  exact beneficiary_infix_encode nonAsciiBank

/-- C28, amended: the length that `Encode` writes for a unit is the number of
bytes of the unit's value. `Encode r` and the groups nested in it are sequences
of units, each written as its tag, its length field and its value; whenever the
value has at most 99 bytes the length field is two decimal digits that denote
the number of bytes, which is the number of characters when the value is ASCII. -/
theorem length_field_counts_bytes (r : TransferInfo) :
    Encode r = serialize (payloadUnits r ++ [(TagCRC, CRC16StringWithTag (payload r))]) ∧
    buildMerchantAccount r.BankBin r.AccountNumber
      = serialize [(SubTagGUID, NAPAS_GUID),
          (str "01", buildBeneficiaryOrg r.BankBin r.AccountNumber),
          (str "02", TransferToAccount)] ∧
    buildBeneficiaryOrg r.BankBin r.AccountNumber
      = serialize [(str "00", r.BankBin), (str "01", r.AccountNumber)] ∧
    buildAdditionalData r.Message
      = serialize [(SubTagPurpose, truncateString (removeVietnameseDiacritics r.Message) 50)] ∧
    (∀ us : List (GoString × GoString), serialize us = us.flatMap (fun u => tlv u.1 u.2)) ∧
    ∀ tag value : GoString, value.length ≤ 99 →
      ∃ ls, tlv tag value = tag ++ ls ++ value ∧ ls.length = 2 ∧
        (∀ b ∈ ls, 48 ≤ b.val ∧ b.val ≤ 57) ∧ parseDigits ls 0 = some value.length ∧
        (isASCII value → (runes value).length = value.length) := by
  refine ⟨encode_eq_serialize r, buildMerchantAccount_eq _ _, buildBeneficiaryOrg_eq _ _,
    buildAdditionalData_eq _, fun _ => rfl, ?_⟩
  intro tag value hv
  have hd := formatLength_digits ⟨value.length, by omega⟩
  exact ⟨formatLength (value.length : Int), tlv_eq tag value,
    (formatLength_atoi _ hv).1, hd.1, hd.2, runes_length_ascii value⟩

/-! ### A substituted byte changes the checksum -/

theorem ccittShift_lt (c : Nat) : ccittShift c < 2 ^ 16 := by
  unfold ccittShift
  split
  · exact Nat.xor_lt_two_pow (Nat.mod_lt _ (by decide)) (by decide)
  · exact Nat.mod_lt _ (by decide)

theorem xor_poly_odd (a : Nat) (h : a % 2 = 0) : (a ^^^ 0x1021) % 2 = 1 := by
  have h1 : (a ^^^ 0x1021).testBit 0 = true := by
    rw [Nat.testBit_xor, Nat.testBit_zero, Nat.testBit_zero]
    simp [h]
  rw [Nat.testBit_zero] at h1
  exact of_decide_eq_true h1

theorem ccittShift_injective (c1 c2 : Nat) (h1 : c1 < 2 ^ 16) (h2 : c2 < 2 ^ 16)
    (h : ccittShift c1 = ccittShift c2) : c1 = c2 := by
  unfold ccittShift at h
  have e1 : (c1 * 2 % 2 ^ 16) % 2 = 0 := by omega
  have e2 : (c2 * 2 % 2 ^ 16) % 2 = 0 := by omega
  have o1 := xor_poly_odd _ e1
  have o2 := xor_poly_odd _ e2
  by_cases t1 : c1 / 2 ^ 15 % 2 = 1 <;> by_cases t2 : c2 / 2 ^ 15 % 2 = 1
  · rw [if_pos t1, if_pos t2] at h
    have := Nat.xor_left_inj.mp h
    omega
  · rw [if_pos t1, if_neg t2] at h
    rw [h] at o1
    omega
  · rw [if_neg t1, if_pos t2] at h
    rw [← h] at o2
    omega
  · rw [if_neg t1, if_neg t2] at h
    omega

theorem iterate_ccittShift_lt (n c : Nat) (h : c < 2 ^ 16) :
    Nat.iterate ccittShift n c < 2 ^ 16 := by
  induction n generalizing c with
  | zero => exact h
  | succ n ih => rw [Function.iterate_succ_apply]; exact ih _ (ccittShift_lt c)

theorem iterate_ccittShift_injective (n c1 c2 : Nat) (h1 : c1 < 2 ^ 16) (h2 : c2 < 2 ^ 16)
    (h : Nat.iterate ccittShift n c1 = Nat.iterate ccittShift n c2) : c1 = c2 := by
  induction n generalizing c1 c2 with
  | zero => exact h
  | succ n ih =>
    rw [Function.iterate_succ_apply, Function.iterate_succ_apply] at h
    exact ccittShift_injective c1 c2 h1 h2 (ih _ _ (ccittShift_lt c1) (ccittShift_lt c2) h)

theorem xor_byte_lt (c : Nat) (b : Byte) (h : c < 2 ^ 16) : c ^^^ (b.val * 2 ^ 8) < 2 ^ 16 :=
  Nat.xor_lt_two_pow h (by have := b.isLt; omega)

theorem crcByte_lt (c : Nat) (b : Byte) (h : c < 2 ^ 16) : crcByte c b < 2 ^ 16 := by
  rw [crcByte_eq]
  exact iterate_ccittShift_lt 8 _ (xor_byte_lt c b h)

/-- The step of `CalculateCRC16` for one byte is injective in the register and in
the byte. -/
theorem crcByte_injective (c1 c2 : Nat) (b1 b2 : Byte) (h1 : c1 < 2 ^ 16) (h2 : c2 < 2 ^ 16)
    (h : crcByte c1 b1 = crcByte c2 b2) :
    c1 ^^^ (b1.val * 2 ^ 8) = c2 ^^^ (b2.val * 2 ^ 8) := by
  rw [crcByte_eq, crcByte_eq] at h
  exact iterate_ccittShift_injective 8 _ _ (xor_byte_lt c1 b1 h1) (xor_byte_lt c2 b2 h2) h

theorem foldl_crcByte_lt (data : GoString) (c : Nat) (h : c < 2 ^ 16) :
    data.foldl crcByte c < 2 ^ 16 := by
  induction data generalizing c with
  | nil => exact h
  | cons b rest ih => exact ih _ (crcByte_lt c b h)

theorem foldl_crcByte_injective (data : GoString) (c1 c2 : Nat) (h1 : c1 < 2 ^ 16)
    (h2 : c2 < 2 ^ 16) (h : data.foldl crcByte c1 = data.foldl crcByte c2) : c1 = c2 := by
  induction data generalizing c1 c2 with
  | nil => exact h
  | cons b rest ih =>
    have := ih _ _ (crcByte_lt c1 b h1) (crcByte_lt c2 b h2) h
    exact Nat.xor_left_inj.mp (crcByte_injective c1 c2 b b h1 h2 this)

/-- Two strings that differ in exactly one byte have different checksums. -/
theorem calculateCRC16_substitution (a rest : GoString) (x y : Byte) (hxy : x ≠ y) :
    CalculateCRC16 (a ++ x :: rest) ≠ CalculateCRC16 (a ++ y :: rest) := by
  intro h
  simp only [CalculateCRC16, crcXorOut, Nat.xor_zero, List.foldl_append, List.foldl_cons] at h
  have hc : a.foldl crcByte crcInit < 2 ^ 16 := foldl_crcByte_lt a crcInit (by decide)
  have h1 := foldl_crcByte_injective rest _ _ (crcByte_lt _ x hc) (crcByte_lt _ y hc) h
  have h2 := Nat.xor_right_inj.mp (crcByte_injective _ _ x y hc hc h1)
  apply hxy
  apply Fin.ext
  omega

theorem sprintf_injective (v w : Nat) (hv : v < 2 ^ 16) (hw : w < 2 ^ 16)
    (h : sprintf v = sprintf w) : v = w := by
  have h1 := hexValue_sprintf v hv
  rw [h, hexValue_sprintf w hw] at h1
  exact (Option.some.inj h1).symm

theorem crc16String_substitution (a rest : GoString) (x y : Byte) (hxy : x ≠ y) :
    CRC16String (a ++ x :: rest) ≠ CRC16String (a ++ y :: rest) := fun h =>
  calculateCRC16_substitution a rest x y hxy
    (sprintf_injective _ _ (calculateCRC16_lt _) (calculateCRC16_lt _) h)

theorem validCRC_substitution (s : GoString) (i : Nat) (b : Byte)
    (hv : validCRC s = true) (hi : i < s.length - 4) (hb : s[i]? ≠ some b) :
    validCRC (s.set i b) = false := by
  unfold validCRC at hv ⊢
  simp only [Bool.and_eq_true, decide_eq_true_eq] at hv
  obtain ⟨⟨h8, _⟩, hf⟩ := hv
  have hlen : (s.set i b).length = s.length := List.length_set _ _ _
  have hil : i < s.length := by omega
  have hx : s[i]? = some s[i] := List.getElem?_eq_getElem hil
  have hne : s[i] ≠ b := fun h => hb (by rw [hx, h])
  have hdrop : (s.set i b).drop (s.length - 4) = s.drop (s.length - 4) :=
    List.drop_set_of_lt b s hi
  have htake : (s.set i b).take (s.length - 4)
      = (s.take i) ++ b :: ((s.take (s.length - 4)).drop (i + 1)) := by
    rw [List.set_take, List.set_eq_take_append_cons_drop, if_pos (by rw [List.length_take]; omega),
      List.take_take, Nat.min_eq_left (by omega)]
  have htake0 : s.take (s.length - 4)
      = (s.take i) ++ s[i] :: ((s.take (s.length - 4)).drop (i + 1)) := by
    have hi2 : i < (s.take (s.length - 4)).length := by rw [List.length_take]; omega
    have := (List.take_append_drop i (s.take (s.length - 4))).symm
    rw [List.take_take, Nat.min_eq_left (by omega)] at this
    rw [List.drop_eq_getElem_cons hi2, List.getElem_take] at this
    exact this
  rw [hlen, hdrop, htake]
  have hfalse : EqualFold
      (CRC16String (s.take i ++ b :: ((s.take (s.length - 4)).drop (i + 1))))
      (s.drop (s.length - 4)) ≠ true := by
    intro h
    rw [equalFold_hex _ _ (crc16String_upper _)] at h hf
    rw [htake0, h] at hf
    exact crc16String_substitution _ _ _ _ hne hf.symm
  rw [Bool.eq_false_iff.mpr hfalse, Bool.and_false]

/-- C29: for every string `s` that `ValidateCRC` accepts, every position `i`
before the last four characters (in the data or in the header `6304`) and every
byte `b` other than the byte of `s` at `i`, the string with the byte at `i`
replaced by `b` is rejected: `ValidateCRC` returns false. A substitution of one
byte outside the checksum characters is always detected. -/
theorem single_byte_substitution_detected (s : GoString) (i : Nat) (b : Byte)
    (hv : ValidateCRC s = .ok true) (hi : i < s.length - 4) (hb : s[i]? ≠ some b) :
    ValidateCRC (s.set i b) = .ok false := by
  rw [validateCRC_eq] at hv ⊢
  rw [validCRC_substitution s i b (Outcome.ok.inj hv) hi hb]

theorem single_byte_substitution_detected_witness :
    (ValidateCRC (str "0002016304AAE6") = .ok true ∧
      3 < (str "0002016304AAE6").length - 4 ∧
      (str "0002016304AAE6")[3]? ≠ some (chr '9')) ∧
    ValidateCRC ((str "0002016304AAE6").set 3 (chr '9')) = .ok false :=
  ⟨⟨by decide, by decide, by decide⟩,
   single_byte_substitution_detected (str "0002016304AAE6") 3 (chr '9')
     (by decide) (by decide) (by decide)⟩

end VietQR
